import Mathlib

/-
  Verification development for `internal/rest/rest.go` (package `rest`):
  variable resolution (`applyVariables`), request assembly and execution
  (`sendRequest`) and the post-request step (`Service.SendRequest`).

  Go strings are modelled as lists of characters.  The patterns searched for in
  this program always start with an opening brace, so they are never empty and
  substring search on UTF-8 bytes and on code points agree.
-/

namespace Rest

abbrev Str := List Char

/-- The opening brace character. -/
def lbrace : Char := Char.ofNat 123

/-- The closing brace character. -/
def rbrace : Char := Char.ofNat 125

/-- True when the text holds neither an opening nor a closing brace. -/
def braceFree (s : Str) : Bool := s.all (fun c => c != lbrace && c != rbrace)

-- ---------------------------------------------------------------------------
-- Go standard library: package strings
-- ---------------------------------------------------------------------------

/-- Go `strings.Contains(s, sub)`: `sub` occurs somewhere in `s`. -/
def contains : Str → Str → Bool
  | [], sub => sub.isEmpty
  | c :: cs, sub => sub.isPrefixOf (c :: cs) || contains cs sub

/-- Left-to-right scan of `strings.ReplaceAll` for a non-empty pattern `old`:
`skip` counts the characters of an occurrence already replaced that are still
to be passed over, so occurrences are the leftmost non-overlapping ones. -/
def replaceFrom (old new : Str) : Nat → Str → Str
  | _, [] => []
  | skip + 1, _ :: cs => replaceFrom old new skip cs
  | 0, c :: cs =>
    if old.isPrefixOf (c :: cs) then new ++ replaceFrom old new (old.length - 1) cs
    else c :: replaceFrom old new 0 cs

/-- Go `strings.ReplaceAll(s, old, new)`: every non-overlapping occurrence of
`old`, taken from the left, is replaced by `new`; for an empty `old` the text
`new` is put before every character and at the end. -/
def replaceAll (s old new : Str) : Str :=
  if old = [] then new ++ s.flatMap (fun c => c :: new) else replaceFrom old new 0 s

-- ---------------------------------------------------------------------------
-- Package domain (types used by rest.go)
-- ---------------------------------------------------------------------------

/-- Modelled from the spec: `domain.KeyValue`, an entry of the ordered
key/value lists (headers, parameters, body pairs, environment values); only
the fields `Key` and `Value` are read by rest.go. -/
structure KeyValue where
  Key : Str
  Value : Str
deriving DecidableEq, Repr

/-- Modelled from the spec: `domain.Body`, the raw text and the two pair
lists of a request body. -/
structure Body where
  Data : Str
  FormBody : List KeyValue
  URLEncoded : List KeyValue
deriving DecidableEq, Repr

/-- Modelled from the spec: `domain.TokenAuth`. -/
structure TokenAuth where
  Token : Str
deriving DecidableEq, Repr

/-- Modelled from the spec: `domain.BasicAuth`. -/
structure BasicAuth where
  Username : Str
  Password : Str
deriving DecidableEq, Repr

/-- Modelled from the spec: `domain.APIKeyAuth`. -/
structure APIKeyAuth where
  Key : Str
  Value : Str
deriving DecidableEq, Repr

/-- Modelled from the spec: `domain.Auth`, a type tag and one optional
(pointer) record per authentication variant; `none` is the nil pointer. -/
structure Auth where
  Kind : Str
  BasicAuth : Option BasicAuth
  TokenAuth : Option TokenAuth
  APIKeyAuth : Option APIKeyAuth
deriving DecidableEq, Repr

/-- Modelled from the spec: `domain.PostRequestSet`. -/
structure PostRequestSet where
  Target : Str
  From : Str
  FromKey : Str
deriving DecidableEq, Repr

/-- Modelled from the spec: `domain.PostRequest`. -/
structure PostRequest where
  Kind : Str
  PostRequestSet : PostRequestSet
deriving DecidableEq, Repr

/-- Modelled from the spec: `domain.HTTPRequest`. -/
structure HTTPRequest where
  Headers : List KeyValue
  PathParams : List KeyValue
  QueryParams : List KeyValue
  Body : Body
  Auth : Auth
  PostRequest : PostRequest
deriving DecidableEq, Repr

/-- Modelled from the spec: `domain.HTTPRequestSpec`. -/
structure HTTPRequestSpec where
  Method : Str
  URL : Str
  Request : HTTPRequest
deriving DecidableEq, Repr

/-- Modelled from the spec: `domain.EnvSpec`, the value list of an
environment. -/
structure EnvSpec where
  Values : List KeyValue
deriving DecidableEq, Repr

/-- The comparison `auth != (domain.Auth{})`: some field differs from its zero
value. -/
def Auth.nonZero (a : Auth) : Bool :=
  a.Kind != [] || a.BasicAuth.isSome || a.TokenAuth.isSome || a.APIKeyAuth.isSome

-- ---------------------------------------------------------------------------
-- applyVariables (rest.go, lines 227-327)
-- ---------------------------------------------------------------------------

/-- The values of the three built-in variables, computed by `uuid.NewString`
and `time.Now` at the start of `applyVariables`. -/
structure Builtins where
  randomUUID4 : Str
  timeNow : Str
  unixTimestamp : Str
deriving DecidableEq, Repr

/-- A Go `map[string]string` as a list of entries with distinct keys. -/
abbrev VarMap := List (Str × Str)

/-- The order in which a `for k, v := range m` loop visits the entries of a
map; Go leaves it unspecified. -/
abbrev MapOrder := VarMap → VarMap

/-- A visiting order is admissible when every entry is visited exactly once. -/
def IsRange (order : MapOrder) : Prop := ∀ m : VarMap, (order m).Perm m

/-- The map literal of lines 230-234. -/
def builtinVariables (b : Builtins) : VarMap :=
  [("randomUUID4".toList, b.randomUUID4),
   ("timeNow".toList, b.timeNow),
   ("unixTimestamp".toList, b.unixTimestamp)]

/-- The names of the built-in variables. -/
def builtinNames : List Str :=
  ["randomUUID4".toList, "timeNow".toList, "unixTimestamp".toList]

/-- The shape of the result of `uuid.NewString()`: 36 characters, each a
digit, a letter from a to f, or a dash. -/
def isUUIDString (s : Str) : Bool :=
  s.length == 36 &&
    s.all (fun c => c.isDigit || (97 ≤ c.toNat && c.toNat ≤ 102) || c.toNat == 45)

/-- The shape of a UTC time formatted with `time.RFC3339`: 20 characters, each
a digit, a dash, a colon, the letter T or the letter Z. -/
def isRFC3339UTC (s : Str) : Bool :=
  s.length == 20 && s.all (fun c => c.isDigit || [45, 58, 84, 90].contains c.toNat)

/-- The shape of the result of `strconv.FormatInt(n, 10)`: at least one digit,
after an optional minus sign. -/
def isDecimal : Str → Bool
  | [] => false
  | c :: cs => if c.toNat = 45 then !cs.isEmpty && cs.all Char.isDigit else (c :: cs).all Char.isDigit

/-- The assignment `m[k] = v` on a map. -/
def mapSet : VarMap → Str → Str → VarMap
  | [], k, v => [(k, v)]
  | (k0, v0) :: m, k, v => if k0 = k then (k, v) :: m else (k0, v0) :: mapSet m k v

/-- The text `"{{" + k + "}}"`. -/
def placeholder (k : Str) : Str := lbrace :: lbrace :: (k ++ [rbrace, rbrace])

/-- The text `"{" + key + "}"`. -/
def pathToken (key : Str) : Str := lbrace :: (key ++ [rbrace])

/-- The statement `if strings.Contains(x, tok) { x = strings.ReplaceAll(x, tok, v) }`
for `tok = "{{" + k + "}}"`. -/
def substitute (k v : Str) (x : Str) : Str :=
  if contains x (placeholder k) then replaceAll x (placeholder k) v else x

/-- The body of a `for i, kv := range xs` loop that rewrites `xs[i].Value`. -/
def substituteValue (k v : Str) (kv : KeyValue) : KeyValue :=
  if contains kv.Value (placeholder k) then
    { kv with Value := replaceAll kv.Value (placeholder k) v }
  else kv

/-- Lines 239-246: the built-ins are substituted into every environment
value, one built-in after the other in the order `visit`. -/
def resolveEnvValues (visit : VarMap) (values : List KeyValue) : List KeyValue :=
  visit.foldl (fun vals kv => vals.map (substituteValue kv.1 kv.2)) values

/-- Lines 249-251: every environment pair is stored into the map. -/
def addEnvValues (vars : VarMap) (values : List KeyValue) : VarMap :=
  values.foldl (fun m kv => mapSet m kv.Key kv.Value) vars

/-- Lines 299-323: the credential fields are rewritten when the auth record is
not the zero value and the pointer of the variant is not nil. -/
def substituteAuth (k v : Str) (a : Auth) : Auth :=
  let a1 : Auth :=
    match a.TokenAuth with
    | some t => if a.nonZero then { a with TokenAuth := some { Token := substitute k v t.Token } } else a
    | none => a
  let a2 : Auth :=
    match a1.BasicAuth with
    | some c =>
      if a1.nonZero then
        { a1 with
          BasicAuth := some { Username := substitute k v c.Username
                              Password := substitute k v c.Password } }
      else a1
    | none => a1
  match a2.APIKeyAuth with
  | some c =>
    if a2.nonZero then
      { a2 with APIKeyAuth := some { Key := substitute k v c.Key, Value := substitute k v c.Value } }
    else a2
  | none => a2

/-- One iteration of the loop of lines 255-325, for the variable `k` with
value `v`. -/
def applyVariable (k v : Str) (req : HTTPRequestSpec) : HTTPRequestSpec :=
  { req with
    URL := substitute k v req.URL
    Request :=
      { req.Request with
        Headers := req.Request.Headers.map (substituteValue k v)
        PathParams := req.Request.PathParams.map (substituteValue k v)
        QueryParams := req.Request.QueryParams.map (substituteValue k v)
        Body :=
          { Data := substitute k v req.Request.Body.Data
            FormBody := req.Request.Body.FormBody.map (substituteValue k v)
            URLEncoded := req.Request.Body.URLEncoded.map (substituteValue k v) }
        Auth := substituteAuth k v req.Request.Auth } }

/-- The environment value list after lines 236-246 (unchanged when there is
no environment). -/
def resolvedEnv (b : Builtins) (order1 : MapOrder) (env : Option EnvSpec) : Option EnvSpec :=
  env.map (fun e => { e with Values := resolveEnvValues (order1 (builtinVariables b)) e.Values })

/-- The map `variables` after lines 230-252. -/
def mergedVariables (b : Builtins) (order1 : MapOrder) (env : Option EnvSpec) : VarMap :=
  match resolvedEnv b order1 env with
  | none => builtinVariables b
  | some e => addEnvValues (builtinVariables b) e.Values

/-- The function `applyVariables(req, env)`: `order1` and `order2` are the
orders in which the two `range` loops over the map visit it.  The request and
the environment are changed in place by the Go code; the model returns both. -/
def applyVariables (b : Builtins) (order1 order2 : MapOrder)
    (req : HTTPRequestSpec) (env : Option EnvSpec) : HTTPRequestSpec × Option EnvSpec :=
  ((order2 (mergedVariables b order1 env)).foldl (fun r kv => applyVariable kv.1 kv.2 r) req,
   resolvedEnv b order1 env)

/-- In the visiting order `l` the variable named `k1` comes before the
variable named `k2`. -/
def VisitedBefore (l : VarMap) (k1 k2 : Str) : Prop :=
  ∃ l1 l2 l3 v1 v2, l = l1 ++ (k1, v1) :: (l2 ++ (k2, v2) :: l3)

/-- The twelve places of a request template that `applyVariables` rewrites. -/
inductive Field where
  | url
  | header (i : Nat)
  | pathParam (i : Nat)
  | queryParam (i : Nat)
  | bodyData
  | formBody (i : Nat)
  | urlEncoded (i : Nat)
  | bearerToken
  | basicUsername
  | basicPassword
  | apiKeyName
  | apiKeyValue
deriving DecidableEq, Repr

/-- The text held by a field of the template, when the template has it. -/
def Field.get : Field → HTTPRequestSpec → Option Str
  | .url, r => some r.URL
  | .header i, r => (r.Request.Headers[i]?).map (fun kv => kv.Value)
  | .pathParam i, r => (r.Request.PathParams[i]?).map (fun kv => kv.Value)
  | .queryParam i, r => (r.Request.QueryParams[i]?).map (fun kv => kv.Value)
  | .bodyData, r => some r.Request.Body.Data
  | .formBody i, r => (r.Request.Body.FormBody[i]?).map (fun kv => kv.Value)
  | .urlEncoded i, r => (r.Request.Body.URLEncoded[i]?).map (fun kv => kv.Value)
  | .bearerToken, r => r.Request.Auth.TokenAuth.map (fun t => t.Token)
  | .basicUsername, r => r.Request.Auth.BasicAuth.map (fun c => c.Username)
  | .basicPassword, r => r.Request.Auth.BasicAuth.map (fun c => c.Password)
  | .apiKeyName, r => r.Request.Auth.APIKeyAuth.map (fun c => c.Key)
  | .apiKeyValue, r => r.Request.Auth.APIKeyAuth.map (fun c => c.Value)

/-- The loop of lines 255-325 seen from one text: the variables are
substituted one after the other. -/
def substituteAll (visit : VarMap) (x : Str) : Str :=
  visit.foldl (fun y kv => substitute kv.1 kv.2 y) x

-- ---------------------------------------------------------------------------
-- sendRequest (rest.go, lines 101-225): assembling the HTTP request
-- ---------------------------------------------------------------------------

/-- Go `url.URL`: the parts of a parsed URL. -/
structure url.URL where
  Scheme : Str
  Host : Str
  Path : Str
  RawQuery : Str
deriving DecidableEq, Repr

/-- Go `map[string][]string` (`http.Header`, `url.Values`): the list of values
stored under each key, empty for a key that is absent. -/
abbrev url.Values := Str → List Str

/-- The map without entries. -/
def url.Values.empty : url.Values := fun _ => []

/-- Go `Values.Add`: the value is appended to the values of the key. -/
def url.Values.Add (m : url.Values) (key value : Str) : url.Values :=
  fun k => if k = key then m k ++ [value] else m k

/-- Go `Values.Set`: the values of the key are replaced by the one value. -/
def url.Values.Set (m : url.Values) (key value : Str) : url.Values :=
  fun k => if k = key then [value] else m k

/-- The functions of the Go standard library that `sendRequest` calls and that
are kept abstract: `http.NewRequest` (checks the method and parses the URL),
`textproto.CanonicalMIMEHeaderKey` (the spelling under which `http.Header`
stores a key) and `base64.StdEncoding.EncodeToString`. -/
structure Lib where
  newRequest : Str → Str → Except Str (Str × url.URL)
  canonicalKey : Str → Str
  base64 : Str → Str

/-- Go `http.Header.Add(key, value)`. -/
def http.Header.Add (lib : Lib) (h : url.Values) (key value : Str) : url.Values :=
  url.Values.Add h (lib.canonicalKey key) value

/-- Go `http.Header.Set(key, value)`. -/
def http.Header.Set (lib : Lib) (h : url.Values) (key value : Str) : url.Values :=
  url.Values.Set h (lib.canonicalKey key) value

/-- Go `http.Header.Values(key)`: the values stored for a key. -/
def http.Header.Values (lib : Lib) (h : url.Values) (key : Str) : List Str :=
  h (lib.canonicalKey key)

/-- Go `http.Request`: the parts that `sendRequest` sets. -/
structure http.Request where
  Method : Str
  URL : url.URL
  Header : url.Values
  Body : Option Str
  PostForm : Option url.Values

/-- Go `(*http.Request).SetBasicAuth(username, password)`. -/
def http.Request.SetBasicAuth (lib : Lib) (h : url.Values) (username password : Str) :
    url.Values :=
  http.Header.Set lib h "Authorization".toList
    ("Basic ".toList ++ lib.base64 (username ++ ":".toList ++ password))

/-- Lines 119-122: every header of the template is added to the request. -/
def applyHeaders (lib : Lib) (headers : List KeyValue) (h : url.Values) : url.Values :=
  headers.foldl (fun acc kv => http.Header.Add lib acc kv.Key kv.Value) h

/-- Lines 124-127: each path parameter in turn replaces `"{" + key + "}"` in
the path reached so far. -/
def applyPathParams (params : List KeyValue) (path : Str) : Str :=
  params.foldl (fun acc kv => replaceAll acc (pathToken kv.Key) kv.Value) path

/-- Lines 143-159: the form pairs collected into a `url.Values`. -/
def formValues (pairs : List KeyValue) : url.Values :=
  pairs.foldl (fun acc kv => url.Values.Add acc kv.Key kv.Value) url.Values.empty

/-- Lines 161-174: the authentication step. -/
def applyAuthentication (lib : Lib) (a : Auth) (h : url.Values) : url.Values :=
  if a.nonZero then
    let h1 : url.Values :=
      match a.TokenAuth with
      | some t =>
        if t.Token ≠ [] then
          http.Header.Add lib h "Authorization".toList ("Bearer ".toList ++ t.Token)
        else h
      | none => h
    let h2 : url.Values :=
      match a.BasicAuth with
      | some c =>
        if c.Username ≠ [] ∧ c.Password ≠ [] then
          http.Request.SetBasicAuth lib h1 c.Username c.Password
        else h1
      | none => h1
    match a.APIKeyAuth with
    | some c =>
      if c.Key ≠ [] ∧ c.Value ≠ [] then http.Header.Add lib h2 c.Key c.Value else h2
    | none => h2
  else h

/-- Lines 114-174 of `sendRequest`: the request handed to
`http.DefaultClient.Do`, built from the resolved template, or the error of
`http.NewRequest`.  The request returned by `http.NewRequest` (called with a
nil body) has an empty header map, no body and no form. -/
def assembleRequest (lib : Lib) (req : HTTPRequestSpec) : Except Str http.Request :=
  match lib.newRequest req.Method req.URL with
  | .error e => .error e
  | .ok (method, u) =>
    let header := applyHeaders lib req.Request.Headers url.Values.empty
    let path := applyPathParams req.Request.PathParams u.Path
    let body : Option Str := if req.Request.Body.Data ≠ [] then some req.Request.Body.Data else none
    let form1 : Option url.Values :=
      if req.Request.Body.FormBody.length > 0 then some (formValues req.Request.Body.FormBody)
      else none
    let form2 : Option url.Values :=
      if req.Request.Body.URLEncoded.length > 0 then some (formValues req.Request.Body.URLEncoded)
      else form1
    .ok { Method := method
          URL := { u with Path := path }
          Header := applyAuthentication lib req.Request.Auth header
          Body := body
          PostForm := form2 }

/-- Lines 107-174 of `sendRequest`: the variables are applied to the template
(with the value list of the environment clone, when there is an environment),
then the request is assembled. -/
def prepareRequest (lib : Lib) (b : Builtins) (order1 order2 : MapOrder)
    (req : HTTPRequestSpec) (env : Option EnvSpec) : Except Str http.Request :=
  assembleRequest lib (applyVariables b order1 order2 req env).1

-- ---------------------------------------------------------------------------
-- The spec reading of path-parameter substitution
-- ---------------------------------------------------------------------------

/-- The spec sentence "every occurrence of `{key}` in the URL path is replaced
by the corresponding value; unmatched `{key}` tokens are left as-is", read as
one scan of the path: at an occurrence of the token of a path parameter the
value of the first such parameter is written and the token is passed over
(`skip` counts its characters still to pass); any other character is copied. -/
def expandPathTokensFrom (params : List KeyValue) : Nat → Str → Str
  | _, [] => []
  | skip + 1, _ :: cs => expandPathTokensFrom params skip cs
  | 0, c :: cs =>
    match params.find? (fun kv => (pathToken kv.Key).isPrefixOf (c :: cs)) with
    | some kv => kv.Value ++ expandPathTokensFrom params (kv.Key.length + 1) cs
    | none => c :: expandPathTokensFrom params 0 cs

/-- The spec reading of path-parameter substitution on a whole path. -/
def expandPathTokens (params : List KeyValue) (path : Str) : Str :=
  expandPathTokensFrom params 0 path

/-- A piece of a URL path: plain text or a token `{key}`. -/
inductive Segment where
  | text (t : Str)
  | token (key : Str)
deriving DecidableEq, Repr

/-- The characters of a piece. -/
def Segment.render : Segment → Str
  | .text t => t
  | .token key => pathToken key

/-- The path spelled by a list of pieces. -/
def renderPath (segs : List Segment) : Str := segs.flatMap Segment.render

/-- A piece whose text, or whose key, holds no brace. -/
def Segment.plain : Segment → Bool
  | .text t => braceFree t
  | .token key => braceFree key

/-- A token whose key is the key of a path parameter becomes the value of the
first such parameter; every other piece stays. -/
def Segment.resolve (params : List KeyValue) : Segment → Segment
  | .text t => .text t
  | .token key =>
    match params.find? (fun kv => kv.Key = key) with
    | some kv => .text kv.Value
    | none => .token key

-- ---------------------------------------------------------------------------
-- Library functions and values used in the examples
-- ---------------------------------------------------------------------------

/-- The characters allowed in a header key (`textproto.validHeaderFieldByte`). -/
def isTokenChar (c : Char) : Bool :=
  c.isAlphanum || [33, 35, 36, 37, 38, 39, 42, 43, 45, 46, 94, 95, 96, 124, 126].contains c.toNat

/-- The letters of a key, upper case at the start and after a dash, lower case
elsewhere. -/
def canonicalLetters : Bool → Str → Str
  | _, [] => []
  | upper, c :: cs =>
    (if upper then c.toUpper else c.toLower) :: canonicalLetters (c == Char.ofNat 45) cs

/-- Go `textproto.CanonicalMIMEHeaderKey`: a key made of allowed characters is
spelled with upper case at the start and after each dash; any other key is
returned unchanged. -/
def canonicalMIMEHeaderKey (key : Str) : Str :=
  if key.all isTokenChar then canonicalLetters true key else key

/-- The base64 digit for a number below 64. -/
def base64Digit (n : Nat) : Char :=
  ("ABCDEFGHIJKLMNOPQRSTUVWXYZabcdefghijklmnopqrstuvwxyz0123456789+/".toList).getD n (Char.ofNat 65)

/-- Standard base64 with padding, on a list of bytes. -/
def base64Bytes : List Nat → Str
  | [] => []
  | [a] => [base64Digit (a / 4), base64Digit (a % 4 * 16), Char.ofNat 61, Char.ofNat 61]
  | [a, b] =>
    [base64Digit (a / 4), base64Digit (a % 4 * 16 + b / 16), base64Digit (b % 16 * 4),
     Char.ofNat 61]
  | a :: b :: c :: rest =>
    base64Digit (a / 4) :: base64Digit (a % 4 * 16 + b / 16)
      :: base64Digit (b % 16 * 4 + c / 64) :: base64Digit (c % 64) :: base64Bytes rest

/-- Go `base64.StdEncoding.EncodeToString` on the UTF-8 bytes of a text. -/
def base64Text (s : Str) : Str :=
  base64Bytes (s.flatMap (fun c => (String.utf8EncodeChar c).map (fun x => x.toNat)))

/-- Go `http.NewRequest` on a URL of the shape `scheme://host/path` without
query, fragment or escapes: the empty method stands for GET, the path starts
at the first slash after the host. -/
def sampleNewRequest (method target : Str) : Except Str (Str × url.URL) :=
  let rest := (target.dropWhile (fun c => c != Char.ofNat 58)).drop 3
  .ok (if method = [] then "GET".toList else method,
       { Scheme := target.takeWhile (fun c => c != Char.ofNat 58)
         Host := rest.takeWhile (fun c => c != Char.ofNat 47)
         Path := rest.dropWhile (fun c => c != Char.ofNat 47)
         RawQuery := [] })

/-- The library functions used in the examples. -/
def sampleLib : Lib :=
  { newRequest := sampleNewRequest
    canonicalKey := canonicalMIMEHeaderKey
    base64 := base64Text }

/-- The built-in values used in the examples. -/
def sampleBuiltins : Builtins :=
  { randomUUID4 := "123e4567-e89b-42d3-a456-426614174000".toList
    timeNow := "2024-05-01T10:00:00Z".toList
    unixTimestamp := "1714557600".toList }

/-- A template with the given URL and nothing else. -/
def sampleTemplate (target : Str) : HTTPRequestSpec :=
  { Method := "GET".toList
    URL := target
    Request :=
      { Headers := []
        PathParams := []
        QueryParams := []
        Body := { Data := [], FormBody := [], URLEncoded := [] }
        Auth := { Kind := [], BasicAuth := none, TokenAuth := none, APIKeyAuth := none }
        PostRequest := { Kind := [], PostRequestSet := { Target := [], From := [], FromKey := [] } } } }

/-- The text of a string literal. -/
def str (s : String) : Str := s.toList

-- ---------------------------------------------------------------------------
-- Service.SendRequest (rest.go, lines 45-99) and the rest of sendRequest
-- ---------------------------------------------------------------------------

/-- A Go value of type `interface{}` produced by `json.Unmarshal`: `null` is
the nil interface, `string` a Go string; the other cases are the remaining
JSON kinds. -/
inductive JSONValue where
  | null
  | bool (b : Bool)
  | number (text : Str)
  | string (s : Str)
  | array (items : List JSONValue)
  | object (members : List (Str × JSONValue))

/-- An error value returned by `SendRequest`: one of its two `fmt.Errorf`
errors, or the error returned by a function it calls, passed on as it is. -/
inductive Error where
  | requestNotFound (id : Str)
  | environmentNotFound (id : Str)
  | library (message : Str)
deriving DecidableEq, Repr

/-- Modelled from the spec: `domain.Environment`, an identifier and the value
list. -/
structure domain.Environment where
  ID : Str
  Spec : EnvSpec
deriving DecidableEq, Repr

/-- Modelled from the spec: the part `Spec` of `domain.Request`. -/
structure domain.RequestSpec where
  HTTP : HTTPRequestSpec
deriving DecidableEq, Repr

/-- Modelled from the spec: `domain.Request`, a stored request template. -/
structure domain.Request where
  ID : Str
  Spec : domain.RequestSpec
deriving DecidableEq, Repr

/-- Modelled from the spec: `(*domain.Request).Clone`, a deep copy: the clone
holds the same values as the original and shares no memory with it, so what
`sendRequest` changes in place is changed in the clone only. -/
def domain.Request.Clone (r : domain.Request) : domain.Request := r

/-- Modelled from the spec: `(*domain.Environment).Clone`, a deep copy. -/
def domain.Environment.Clone (e : domain.Environment) : domain.Environment := e

/-- The value list after the first pair with the given key has received the
value, or with a new pair at the end when no pair has the key. -/
def setKeyValue : List KeyValue → Str → Str → List KeyValue
  | [], key, value => [{ Key := key, Value := value }]
  | kv :: rest, key, value =>
    if kv.Key = key then { kv with Value := value } :: rest
    else kv :: setKeyValue rest key value

/-- Modelled from the spec: `(*domain.Environment).SetKey`, "set the
configured target key to the extracted string value inside that environment". -/
def domain.Environment.SetKey (e : domain.Environment) (key value : Str) : domain.Environment :=
  { e with Spec := { Values := setKeyValue e.Spec.Values key value } }

/-- The value that an environment gives for a key. -/
def domain.Environment.GetKey (e : domain.Environment) (key : Str) : Option Str :=
  (e.Spec.Values.find? (fun kv => kv.Key = key)).map (fun kv => kv.Value)

/-- Modelled from the spec: `state.Requests.GetRequest(id)`, the stored
request with that identifier, or nil. -/
def GetRequest (requests : List domain.Request) (id : Str) : Option domain.Request :=
  requests.find? (fun r => r.ID = id)

/-- Modelled from the spec: `state.Environments.GetEnvironment(id)`, the
stored environment with that identifier, or nil. -/
def GetEnvironment (environments : List domain.Environment) (id : Str) :
    Option domain.Environment :=
  environments.find? (fun e => e.ID = id)

/-- The store after a change made through the pointer that `GetEnvironment`
returned: the first stored environment with the identifier of `e` now holds
the contents of `e`. -/
def writeEnvironment : List domain.Environment → domain.Environment → List domain.Environment
  | [], _ => []
  | e0 :: rest, e => if e0.ID = e.ID then e :: rest else e0 :: writeEnvironment rest e

/-- What `http.DefaultClient.Do` and `io.ReadAll` give back for a request: the
status code, the header map, the cookies of `res.Cookies()`, the outcome of
reading the body, and the time that `time.Since(start)` measures. -/
structure RawResponse where
  StatusCode : Nat
  Header : List (Str × List Str)
  Cookies : List Str
  Body : Except Str Str
  Elapsed : Nat

/-- The collaborators of `SendRequest` that are kept abstract: the HTTP round
trip, `json.Unmarshal` into an `interface{}`, `json.Indent` with four spaces,
`state.Environments.UpdateEnvironment(env, false)` (nil or an error), and the
two constants of package domain that the post-request step compares with. -/
structure Deps where
  roundTrip : http.Request → Except Str RawResponse
  jsonUnmarshal : Str → Except Str JSONValue
  jsonIndent : Str → Except Str Str
  updateEnvironment : domain.Environment → Option Str
  PostRequestTypeSetEnv : Str
  PostRequestSetFromResponseBody : Str

/-- The struct `Response` of rest.go. -/
structure Response where
  StatusCode : Nat
  Headers : List (Str × Str)
  Cookies : List Str
  Body : Str
  TimePassed : Nat
  IsJSON : Bool
  JSON : Str
deriving DecidableEq, Repr

/-- The function `IsJSON` of rest.go: `json.Unmarshal` returns no error. -/
def IsJSON (deps : Deps) (s : Str) : Bool :=
  match deps.jsonUnmarshal s with
  | .ok _ => true
  | .error _ => false

/-- The function `PrettyJSON` of rest.go. -/
def PrettyJSON (deps : Deps) (data : Str) : Except Str Str :=
  match deps.jsonIndent data with
  | .error e => .error e
  | .ok out => .ok out

/-- Go `strings.Join(elems, sep)`. -/
def join (sep : Str) : List Str → Str
  | [] => []
  | [x] => x
  | x :: y :: rest => x ++ sep ++ join sep (y :: rest)

/-- Go `strings.Split(s, sep)` for a separator of one character. -/
def splitOn (sep : Char) : Str → List Str
  | [] => [[]]
  | c :: cs =>
    if c = sep then [] :: splitOn sep cs
    else
      match splitOn sep cs with
      | [] => [[c]]
      | first :: rest => (c :: first) :: rest

/-- The number written by a text of decimal digits. -/
def parseIndex (s : Str) : Option Nat :=
  if s.isEmpty || !s.all Char.isDigit then none
  else some (s.foldl (fun n c => 10 * n + (c.toNat - 48)) 0)

/-- The value reached from a document along a list of keys: a key selects a
member of an object, a number an item of an array; where the path does not
match, the result is nil. -/
def lookupPath : JSONValue → List Str → JSONValue
  | v, [] => v
  | .object members, key :: rest =>
    match members.find? (fun m => m.1 = key) with
    | some m => lookupPath m.2 rest
    | none => .null
  | .array items, key :: rest =>
    match parseIndex key with
    | some i =>
      match items[i]? with
      | some v => lookupPath v rest
      | none => .null
    | none => .null
  | _, _ :: _ => .null

/-- Modelled from the spec: `GetJSONPATH(jsonText, path)`, "extracts a value
at a JSON-path expression from a parsed document; returns a typed dynamic
value or not found (nil), and fails only on malformed JSON input, never on a
path that simply does not match"; the path is a dotted list of keys. -/
def GetJSONPATH (deps : Deps) (text path : Str) : Except Str JSONValue :=
  match deps.jsonUnmarshal text with
  | .error e => .error e
  | .ok doc => .ok (lookupPath doc (splitOn (Char.ofNat 46) path))

/-- Lines 191-224 of `sendRequest`: the body is read and the `Response` is
filled in. -/
def readResponse (deps : Deps) (raw : RawResponse) : Except Str Response :=
  match raw.Body with
  | .error e => .error e
  | .ok body =>
    let headers := raw.Header.map (fun kv => (kv.1, join ", ".toList kv.2))
    if IsJSON deps body then
      match PrettyJSON deps body with
      | .error e => .error e
      | .ok js =>
        .ok { StatusCode := raw.StatusCode, Headers := headers, Cookies := raw.Cookies,
              Body := body, TimePassed := raw.Elapsed, IsJSON := true, JSON := js }
    else
      .ok { StatusCode := raw.StatusCode, Headers := headers, Cookies := raw.Cookies,
            Body := body, TimePassed := raw.Elapsed, IsJSON := false, JSON := [] }

/-- What a call of `sendRequest` leaves behind: its two results (a response or
an error), the template `*req` after the changes made in place, and the
requests handed to `http.DefaultClient.Do`. -/
structure SendResult where
  result : Except Error Response
  req : HTTPRequestSpec
  calls : List http.Request

/-- The method `sendRequest(req, e)` of rest.go (lines 101-225). -/
def sendRequest (lib : Lib) (deps : Deps) (b : Builtins) (order1 order2 : MapOrder)
    (req : HTTPRequestSpec) (e : Option domain.Environment) : SendResult :=
  let req1 := (applyVariables b order1 order2 req (e.map (fun x => x.Clone.Spec))).1
  match assembleRequest lib req1 with
  | .error msg => { result := .error (.library msg), req := req1, calls := [] }
  | .ok httpReq =>
    match deps.roundTrip httpReq with
    | .error msg => { result := .error (.library msg), req := req1, calls := [httpReq] }
    | .ok raw =>
      match readResponse deps raw with
      | .error msg => { result := .error (.library msg), req := req1, calls := [httpReq] }
      | .ok response => { result := .ok response, req := req1, calls := [httpReq] }

/-- The zero value `domain.PostRequest{}`. -/
def zeroPostRequest : PostRequest :=
  { Kind := [], PostRequestSet := { Target := [], From := [], FromKey := [] } }

/-- What the post-request step of `SendRequest` leaves behind: the two results
of `SendRequest`, the environment store, and the environments handed to
`UpdateEnvironment`. -/
structure PostResult where
  response : Option Response
  err : Option Error
  environments : List domain.Environment
  updates : List domain.Environment

/-- Lines 68-98 of `SendRequest`: the post-request step. -/
def handlePostRequest (deps : Deps) (post : PostRequest) (response : Response)
    (activeEnvironment : Option domain.Environment)
    (environments : List domain.Environment) : PostResult :=
  let done : PostResult :=
    { response := some response, err := none, environments := environments, updates := [] }
  if post ≠ zeroPostRequest then
    if post.Kind = deps.PostRequestTypeSetEnv then
      if post.PostRequestSet.From ≠ deps.PostRequestSetFromResponseBody then done
      else if response.JSON ≠ [] ∧ response.IsJSON = true then
        match GetJSONPATH deps response.JSON post.PostRequestSet.FromKey with
        | .error e =>
          { response := none, err := some (.library e), environments := environments,
            updates := [] }
        | .ok .null => done
        | .ok (.string result) =>
          match activeEnvironment with
          | some env =>
            let env1 := env.SetKey post.PostRequestSet.Target result
            match deps.updateEnvironment env1 with
            | some e =>
              { response := none, err := some (.library e),
                environments := writeEnvironment environments env1, updates := [env1] }
            | none =>
              { response := some response, err := none,
                environments := writeEnvironment environments env1, updates := [env1] }
          | none => done
        | .ok _ => done
      else done
    else done
  else done

/-- The stores that the service holds: `s.requests` and `s.environments`. -/
structure Service where
  requests : List domain.Request
  environments : List domain.Environment

/-- What a call of `SendRequest` leaves behind: its two results, the two
stores, the requests handed to `http.DefaultClient.Do` and the environments
handed to `UpdateEnvironment`. -/
structure Outcome where
  response : Option Response
  err : Option Error
  requests : List domain.Request
  environments : List domain.Environment
  calls : List http.Request
  updates : List domain.Environment

/-- Lines 63-98 of `SendRequest`: the clone is sent and the post-request step
is run with the action read from the clone. -/
def sendAndHandle (lib : Lib) (deps : Deps) (b : Builtins) (order1 order2 : MapOrder)
    (s : Service) (r : domain.Request) (activeEnvironment : Option domain.Environment) :
    Outcome :=
  let sent := sendRequest lib deps b order1 order2 r.Spec.HTTP activeEnvironment
  match sent.result with
  | .error e =>
    { response := none, err := some e, requests := s.requests,
      environments := s.environments, calls := sent.calls, updates := [] }
  | .ok response =>
    let post := handlePostRequest deps sent.req.Request.PostRequest response activeEnvironment
      s.environments
    { response := post.response, err := post.err, requests := s.requests,
      environments := post.environments, calls := sent.calls, updates := post.updates }

/-- The method `SendRequest(requestID, activeEnvironmentID)` of rest.go. -/
def SendRequest (lib : Lib) (deps : Deps) (b : Builtins) (order1 order2 : MapOrder)
    (s : Service) (requestID activeEnvironmentID : Str) : Outcome :=
  match GetRequest s.requests requestID with
  | none =>
    { response := none, err := some (.requestNotFound requestID), requests := s.requests,
      environments := s.environments, calls := [], updates := [] }
  | some req =>
    let r := req.Clone
    if activeEnvironmentID ≠ [] then
      match GetEnvironment s.environments activeEnvironmentID with
      | none =>
        { response := none, err := some (.environmentNotFound activeEnvironmentID),
          requests := s.requests, environments := s.environments, calls := [], updates := [] }
      | some e => sendAndHandle lib deps b order1 order2 s r (some e)
    else sendAndHandle lib deps b order1 order2 s r none

-- ---------------------------------------------------------------------------
-- Collaborators used in the examples
-- ---------------------------------------------------------------------------

/-- The text without leading JSON white space. -/
def skipSpace (s : Str) : Str :=
  s.dropWhile (fun c => [32, 9, 10, 13].contains c.toNat)

/-- The characters of a JSON string up to its closing quote, and the text
after the quote; strings with escapes are not read. -/
def readString : Str → Option (Str × Str)
  | [] => none
  | c :: cs =>
    if c.toNat = 34 then some ([], cs)
    else if c.toNat = 92 then none
    else
      match readString cs with
      | some (t, rest) => some (c :: t, rest)
      | none => none

/-- What the reader of JSON text is reading: a value, the members of an
object after those already read, or the items of an array. -/
inductive ReadGoal where
  | value
  | members (done : List (Str × JSONValue))
  | items (done : List JSONValue)

/-- A reader of JSON text (objects, arrays, strings without escapes, numbers,
`true`, `false`, `null`): the value read and the text after it. -/
def readJSON : Nat → ReadGoal → Str → Option (JSONValue × Str)
  | 0, _, _ => none
  | fuel + 1, .value, s =>
    match skipSpace s with
    | [] => none
    | c :: r =>
      if c.toNat = 123 then
        match skipSpace r with
        | [] => none
        | d :: r2 => if d.toNat = 125 then some (.object [], r2) else readJSON fuel (.members []) r
      else if c.toNat = 91 then
        match skipSpace r with
        | [] => none
        | d :: r2 => if d.toNat = 93 then some (.array [], r2) else readJSON fuel (.items []) r
      else if c.toNat = 34 then
        match readString r with
        | some (t, r2) => some (.string t, r2)
        | none => none
      else if "true".toList.isPrefixOf (c :: r) then some (.bool true, r.drop 3)
      else if "false".toList.isPrefixOf (c :: r) then some (.bool false, r.drop 4)
      else if "null".toList.isPrefixOf (c :: r) then some (.null, r.drop 3)
      else if c.isDigit || c.toNat = 45 then
        some (.number (c :: r.takeWhile (fun x => x.isDigit || [46, 101, 69, 43, 45].contains x.toNat)),
              r.dropWhile (fun x => x.isDigit || [46, 101, 69, 43, 45].contains x.toNat))
      else none
  | fuel + 1, .members done, s =>
    match skipSpace s with
    | [] => none
    | c :: r =>
      if c.toNat = 34 then
        match readString r with
        | none => none
        | some (key, r2) =>
          match skipSpace r2 with
          | [] => none
          | d :: r3 =>
            if d.toNat = 58 then
              match readJSON fuel .value r3 with
              | none => none
              | some (v, r4) =>
                match skipSpace r4 with
                | [] => none
                | e :: r5 =>
                  if e.toNat = 44 then readJSON fuel (.members (done ++ [(key, v)])) r5
                  else if e.toNat = 125 then some (.object (done ++ [(key, v)]), r5)
                  else none
            else none
      else none
  | fuel + 1, .items done, s =>
    match readJSON fuel .value s with
    | none => none
    | some (v, r) =>
      match skipSpace r with
      | [] => none
      | e :: r2 =>
        if e.toNat = 44 then readJSON fuel (.items (done ++ [v])) r2
        else if e.toNat = 93 then some (.array (done ++ [v]), r2)
        else none

/-- The stand-in for `json.Unmarshal` in the examples: the whole text is one
JSON value. -/
def sampleUnmarshal (s : Str) : Except Str JSONValue :=
  match readJSON (2 * s.length + 2) .value s with
  | some (v, rest) => if (skipSpace rest).isEmpty then .ok v else .error "invalid character".toList
  | none => .error "invalid character".toList

/-- A line break followed by the indentation of the given depth. -/
def newline (depth : Nat) : Str :=
  Char.ofNat 10 :: (List.replicate (4 * depth) (Char.ofNat 32))

/-- The scan of `json.Indent`: outside strings white space is dropped, a line
break with indentation follows an opening bracket (unless the closing one is
next) and a comma and precedes a closing bracket, and a space follows a
colon. -/
def indentScan (depth : Nat) (inString escaped opened : Bool) : Str → Str
  | [] => []
  | c :: cs =>
    if inString then
      if escaped then c :: indentScan depth true false false cs
      else if c.toNat = 92 then c :: indentScan depth true true false cs
      else if c.toNat = 34 then c :: indentScan depth false false false cs
      else c :: indentScan depth true false false cs
    else if [32, 9, 10, 13].contains c.toNat then indentScan depth false false opened cs
    else if c.toNat = 125 || c.toNat = 93 then
      if opened then c :: indentScan depth false false false cs
      else newline (depth - 1) ++ c :: indentScan (depth - 1) false false false cs
    else
      let depth1 := if opened then depth + 1 else depth
      let lead : Str := if opened then newline depth1 else []
      if c.toNat = 123 || c.toNat = 91 then lead ++ c :: indentScan depth1 false false true cs
      else if c.toNat = 44 then lead ++ c :: (newline depth1 ++ indentScan depth1 false false false cs)
      else if c.toNat = 58 then lead ++ c :: Char.ofNat 32 :: indentScan depth1 false false false cs
      else if c.toNat = 34 then lead ++ c :: indentScan depth1 true false false cs
      else lead ++ c :: indentScan depth1 false false false cs

/-- The stand-in for `json.Indent(out, data, "", "    ")` in the examples. -/
def sampleIndent (s : Str) : Except Str Str :=
  match sampleUnmarshal s with
  | .ok _ => .ok (indentScan 0 false false false s)
  | .error e => .error e

/-- The collaborators used in the examples: the server answers every request
with status 200 and the given body, and `UpdateEnvironment` returns the given
result. -/
def sampleDeps (body : Str) (updateResult : Option Str) : Deps :=
  { roundTrip := fun _ =>
      .ok { StatusCode := 200, Header := [("Content-Type".toList, ["application/json".toList])],
            Cookies := [], Body := .ok body, Elapsed := 12 }
    jsonUnmarshal := sampleUnmarshal
    jsonIndent := sampleIndent
    updateEnvironment := fun _ => updateResult
    PostRequestTypeSetEnv := "setEnv".toList
    PostRequestSetFromResponseBody := "body".toList }

/-- A stored template with the given identifier, URL and post-request
action. -/
def sampleRequest (id target : Str) (post : PostRequest) : domain.Request :=
  { ID := id
    Spec := { HTTP := { sampleTemplate target with
                        Request := { (sampleTemplate target).Request with PostRequest := post } } } }

/-- The post-request action "set the environment key `target` from the
response body at the JSON path `path`". -/
def sampleSetEnv (path target : Str) : PostRequest :=
  { Kind := "setEnv".toList
    PostRequestSet := { Target := target, From := "body".toList, FromKey := path } }

/-- The response body of the examples: `{"session":{"id":"xyz"}}`. -/
def sampleBody : Str := "\x7b\x22session\x22:\x7b\x22id\x22:\x22xyz\x22\x7d\x7d".toList

/-- The service of the examples: one stored template `r1` with the action
"set `sid` from `session.id`" and one environment `e1` with the pair
host = api.example.com. -/
def sampleService : Service :=
  { requests :=
      [sampleRequest "r1".toList "https://api.example.com/login".toList
        (sampleSetEnv "session.id".toList "sid".toList)]
    environments :=
      [{ ID := "e1".toList
         Spec := { Values := [{ Key := "host".toList, Value := "api.example.com".toList }] } }] }

/-- The two errors that `SendRequest` makes itself when a lookup fails. -/
def Error.isNotFound : Error → Bool
  | .requestNotFound _ => true
  | .environmentNotFound _ => true
  | .library _ => false

-- ---------------------------------------------------------------------------
-- Texts made of plain text and placeholders
-- ---------------------------------------------------------------------------

/-- The characters of a piece of a template text: plain text, or the
placeholder `{{name}}` of the name held by a token. -/
def Segment.renderVar : Segment → Str
  | .text t => t
  | .token name => placeholder name

/-- The text spelled by a list of pieces, tokens read as placeholders. -/
def renderText (segs : List Segment) : Str := segs.flatMap Segment.renderVar

/-- A token whose name is a variable of the map becomes the value of that
variable; every other piece stays. -/
def Segment.resolveVar (vars : VarMap) : Segment → Segment
  | .text t => .text t
  | .token name =>
    match vars.find? (fun kv => kv.1 = name) with
    | some kv => .text kv.2
    | none => .token name

/-- The template with a function applied to each of the twelve texts that
`applyVariables` rewrites. -/
def mapTexts (f : Str → Str) (req : HTTPRequestSpec) : HTTPRequestSpec :=
  { req with
    URL := f req.URL
    Request :=
      { req.Request with
        Headers := req.Request.Headers.map (fun kv => { Key := kv.Key, Value := f kv.Value })
        PathParams := req.Request.PathParams.map (fun kv => { Key := kv.Key, Value := f kv.Value })
        QueryParams := req.Request.QueryParams.map (fun kv => { Key := kv.Key, Value := f kv.Value })
        Body :=
          { Data := f req.Request.Body.Data
            FormBody := req.Request.Body.FormBody.map
              (fun kv => { Key := kv.Key, Value := f kv.Value })
            URLEncoded := req.Request.Body.URLEncoded.map
              (fun kv => { Key := kv.Key, Value := f kv.Value }) }
        Auth :=
          { Kind := req.Request.Auth.Kind
            BasicAuth := req.Request.Auth.BasicAuth.map
              (fun c => { Username := f c.Username, Password := f c.Password })
            TokenAuth := req.Request.Auth.TokenAuth.map (fun t => { Token := f t.Token })
            APIKeyAuth := req.Request.Auth.APIKeyAuth.map
              (fun c => { Key := f c.Key, Value := f c.Value }) } } }

-- ---------------------------------------------------------------------------
-- Texts in which no placeholder is nested in another one
-- ---------------------------------------------------------------------------

/-- No placeholder `{{name}}` of a brace-free name occurs in the text. -/
def NoToken (g : Str) : Prop := ∀ k, braceFree k = true → ¬ placeholder k <:+: g

/-- The text ends with the beginning of a placeholder: some non-empty end of
the text is a start, but not the whole, of a placeholder `{{name}}` of a
brace-free name.  The text `{{x` does, and so do `{` and `{{x}`; the texts
`/items/{id}` and `{"name":"` do not. -/
def Opens (g : Str) : Prop :=
  ∃ a k rest, a ≠ [] ∧ rest ≠ [] ∧ braceFree k = true ∧ a <:+ g ∧ a ++ rest = placeholder k

/-- A piece of a text whose placeholders are not nested: a token with a
brace-free name, or a text before a placeholder that holds no placeholder and
does not end with the beginning of one.  The text may hold braces. -/
def Segment.apart : Segment → Prop
  | .text t => NoToken t ∧ ¬ Opens t
  | .token name => braceFree name = true
/-- A template with the given URL and raw body text and nothing else. -/
def sampleTemplateWithBody (target data : Str) : HTTPRequestSpec :=
  { Method := "POST".toList
    URL := target
    Request :=
      { Headers := []
        PathParams := []
        QueryParams := []
        Body := { Data := data, FormBody := [], URLEncoded := [] }
        Auth := { Kind := [], BasicAuth := none, TokenAuth := none, APIKeyAuth := none }
        PostRequest := { Kind := [], PostRequestSet := { Target := [], From := [], FromKey := [] } } } }

-- ---------------------------------------------------------------------------
-- The request templates as objects in memory
-- ---------------------------------------------------------------------------

/-- The address of a template object: the value of a pointer of type
`*domain.HTTPRequestSpec`. -/
abbrev Addr := Nat

/-- The zero value `domain.HTTPRequestSpec{}`. -/
def zeroHTTPRequestSpec : HTTPRequestSpec :=
  { Method := []
    URL := []
    Request :=
      { Headers := []
        PathParams := []
        QueryParams := []
        Body := { Data := [], FormBody := [], URLEncoded := [] }
        Auth := { Kind := [], BasicAuth := none, TokenAuth := none, APIKeyAuth := none }
        PostRequest := zeroPostRequest } }

/-- The memory that holds the request templates.  `objects` are the template
objects allocated so far, in the order of allocation, so the address of an
object is its position; an object stands for a `domain.HTTPRequestSpec`
together with what its slices and pointers lead to.  `stored` is the store
`s.requests`: for each stored request its identifier and its pointer
`Spec.HTTP`.  Two stored requests may hold the same pointer. -/
structure Memory where
  objects : List HTTPRequestSpec
  stored : List (Str × Addr)
deriving DecidableEq, Repr

/-- Every pointer of the store leads to an allocated object. -/
def Memory.WellFormed (m : Memory) : Bool :=
  m.stored.all (fun r => decide (r.2 < m.objects.length))

/-- The object that a pointer leads to; the store never hands out a pointer
to no object, and such a pointer is read as the zero value here. -/
def Memory.read (m : Memory) (a : Addr) : HTTPRequestSpec :=
  (m.objects[a]?).getD zeroHTTPRequestSpec

/-- An assignment through a pointer: the object at the address is replaced;
every other object stays as it is. -/
def Memory.write (m : Memory) (a : Addr) (t : HTTPRequestSpec) : Memory :=
  { m with objects := m.objects.set a t }

/-- The store read as values: each stored request with the template that its
pointer leads to. -/
def Memory.requests (m : Memory) : List domain.Request :=
  m.stored.map (fun r => { ID := r.1, Spec := { HTTP := m.read r.2 } })

/-- Modelled from the spec: `state.Requests.GetRequest(id)`, the pointer held
by the first stored request with that identifier, or nil. -/
def Memory.GetRequest (m : Memory) (id : Str) : Option Addr :=
  (m.stored.find? (fun r => r.1 = id)).map (fun r => r.2)

/-- Modelled from the spec: `(*domain.Request).Clone` as a deep copy: a new
object is allocated, it receives the contents of the original, and the pointer
to it is returned; the original and every other object stay as they are. -/
def Memory.Clone (m : Memory) (req : Addr) : Memory × Addr :=
  ({ m with objects := m.objects ++ [m.read req] }, m.objects.length)

/-- The method `sendRequest(req, e)` with its pointer argument: the template
is read through `req`, and what lines 107-112 assign through `req` (the
results of `applyVariables`, lines 259-322) is written to the object at that
address.  The path parameters are replaced in the new `http.Request` (line
126), not in the template. -/
def sendRequestAt (lib : Lib) (deps : Deps) (b : Builtins) (order1 order2 : MapOrder)
    (m : Memory) (req : Addr) (e : Option domain.Environment) : SendResult × Memory :=
  let sent := sendRequest lib deps b order1 order2 (m.read req) e
  (sent, m.write req sent.req)

/-- Lines 63-98 of `SendRequest` with the pointer `r`: the object at `r` is
sent, and the post-request action is read through `r` afterwards. -/
def sendAndHandleAt (lib : Lib) (deps : Deps) (b : Builtins) (order1 order2 : MapOrder)
    (m : Memory) (environments : List domain.Environment) (r : Addr)
    (activeEnvironment : Option domain.Environment) : Outcome × Memory :=
  let sent := sendRequestAt lib deps b order1 order2 m r activeEnvironment
  match sent.1.result with
  | .error e =>
    ({ response := none, err := some e, requests := sent.2.requests,
       environments := environments, calls := sent.1.calls, updates := [] }, sent.2)
  | .ok response =>
    let post := handlePostRequest deps (sent.2.read r).Request.PostRequest response
      activeEnvironment environments
    ({ response := post.response, err := post.err, requests := sent.2.requests,
       environments := post.environments, calls := sent.1.calls, updates := post.updates },
     sent.2)

/-- The method `SendRequest(requestID, activeEnvironmentID)` of rest.go with
the templates held in memory: the pointer `req` found in the store is cloned
(line 52) and the pointer `r` to the clone is the one handed to `sendRequest`
(line 63).  The result is the outcome of the call, whose store is read from
the memory after the call, and that memory. -/
def SendRequestAt (lib : Lib) (deps : Deps) (b : Builtins) (order1 order2 : MapOrder)
    (m : Memory) (environments : List domain.Environment)
    (requestID activeEnvironmentID : Str) : Outcome × Memory :=
  match m.GetRequest requestID with
  | none =>
    ({ response := none, err := some (.requestNotFound requestID), requests := m.requests,
       environments := environments, calls := [], updates := [] }, m)
  | some req =>
    let cloned := m.Clone req
    let r := cloned.2
    if activeEnvironmentID ≠ [] then
      match GetEnvironment environments activeEnvironmentID with
      | none =>
        ({ response := none, err := some (.environmentNotFound activeEnvironmentID),
           requests := cloned.1.requests, environments := environments, calls := [],
           updates := [] }, cloned.1)
      | some e => sendAndHandleAt lib deps b order1 order2 cloned.1 environments r (some e)
    else sendAndHandleAt lib deps b order1 order2 cloned.1 environments r none

/-- The memory of the examples: one template object, with the URL
`https://{{host}}/login` and the action "set `sid` from `session.id`", stored
under the identifier `r1`. -/
def sampleMemory : Memory :=
  { objects :=
      [(sampleRequest "r1".toList
        ("https://".toList ++ placeholder "host".toList ++ "/login".toList)
        (sampleSetEnv "session.id".toList "sid".toList)).Spec.HTTP]
    stored := [("r1".toList, 0)] }

-- ---------------------------------------------------------------------------
-- Lemmas on strings.Contains and strings.ReplaceAll
-- ---------------------------------------------------------------------------

theorem lbrace_ne_rbrace : lbrace ≠ rbrace := by decide

theorem braceFree_iff {s : Str} :
    braceFree s = true ↔ ∀ c ∈ s, c ≠ lbrace ∧ c ≠ rbrace := by
  simp [braceFree, List.all_eq_true]

theorem braceFree_append {s t : Str} :
    braceFree (s ++ t) = true ↔ braceFree s = true ∧ braceFree t = true := by
  simp [braceFree, List.all_append]

theorem braceFree_cons {c : Char} {s : Str} :
    braceFree (c :: s) = true ↔ (c ≠ lbrace ∧ c ≠ rbrace) ∧ braceFree s = true := by
  simp [braceFree]

theorem contains_iff (s sub : Str) : contains s sub = true ↔ sub <:+: s := by
  induction s with
  | nil =>
    cases sub <;> simp [contains]
  | cons c cs ih =>
    rw [contains, Bool.or_eq_true, ih, List.isPrefixOf_iff_prefix, List.infix_cons_iff]

theorem contains_eq_false_iff (s sub : Str) : contains s sub = false ↔ ¬ sub <:+: s := by
  rw [← contains_iff, Bool.not_eq_true]

theorem replaceFrom_skip (old new : Str) (a rest : Str) :
    replaceFrom old new a.length (a ++ rest) = replaceFrom old new 0 rest := by
  induction a with
  | nil => rfl
  | cons c cs ih => simpa [replaceFrom] using ih

theorem replaceAll_nil (old new : Str) (h : old ≠ []) : replaceAll [] old new = [] := by
  simp [replaceAll, h, replaceFrom]

theorem replaceAll_match (old new rest : Str) (h : old ≠ []) :
    replaceAll (old ++ rest) old new = new ++ replaceAll rest old new := by
  cases old with
  | nil => exact absurd rfl h
  | cons o os =>
    have hp : (o :: os).isPrefixOf (o :: (os ++ rest)) = true := by
      rw [List.isPrefixOf_iff_prefix]; exact ⟨rest, rfl⟩
    have e : replaceAll (o :: os ++ rest) (o :: os) new
        = new ++ replaceFrom (o :: os) new os.length (os ++ rest) := by
      unfold replaceAll
      rw [if_neg h]
      show replaceFrom (o :: os) new 0 (o :: (os ++ rest)) = _
      rw [replaceFrom, if_pos hp]
      simp
    rw [e, replaceFrom_skip]
    simp [replaceAll]

theorem replaceAll_step (old new : Str) (c : Char) (cs : Str) (h : old ≠ [])
    (hn : ¬ old <+: c :: cs) :
    replaceAll (c :: cs) old new = c :: replaceAll cs old new := by
  have hp : old.isPrefixOf (c :: cs) = false := by
    rw [← Bool.not_eq_true, List.isPrefixOf_iff_prefix]; exact hn
  simp [replaceAll, h, replaceFrom, hp]

/-- Induction along the scan of `replaceAll` for a non-empty pattern. -/
theorem replaceAll_induction (old : Str) (h : old ≠ []) (P : Str → Prop)
    (hnil : P [])
    (hmatch : ∀ rest, P rest → P (old ++ rest))
    (hstep : ∀ c cs, ¬ old <+: c :: cs → P cs → P (c :: cs)) :
    ∀ s, P s := by
  intro s
  generalize hlen : s.length = n
  induction n using Nat.strong_induction_on generalizing s with
  | _ n ih =>
    cases s with
    | nil => exact hnil
    | cons c cs =>
      by_cases hp : old <+: c :: cs
      · obtain ⟨rest, hrest⟩ := hp
        rw [← hrest]
        apply hmatch
        apply ih rest.length _ rest rfl
        have : (old ++ rest).length = n := by rw [hrest]; exact hlen
        have hpos : 0 < old.length := List.length_pos.mpr h
        simp at this; omega
      · apply hstep c cs hp
        apply ih cs.length _ cs rfl
        simp at hlen; omega

/-- Text without the first character of the pattern is copied unchanged. -/
theorem replaceAll_copy (o : Char) (os new x y : Str) (hx : ∀ c ∈ x, c ≠ o) :
    replaceAll (x ++ y) (o :: os) new = x ++ replaceAll y (o :: os) new := by
  induction x with
  | nil => rfl
  | cons c cs ih =>
    have hc : c ≠ o := hx c (List.mem_cons_self _ _)
    rw [List.cons_append, replaceAll_step _ _ _ _ (by simp), ih (fun d hd => hx d (List.mem_cons_of_mem _ hd))]
    · rfl
    · intro hp
      rw [List.cons_prefix_cons] at hp
      exact hc hp.1.symm

theorem replaceAll_id_of_not_mem (o : Char) (os new x : Str) (hx : ∀ c ∈ x, c ≠ o) :
    replaceAll x (o :: os) new = x := by
  have := replaceAll_copy o os new x [] hx
  simpa [replaceAll_nil] using this

theorem not_infix_of_not_mem (o : Char) (os x : Str) (hx : ∀ c ∈ x, c ≠ o) :
    ¬ (o :: os) <:+: x := by
  intro h
  exact hx o (h.mem (List.mem_cons_self _ _)) rfl

theorem replaceAll_of_absent (old new : Str) (h : old ≠ []) :
    ∀ s, ¬ old <:+: s → replaceAll s old new = s := by
  intro s
  induction s with
  | nil => intro _; exact replaceAll_nil old new h
  | cons c cs ih =>
    intro hn
    rw [List.infix_cons_iff, not_or] at hn
    rw [replaceAll_step old new c cs h hn.1, ih hn.2]

theorem placeholder_ne_nil (k : Str) : placeholder k ≠ [] := by simp [placeholder]

theorem pathToken_ne_nil (k : Str) : pathToken k ≠ [] := by simp [pathToken]

theorem not_lbrace_of_braceFree {s : Str} (h : braceFree s = true) : ∀ c ∈ s, c ≠ lbrace :=
  fun c hc => ((braceFree_iff.mp h) c hc).1

theorem not_rbrace_of_braceFree {s : Str} (h : braceFree s = true) : ∀ c ∈ s, c ≠ rbrace :=
  fun c hc => ((braceFree_iff.mp h) c hc).2

/-- A closing pair after a brace-free name determines the name. -/
theorem close2_prefix_inj (s : Str) (hs : braceFree s = true) :
    ∀ (n k : Str), braceFree n = true →
      (k ++ [rbrace, rbrace]) <+: (n ++ [rbrace, rbrace] ++ s) → k = n := by
  intro n
  induction n with
  | nil =>
    intro k _ h
    cases k with
    | nil => rfl
    | cons x k1 =>
      exfalso
      simp only [List.nil_append, List.cons_append, List.cons_prefix_cons] at h
      cases k1 with
      | nil =>
        simp only [List.nil_append, List.cons_prefix_cons] at h
        have hm : rbrace ∈ s := h.2.2.mem (List.mem_singleton.mpr rfl)
        exact not_rbrace_of_braceFree hs _ hm rfl
      | cons y k2 =>
        simp only [List.cons_append, List.cons_prefix_cons] at h
        have hm : rbrace ∈ s := h.2.2.mem (by simp)
        exact not_rbrace_of_braceFree hs _ hm rfl
  | cons c n1 ih =>
    intro k hn h
    rw [braceFree_cons] at hn
    cases k with
    | nil =>
      exfalso
      simp only [List.nil_append, List.cons_append, List.cons_prefix_cons] at h
      exact hn.1.2 h.1.symm
    | cons x k1 =>
      simp only [List.cons_append, List.cons_prefix_cons] at h
      rw [h.1, ih k1 hn.2 (by simpa using h.2)]

theorem placeholder_infix_single (p n s k : Str) (hp : braceFree p = true)
    (hn : braceFree n = true) (hs : braceFree s = true)
    (h : placeholder k <:+: p ++ placeholder n ++ s) : k = n := by
  induction p with
  | nil =>
    simp only [List.nil_append, placeholder, List.cons_append] at h
    rw [List.infix_cons_iff] at h
    rcases h with h | h
    · simp only [List.cons_prefix_cons, true_and] at h
      exact close2_prefix_inj s hs n k hn (by simpa using h)
    · exfalso
      rw [List.infix_cons_iff] at h
      rcases h with h | h
      · simp only [List.cons_prefix_cons, true_and] at h
        have hm : lbrace ∈ n ++ [rbrace, rbrace] ++ s := h.mem (List.mem_cons_self _ _)
        simp only [List.mem_append, List.mem_cons, List.mem_singleton, List.not_mem_nil,
          or_false] at hm
        rcases hm with (hm | hm | hm) | hm
        · exact not_lbrace_of_braceFree hn _ hm rfl
        · exact lbrace_ne_rbrace hm
        · exact lbrace_ne_rbrace hm
        · exact not_lbrace_of_braceFree hs _ hm rfl
      · have hm : lbrace ∈ n ++ [rbrace, rbrace] ++ s := h.mem (List.mem_cons_self _ _)
        simp only [List.mem_append, List.mem_cons, List.mem_singleton, List.not_mem_nil,
          or_false] at hm
        rcases hm with (hm | hm | hm) | hm
        · exact not_lbrace_of_braceFree hn _ hm rfl
        · exact lbrace_ne_rbrace hm
        · exact lbrace_ne_rbrace hm
        · exact not_lbrace_of_braceFree hs _ hm rfl
  | cons c p1 ih =>
    rw [braceFree_cons] at hp
    simp only [List.cons_append] at h
    rw [List.infix_cons_iff] at h
    rcases h with h | h
    · exfalso
      simp only [placeholder, List.cons_prefix_cons] at h
      exact hp.1.1 h.1.symm
    · exact ih hp.2 (by simpa using h)

theorem replaceAll_single (p n s v : Str) (hp : braceFree p = true) (hs : braceFree s = true) :
    replaceAll (p ++ placeholder n ++ s) (placeholder n) v = p ++ v ++ s := by
  have e : placeholder n = lbrace :: lbrace :: (n ++ [rbrace, rbrace]) := rfl
  rw [List.append_assoc]
  conv_lhs => rw [e]
  rw [replaceAll_copy lbrace _ v p _ (not_lbrace_of_braceFree hp), ← e,
    replaceAll_match _ _ _ (placeholder_ne_nil n)]
  conv_lhs => rw [e]
  rw [replaceAll_id_of_not_mem lbrace _ v s (not_lbrace_of_braceFree hs), List.append_assoc]

theorem substitute_of_absent (k v x : Str) (h : ¬ placeholder k <:+: x) :
    substitute k v x = x := by
  have : contains x (placeholder k) = false := (contains_eq_false_iff _ _).mpr h
  simp [substitute, this]

theorem substitute_eq_replaceAll (k v x : Str) :
    substitute k v x = replaceAll x (placeholder k) v := by
  unfold substitute
  split
  · rfl
  · rename_i h
    rw [Bool.not_eq_true, contains_eq_false_iff] at h
    exact (replaceAll_of_absent _ _ (placeholder_ne_nil k) x h).symm

theorem substitute_braceFree (k v x : Str) (h : braceFree x = true) : substitute k v x = x :=
  substitute_of_absent k v x
    (not_infix_of_not_mem lbrace _ x (not_lbrace_of_braceFree h))

theorem substitute_single (p n s v : Str) (hp : braceFree p = true) (hs : braceFree s = true) :
    substitute n v (p ++ placeholder n ++ s) = p ++ v ++ s := by
  rw [substitute_eq_replaceAll, replaceAll_single p n s v hp hs]

theorem substituteAll_nil (x : Str) : substituteAll [] x = x := rfl

theorem substituteAll_cons (kv : Str × Str) (l : VarMap) (x : Str) :
    substituteAll (kv :: l) x = substituteAll l (substitute kv.1 kv.2 x) := rfl

theorem substituteAll_append (l1 l2 : VarMap) (x : Str) :
    substituteAll (l1 ++ l2) x = substituteAll l2 (substituteAll l1 x) := by
  simp [substituteAll, List.foldl_append]

theorem substituteAll_stable (l : VarMap) (x : Str)
    (h : ∀ kv ∈ l, ¬ placeholder kv.1 <:+: x) : substituteAll l x = x := by
  induction l with
  | nil => rfl
  | cons kv l ih =>
    rw [substituteAll_cons, substitute_of_absent _ _ _ (h kv (List.mem_cons_self _ _))]
    exact ih (fun kv1 h1 => h kv1 (List.mem_cons_of_mem _ h1))

theorem substituteAll_braceFree (l : VarMap) (x : Str) (h : braceFree x = true) :
    substituteAll l x = x :=
  substituteAll_stable l x
    (fun _ _ => not_infix_of_not_mem lbrace _ x (not_lbrace_of_braceFree h))

/-- The text reached from a single placeholder of a brace-free name: nothing
happens until the variable is visited, then the value is put in. -/
theorem substituteAll_reach (l1 l2 : VarMap) (p n s v : Str)
    (hp : braceFree p = true) (hn : braceFree n = true) (hs : braceFree s = true)
    (h1 : ∀ kv ∈ l1, kv.1 ≠ n) :
    substituteAll (l1 ++ (n, v) :: l2) (p ++ placeholder n ++ s)
      = substituteAll l2 (p ++ v ++ s) := by
  rw [substituteAll_append, substituteAll_cons, substituteAll_stable l1, substitute_single p n s v hp hs]
  intro kv hkv hin
  exact h1 kv hkv (placeholder_infix_single p n s kv.1 hp hn hs hin)

theorem substituteAll_single (l : VarMap) (p n s v : Str)
    (hl : (l.map Prod.fst).Nodup) (hmem : (n, v) ∈ l)
    (hp : braceFree p = true) (hn : braceFree n = true) (hs : braceFree s = true)
    (hv : braceFree v = true) :
    substituteAll l (p ++ placeholder n ++ s) = p ++ v ++ s := by
  obtain ⟨l1, l2, rfl⟩ := List.append_of_mem hmem
  have h1 : ∀ kv ∈ l1, kv.1 ≠ n := by
    intro kv hkv he
    rw [List.map_append, List.nodup_append] at hl
    exact hl.2.2 (List.mem_map_of_mem Prod.fst hkv) (by simp [he])
  rw [substituteAll_reach l1 l2 p n s v hp hn hs h1]
  apply substituteAll_braceFree
  rw [braceFree_append, braceFree_append]
  exact ⟨⟨hp, hv⟩, hs⟩

theorem substituteValue_eq (k v : Str) (kv : KeyValue) :
    substituteValue k v kv = { Key := kv.Key, Value := substitute k v kv.Value } := by
  unfold substituteValue substitute
  split <;> rfl

theorem substituteAuth_eq (k v : Str) (a : Auth) :
    substituteAuth k v a =
      { Kind := a.Kind
        BasicAuth := a.BasicAuth.map
          (fun c => { Username := substitute k v c.Username, Password := substitute k v c.Password })
        TokenAuth := a.TokenAuth.map (fun t => { Token := substitute k v t.Token })
        APIKeyAuth := a.APIKeyAuth.map
          (fun c => { Key := substitute k v c.Key, Value := substitute k v c.Value }) } := by
  rcases a with ⟨kind, _ | c, _ | t, _ | d⟩ <;> simp [substituteAuth, Auth.nonZero]

theorem get_applyVariable (k v : Str) (req : HTTPRequestSpec) (fld : Field) :
    fld.get (applyVariable k v req) = (fld.get req).map (substitute k v) := by
  cases fld <;>
    simp [Field.get, applyVariable, substituteAuth_eq, List.getElem?_map, substituteValue_eq,
      Option.map_map, Function.comp_def]

theorem get_applyVariables_fold (l : VarMap) (req : HTTPRequestSpec) (fld : Field) :
    fld.get (l.foldl (fun r kv => applyVariable kv.1 kv.2 r) req)
      = (fld.get req).map (substituteAll l) := by
  induction l generalizing req with
  | nil =>
    have e : substituteAll [] = id := rfl
    simp [e]
  | cons kv l ih =>
    rw [List.foldl_cons, ih, get_applyVariable, Option.map_map]
    rfl

theorem get_applyVariables (b : Builtins) (order1 order2 : MapOrder)
    (req : HTTPRequestSpec) (env : Option EnvSpec) (fld : Field) :
    fld.get (applyVariables b order1 order2 req env).1
      = (fld.get req).map (substituteAll (order2 (mergedVariables b order1 env))) :=
  get_applyVariables_fold _ req fld

theorem mapSet_keys (m : VarMap) (k v : Str) :
    (mapSet m k v).map Prod.fst = if k ∈ m.map Prod.fst then m.map Prod.fst
      else m.map Prod.fst ++ [k] := by
  induction m with
  | nil => simp [mapSet]
  | cons e m ih =>
    obtain ⟨k0, v0⟩ := e
    by_cases h : k0 = k
    · simp [mapSet, h]
    · have h2 : ¬ k = k0 := fun e => h e.symm
      simp only [mapSet, h, if_false, List.map_cons, ih, List.mem_cons, h2, false_or]
      split <;> simp

theorem mapSet_nodup (m : VarMap) (k v : Str) (h : (m.map Prod.fst).Nodup) :
    ((mapSet m k v).map Prod.fst).Nodup := by
  rw [mapSet_keys]
  split
  · exact h
  · rename_i hk
    rw [List.nodup_append]
    refine ⟨h, List.nodup_singleton k, ?_⟩
    intro a ha hb
    rw [List.mem_singleton] at hb
    exact hk (hb ▸ ha)

theorem addEnvValues_nodup (values : List KeyValue) (m : VarMap) (h : (m.map Prod.fst).Nodup) :
    ((addEnvValues m values).map Prod.fst).Nodup := by
  induction values generalizing m with
  | nil => exact h
  | cons kv values ih => exact ih _ (mapSet_nodup m kv.Key kv.Value h)

theorem builtinVariables_nodup (b : Builtins) : ((builtinVariables b).map Prod.fst).Nodup := by
  simp only [builtinVariables, List.map_cons, List.map_nil]
  decide

theorem mergedVariables_nodup (b : Builtins) (order1 : MapOrder) (env : Option EnvSpec) :
    ((mergedVariables b order1 env).map Prod.fst).Nodup := by
  unfold mergedVariables
  split
  · exact builtinVariables_nodup b
  · exact addEnvValues_nodup _ _ (builtinVariables_nodup b)

theorem visit_nodup (b : Builtins) (order1 order2 : MapOrder) (env : Option EnvSpec)
    (h2 : IsRange order2) :
    ((order2 (mergedVariables b order1 env)).map Prod.fst).Nodup :=
  ((h2 _).map Prod.fst).nodup_iff.mpr (mergedVariables_nodup b order1 env)

/-- C1 (amended): for fixed built-in values, every template, every optional
environment and every visiting order of the map: for a variable (n, v) of the
merged set and any of the twelve fields, if the text of the field is
p ++ "{{n}}" ++ s where p, s, the name n and the value v hold no brace
character, then after applyVariables the text of the field is p ++ v ++ s. -/
theorem applyVariables_substitutes_placeholder (b : Builtins) (order1 order2 : MapOrder)
    (req : HTTPRequestSpec) (env : Option EnvSpec) (fld : Field) (n v p s : Str)
    (h2 : IsRange order2)
    (hmem : (n, v) ∈ mergedVariables b order1 env)
    (hfld : fld.get req = some (p ++ placeholder n ++ s))
    (hp : braceFree p = true) (hs : braceFree s = true)
    (hn : braceFree n = true) (hv : braceFree v = true) :
    fld.get (applyVariables b order1 order2 req env).1 = some (p ++ v ++ s) := by
  rw [get_applyVariables, hfld, Option.map_some']
  congr 1
  exact substituteAll_single _ p n s v (visit_nodup b order1 order2 env h2)
    ((h2 _).mem_iff.mpr hmem) hp hn hs hv

theorem isRange_id : IsRange (fun m => m) := fun m => List.Perm.refl m

theorem isRange_reverse : IsRange List.reverse := fun m => List.reverse_perm m

/-- C1 (witness): with the environment pair token = secret, the bearer-style
header value "Bearer {{token}}!" resolves to "Bearer secret!". -/
theorem applyVariables_substitutes_placeholder_witness :
    Field.get (.header 0)
        (applyVariables sampleBuiltins (fun m => m) (fun m => m)
          { sampleTemplate [] with
            Request := { (sampleTemplate []).Request with
              Headers := [{ Key := str "Authorization",
                            Value := str "Bearer " ++ placeholder (str "token") ++ str "!" }] } }
          (some { Values := [{ Key := str "token", Value := str "secret" }] })).1
      = some (str "Bearer " ++ str "secret" ++ str "!") :=
  applyVariables_substitutes_placeholder sampleBuiltins (fun m => m) (fun m => m) _ _
    (.header 0) (str "token") (str "secret") (str "Bearer ") (str "!")
    isRange_id (by decide) (by decide) (by decide) (by decide) (by decide) (by decide)

/-- C1 (counterexample): the variable named `a}}{{a` has value X and the URL is
`{{a}}{{a}}`, that is the placeholder of that variable between two empty
texts; all values are brace-free.  When the map is visited with the variable
`a` (value Y) first, the URL becomes YY and not X. -/
theorem applyVariables_brace_name_counterexample :
    IsRange (fun m => m) ∧ IsRange List.reverse ∧
    (str "a\x7d\x7d\x7b\x7ba", str "X") ∈
      mergedVariables sampleBuiltins (fun m => m)
        (some { Values := [{ Key := str "a\x7d\x7d\x7b\x7ba", Value := str "X" },
                           { Key := str "a", Value := str "Y" }] }) ∧
    Field.get .url (sampleTemplate (str "\x7b\x7ba\x7d\x7d\x7b\x7ba\x7d\x7d"))
      = some ([] ++ placeholder (str "a\x7d\x7d\x7b\x7ba") ++ []) ∧
    (∀ kv ∈ mergedVariables sampleBuiltins (fun m => m)
        (some { Values := [{ Key := str "a\x7d\x7d\x7b\x7ba", Value := str "X" },
                           { Key := str "a", Value := str "Y" }] }), braceFree kv.2 = true) ∧
    Field.get .url
        (applyVariables sampleBuiltins (fun m => m) List.reverse
          (sampleTemplate (str "\x7b\x7ba\x7d\x7d\x7b\x7ba\x7d\x7d"))
          (some { Values := [{ Key := str "a\x7d\x7d\x7b\x7ba", Value := str "X" },
                             { Key := str "a", Value := str "Y" }] })).1
      = some (str "YY") ∧
    str "YY" ≠ [] ++ str "X" ++ [] :=
  ⟨isRange_id, isRange_reverse, by decide, by decide, by decide, by decide, by decide⟩

theorem resolveEnvValues_eq (visit : VarMap) (values : List KeyValue) :
    resolveEnvValues visit values
      = values.map (fun kv => { Key := kv.Key, Value := substituteAll visit kv.Value }) := by
  induction visit generalizing values with
  | nil =>
    have e : substituteAll [] = id := rfl
    simp [resolveEnvValues, e]
  | cons e visit ih =>
    have h : resolveEnvValues (e :: visit) values
        = resolveEnvValues visit (values.map (substituteValue e.1 e.2)) := rfl
    rw [h, ih, List.map_map]
    apply List.map_congr_left
    intro kv _
    simp [substituteValue_eq, substituteAll_cons]

theorem mapSet_mem_self (m : VarMap) (k v : Str) : (k, v) ∈ mapSet m k v := by
  induction m with
  | nil => simp [mapSet]
  | cons e m ih =>
    obtain ⟨k0, v0⟩ := e
    by_cases h : k0 = k
    · simp [mapSet, h]
    · simp only [mapSet, h, if_false]
      exact List.mem_cons_of_mem _ ih

theorem mapSet_mem_of_ne (m : VarMap) (k v k1 v1 : Str) (h : (k1, v1) ∈ m) (hne : k ≠ k1) :
    (k1, v1) ∈ mapSet m k v := by
  induction m with
  | nil => cases h
  | cons e m ih =>
    obtain ⟨k0, v0⟩ := e
    by_cases h0 : k0 = k
    · simp only [mapSet, h0, if_true]
      rcases List.mem_cons.mp h with h | h
      · exfalso
        injection h with h3 _
        exact hne (h0 ▸ h3.symm)
      · exact List.mem_cons_of_mem _ h
    · simp only [mapSet, h0, if_false]
      rcases List.mem_cons.mp h with h | h
      · rw [h]; exact List.mem_cons_self _ _
      · exact List.mem_cons_of_mem _ (ih h)

theorem addEnvValues_append (m : VarMap) (xs ys : List KeyValue) :
    addEnvValues m (xs ++ ys) = addEnvValues (addEnvValues m xs) ys := by
  simp [addEnvValues, List.foldl_append]

theorem addEnvValues_keeps (ys : List KeyValue) (m : VarMap) (k v : Str) (h : (k, v) ∈ m)
    (hys : ∀ kv ∈ ys, kv.Key ≠ k) : (k, v) ∈ addEnvValues m ys := by
  induction ys generalizing m with
  | nil => exact h
  | cons kv ys ih =>
    apply ih (mapSet m kv.Key kv.Value)
    · exact mapSet_mem_of_ne m kv.Key kv.Value k v h (hys kv (List.mem_cons_self _ _))
    · exact fun kv1 h1 => hys kv1 (List.mem_cons_of_mem _ h1)

theorem addEnvValues_last (m : VarMap) (front back : List KeyValue) (k v : Str)
    (hback : ∀ kv ∈ back, kv.Key ≠ k) :
    (k, v) ∈ addEnvValues m (front ++ { Key := k, Value := v } :: back) := by
  rw [addEnvValues_append]
  exact addEnvValues_keeps back _ k v (mapSet_mem_self _ k v) hback

/-- The last pair of the environment with a given key and a brace-free value
is an entry of the merged map. -/
theorem mergedVariables_mem_of_last (b : Builtins) (order1 : MapOrder) (e : EnvSpec)
    (front back : List KeyValue) (k v : Str)
    (henv : e.Values = front ++ { Key := k, Value := v } :: back)
    (hback : ∀ kv ∈ back, kv.Key ≠ k) (hv : braceFree v = true) :
    (k, v) ∈ mergedVariables b order1 (some e) := by
  simp only [mergedVariables, resolvedEnv, Option.map_some']
  rw [resolveEnvValues_eq, henv, List.map_append, List.map_cons]
  simp only [substituteAll_braceFree _ v hv]
  apply addEnvValues_last
  intro kv hkv
  rw [List.mem_map] at hkv
  obtain ⟨kv0, h0, rfl⟩ := hkv
  exact hback kv0 h0

theorem builtin_name_braceFree (n : Str) (h : n ∈ builtinNames) : braceFree n = true := by
  simp only [builtinNames, List.mem_cons, List.mem_singleton, List.not_mem_nil, or_false] at h
  rcases h with h | h | h <;> subst h <;> decide

/-- C2 (amended): when the last pair of the environment whose key is a
built-in name n (randomUUID4, timeNow or unixTimestamp) has a value v without
brace characters, then for every visiting order a field whose text is
p ++ "{{n}}" ++ s with brace-free p and s becomes p ++ v ++ s: the value of
the environment is put in, not the built-in value. -/
theorem applyVariables_environment_overrides_builtin (b : Builtins) (order1 order2 : MapOrder)
    (req : HTTPRequestSpec) (e : EnvSpec) (fld : Field) (n v p s : Str)
    (front back : List KeyValue)
    (h2 : IsRange order2)
    (hname : n ∈ builtinNames)
    (henv : e.Values = front ++ { Key := n, Value := v } :: back)
    (hback : ∀ kv ∈ back, kv.Key ≠ n)
    (hv : braceFree v = true)
    (hfld : fld.get req = some (p ++ placeholder n ++ s))
    (hp : braceFree p = true) (hs : braceFree s = true) :
    fld.get (applyVariables b order1 order2 req (some e)).1 = some (p ++ v ++ s) := by
  rw [get_applyVariables, hfld, Option.map_some']
  congr 1
  exact substituteAll_single _ p n s v (visit_nodup b order1 order2 (some e) h2)
    ((h2 _).mem_iff.mpr (mergedVariables_mem_of_last b order1 e front back n v henv hback hv))
    hp (builtin_name_braceFree n hname) hs hv

/-- C2 (witness): the environment pair timeNow = noon overrides the built-in
time in the URL `https://h/?t={{timeNow}}`. -/
theorem applyVariables_environment_overrides_builtin_witness :
    Field.get .url
        (applyVariables sampleBuiltins (fun m => m) List.reverse
          (sampleTemplate (str "https://h/?t=" ++ placeholder (str "timeNow") ++ []))
          (some { Values := [{ Key := str "timeNow", Value := str "noon" }] })).1
      = some (str "https://h/?t=" ++ str "noon" ++ []) :=
  applyVariables_environment_overrides_builtin sampleBuiltins (fun m => m) List.reverse _
    { Values := [{ Key := str "timeNow", Value := str "noon" }] } .url (str "timeNow") (str "noon")
    (str "https://h/?t=") [] [] [] isRange_reverse (by decide) rfl (by simp) (by decide) rfl
    (by decide) (by decide)

/-- C2 (counterexample): the environment holds the pair timeNow = `{{timeNow}}`.
The first loop puts the built-in time into that environment value, so the URL
`{{timeNow}}` becomes the built-in time and not the value that the
environment holds for timeNow. -/
theorem applyVariables_override_counterexample :
    IsRange (fun m => m) ∧
    ({ Key := str "timeNow", Value := placeholder (str "timeNow") } : KeyValue) ∈
      [({ Key := str "timeNow", Value := placeholder (str "timeNow") } : KeyValue)] ∧
    Field.get .url
        (applyVariables sampleBuiltins (fun m => m) (fun m => m)
          (sampleTemplate (placeholder (str "timeNow")))
          (some { Values := [{ Key := str "timeNow", Value := placeholder (str "timeNow") }] })).1
      = some sampleBuiltins.timeNow ∧
    sampleBuiltins.timeNow ≠ placeholder (str "timeNow") :=
  ⟨isRange_id, by decide, by decide, by decide⟩

theorem map_substituteValue_id (k v : Str) (l : List KeyValue)
    (h : ∀ (i : Nat) (kv : KeyValue), l[i]? = some kv → ¬ placeholder k <:+: kv.Value) :
    l.map (substituteValue k v) = l := by
  conv_rhs => rw [← List.map_id l]
  apply List.map_congr_left
  intro kv hkv
  obtain ⟨i, hi, hget⟩ := List.mem_iff_getElem.mp hkv
  have h1 : l[i]? = some kv := by rw [List.getElem?_eq_getElem hi, hget]
  rw [substituteValue_eq, substitute_of_absent k v kv.Value (h i kv h1)]
  rfl

/-- One variable whose placeholder occurs in no field leaves the template as
it is. -/
theorem applyVariable_id (k v : Str) (req : HTTPRequestSpec)
    (h : ∀ (fld : Field) (x : Str), fld.get req = some x → ¬ placeholder k <:+: x) :
    applyVariable k v req = req := by
  obtain ⟨method, target, ⟨headers, pathParams, queryParams, ⟨data, form, urlenc⟩, auth, post⟩⟩ := req
  have hurl := h .url target rfl
  have hdata := h .bodyData data rfl
  have hh : headers.map (substituteValue k v) = headers :=
    map_substituteValue_id k v headers
      (fun i kv hi => h (.header i) kv.Value (by simp [Field.get, hi]))
  have hp : pathParams.map (substituteValue k v) = pathParams :=
    map_substituteValue_id k v pathParams
      (fun i kv hi => h (.pathParam i) kv.Value (by simp [Field.get, hi]))
  have hq : queryParams.map (substituteValue k v) = queryParams :=
    map_substituteValue_id k v queryParams
      (fun i kv hi => h (.queryParam i) kv.Value (by simp [Field.get, hi]))
  have hf : form.map (substituteValue k v) = form :=
    map_substituteValue_id k v form
      (fun i kv hi => h (.formBody i) kv.Value (by simp [Field.get, hi]))
  have hu : urlenc.map (substituteValue k v) = urlenc :=
    map_substituteValue_id k v urlenc
      (fun i kv hi => h (.urlEncoded i) kv.Value (by simp [Field.get, hi]))
  have ha : substituteAuth k v auth = auth := by
    rw [substituteAuth_eq]
    obtain ⟨kind, basic, token, apikey⟩ := auth
    have ht : token.map (fun t => ({ Token := substitute k v t.Token } : TokenAuth)) = token := by
      cases token with
      | none => rfl
      | some t =>
        have := h .bearerToken t.Token rfl
        simp [substitute_of_absent k v _ this]
    have hb : basic.map (fun c =>
        (⟨substitute k v c.Username, substitute k v c.Password⟩ : BasicAuth)) = basic := by
      cases basic with
      | none => rfl
      | some c =>
        have h1 := h .basicUsername c.Username rfl
        have h2 := h .basicPassword c.Password rfl
        simp [substitute_of_absent k v _ h1, substitute_of_absent k v _ h2]
    have hk : apikey.map (fun c =>
        (⟨substitute k v c.Key, substitute k v c.Value⟩ : APIKeyAuth)) = apikey := by
      cases apikey with
      | none => rfl
      | some c =>
        have h1 := h .apiKeyName c.Key rfl
        have h2 := h .apiKeyValue c.Value rfl
        simp [substitute_of_absent k v _ h1, substitute_of_absent k v _ h2]
    simp only [ht, hb, hk]
  simp only [applyVariable, hh, hp, hq, hf, hu, ha, substitute_of_absent k v _ hurl,
    substitute_of_absent k v _ hdata]

theorem applyVariable_fold_id (l : VarMap) (req : HTTPRequestSpec)
    (h : ∀ kv ∈ l, ∀ (fld : Field) (x : Str), fld.get req = some x → ¬ placeholder kv.1 <:+: x) :
    l.foldl (fun r kv => applyVariable kv.1 kv.2 r) req = req := by
  induction l with
  | nil => rfl
  | cons kv l ih =>
    rw [List.foldl_cons, applyVariable_id kv.1 kv.2 req (h kv (List.mem_cons_self _ _))]
    exact ih (fun kv1 h1 => h kv1 (List.mem_cons_of_mem _ h1))

/-- C3: when no textual field of the template contains the token `{{k}}` for
any name k of the merged variable set, applyVariables returns a template equal
to its input, for every visiting order of the map (the function has no error
result). -/
theorem applyVariables_no_placeholder (b : Builtins) (order1 order2 : MapOrder)
    (req : HTTPRequestSpec) (env : Option EnvSpec)
    (h2 : IsRange order2)
    (h : ∀ kv ∈ mergedVariables b order1 env, ∀ (fld : Field) (x : Str),
        fld.get req = some x → contains x (placeholder kv.1) = false) :
    (applyVariables b order1 order2 req env).1 = req := by
  apply applyVariable_fold_id
  intro kv hkv fld x hx
  rw [← contains_eq_false_iff]
  exact h kv ((h2 _).mem_iff.mp hkv) fld x hx

/-- C3 (witness): the URL holds a path token and the placeholder of a name
that is not a variable; with the environment pair token = secret the template
is returned unchanged. -/
theorem applyVariables_no_placeholder_witness :
    (applyVariables sampleBuiltins (fun m => m) List.reverse
        (sampleTemplate (str "https://h/items/\x7bid\x7d?q=" ++ placeholder (str "missing")))
        (some { Values := [{ Key := str "token", Value := str "secret" }] })).1
      = sampleTemplate (str "https://h/items/\x7bid\x7d?q=" ++ placeholder (str "missing")) :=
  applyVariables_no_placeholder sampleBuiltins (fun m => m) List.reverse _ _ isRange_reverse
    (by
      intro kv hkv fld x hx
      have hall : ∀ kv ∈ mergedVariables sampleBuiltins (fun m => m)
          (some { Values := [{ Key := str "token", Value := str "secret" }] }),
          contains (str "https://h/items/\x7bid\x7d?q=" ++ placeholder (str "missing"))
              (placeholder kv.1) = false
            ∧ contains [] (placeholder kv.1) = false := by decide
      have hx1 : x = str "https://h/items/\x7bid\x7d?q=" ++ placeholder (str "missing")
          ∨ x = [] := by
        cases fld <;> simp [Field.get, sampleTemplate] at hx <;> simp [hx]
      rcases hx1 with rfl | rfl
      · exact (hall kv hkv).1
      · exact (hall kv hkv).2)

theorem nodup_keys_split (l1 l2 : VarMap) (k v : Str)
    (h : ((l1 ++ (k, v) :: l2).map Prod.fst).Nodup) :
    (∀ kv ∈ l1, kv.1 ≠ k) ∧ (∀ kv ∈ l2, kv.1 ≠ k) ∧ (l1.map Prod.fst).Nodup
      ∧ (l2.map Prod.fst).Nodup := by
  rw [List.map_append, List.map_cons, List.nodup_append, List.nodup_cons] at h
  obtain ⟨hn1, ⟨hk2, hn2⟩, hdis⟩ := h
  refine ⟨?_, ?_, hn1, hn2⟩
  · intro kv hkv he
    exact hdis (List.mem_map_of_mem Prod.fst hkv) (by simp [he])
  · intro kv hkv he
    apply hk2
    have hm : kv.1 ∈ l2.map Prod.fst := List.mem_map_of_mem Prod.fst hkv
    rw [he] at hm
    exact hm

theorem nodup_keys_unique (l : VarMap) (k v1 v2 : Str) (h : (l.map Prod.fst).Nodup)
    (h1 : (k, v1) ∈ l) (h2 : (k, v2) ∈ l) : v1 = v2 := by
  obtain ⟨l1, l2, rfl⟩ := List.append_of_mem h1
  obtain ⟨ha, hb, _, _⟩ := nodup_keys_split l1 l2 k v1 h
  rw [List.mem_append, List.mem_cons] at h2
  rcases h2 with h2 | h2 | h2
  · exact absurd rfl (ha _ h2)
  · injection h2 with _ h3
    exact h3.symm
  · exact absurd rfl (hb _ h2)

/-- The text reached from the placeholder of `a` when `a` has the value
`{{b}}`, `b` has the value `w`, and `a` is visited before `b`. -/
theorem substituteAll_chain_forward (l : VarMap) (a bn w : Str)
    (hl : (l.map Prod.fst).Nodup)
    (ha : braceFree a = true) (hb : braceFree bn = true) (hw : braceFree w = true)
    (hma : (a, placeholder bn) ∈ l) (hmb : (bn, w) ∈ l)
    (hord : VisitedBefore l a bn) :
    substituteAll l (placeholder a) = w := by
  obtain ⟨l1, l2, l3, v1, v2, rfl⟩ := hord
  have e1 : v1 = placeholder bn :=
    nodup_keys_unique _ a v1 (placeholder bn) hl (by simp) hma
  have e2 : v2 = w := nodup_keys_unique _ bn v2 w hl (by simp) hmb
  subst e1 e2
  obtain ⟨h1, _, _, hrest⟩ := nodup_keys_split l1 _ a _ hl
  obtain ⟨h2, _, _, _⟩ := nodup_keys_split l2 l3 bn _ hrest
  have s1 := substituteAll_reach l1 (l2 ++ (bn, v2) :: l3) [] a [] (placeholder bn) rfl ha rfl h1
  have s2 := substituteAll_reach l2 l3 [] bn [] v2 rfl hb rfl h2
  simp only [List.nil_append, List.append_nil] at s1 s2
  rw [s1, s2]
  exact substituteAll_braceFree l3 v2 hw

/-- The text reached from the placeholder of `a` when `a` has the value
`{{b}}` and `b` is visited before `a`. -/
theorem substituteAll_chain_backward (l : VarMap) (a bn : Str)
    (hl : (l.map Prod.fst).Nodup)
    (ha : braceFree a = true) (hb : braceFree bn = true)
    (hma : (a, placeholder bn) ∈ l)
    (hord : VisitedBefore l bn a) :
    substituteAll l (placeholder a) = placeholder bn := by
  obtain ⟨l1, l2, l3, v1, v2, rfl⟩ := hord
  have hl2 : (((l1 ++ (bn, v1) :: l2) ++ (a, v2) :: l3).map Prod.fst).Nodup := by
    simpa using hl
  have e2 : v2 = placeholder bn :=
    nodup_keys_unique _ a v2 (placeholder bn) hl (by simp) hma
  subst e2
  obtain ⟨h1, _, _, _⟩ := nodup_keys_split (l1 ++ (bn, v1) :: l2) l3 a _ hl2
  obtain ⟨_, h3, _, _⟩ := nodup_keys_split l1 (l2 ++ (a, placeholder bn) :: l3) bn v1 hl
  have s1 := substituteAll_reach (l1 ++ (bn, v1) :: l2) l3 [] a [] (placeholder bn) rfl ha rfl h1
  simp only [List.nil_append, List.append_nil, List.append_assoc, List.cons_append] at s1
  rw [s1]
  apply substituteAll_stable
  intro kv hkv hin
  have hk : kv.1 = bn :=
    placeholder_infix_single [] bn [] kv.1 rfl hb rfl (by simpa using hin)
  exact h3 kv (by simp [hkv]) hk

/-- C4 (amended): resolution makes one pass per variable, so text put in as
the expansion of one variable is scanned again for the variables visited
later.  When a has the value `{{b}}` and b the brace-free value w (a and b
brace-free names), a field whose text is `{{a}}` resolves to w if the map
visit reaches a before b, and to the literal text `{{b}}` if it reaches b
before a. -/
theorem applyVariables_one_pass_per_variable (b : Builtins) (order1 order2 : MapOrder)
    (req : HTTPRequestSpec) (env : Option EnvSpec) (fld : Field) (a bn w : Str)
    (h2 : IsRange order2)
    (ha : braceFree a = true) (hb : braceFree bn = true) (hw : braceFree w = true)
    (hma : (a, placeholder bn) ∈ mergedVariables b order1 env)
    (hmb : (bn, w) ∈ mergedVariables b order1 env)
    (hfld : fld.get req = some (placeholder a)) :
    (VisitedBefore (order2 (mergedVariables b order1 env)) a bn →
        fld.get (applyVariables b order1 order2 req env).1 = some w) ∧
    (VisitedBefore (order2 (mergedVariables b order1 env)) bn a →
        fld.get (applyVariables b order1 order2 req env).1 = some (placeholder bn)) := by
  have hl := visit_nodup b order1 order2 env h2
  have hma1 := (h2 _).mem_iff.mpr hma
  have hmb1 := (h2 _).mem_iff.mpr hmb
  rw [get_applyVariables, hfld, Option.map_some']
  constructor
  · intro hord
    rw [substituteAll_chain_forward _ a bn w hl ha hb hw hma1 hmb1 hord]
  · intro hord
    rw [substituteAll_chain_backward _ a bn hl ha hb hma1 hord]

/-- C4 (witness): with the environment a = `{{b}}`, b = w and the map visited
in the order of insertion (a before b), the URL `{{a}}` resolves to w. -/
theorem applyVariables_one_pass_per_variable_witness :
    Field.get .url
        (applyVariables sampleBuiltins (fun m => m) (fun m => m)
          (sampleTemplate (placeholder (str "a")))
          (some { Values := [{ Key := str "a", Value := placeholder (str "b") },
                             { Key := str "b", Value := str "w" }] })).1
      = some (str "w") :=
  (applyVariables_one_pass_per_variable sampleBuiltins (fun m => m) (fun m => m)
    (sampleTemplate (placeholder (str "a")))
    (some { Values := [{ Key := str "a", Value := placeholder (str "b") },
                       { Key := str "b", Value := str "w" }] })
    .url (str "a") (str "b") (str "w") isRange_id (by decide) (by decide) (by decide)
    (by decide) (by decide) rfl).1
    ⟨builtinVariables sampleBuiltins, [], [], placeholder (str "b"), str "w", rfl⟩

/-- C4 (counterexample): a has the value `{{b}}` and b the value w; with the
map visited in the order of insertion the URL `{{a}}` resolves to w, not to
the literal text `{{b}}`. -/
theorem applyVariables_single_pass_counterexample :
    IsRange (fun m => m) ∧
    (str "a", placeholder (str "b")) ∈
      mergedVariables sampleBuiltins (fun m => m)
        (some { Values := [{ Key := str "a", Value := placeholder (str "b") },
                           { Key := str "b", Value := str "w" }] }) ∧
    (str "b", str "w") ∈
      mergedVariables sampleBuiltins (fun m => m)
        (some { Values := [{ Key := str "a", Value := placeholder (str "b") },
                           { Key := str "b", Value := str "w" }] }) ∧
    Field.get .url
        (applyVariables sampleBuiltins (fun m => m) (fun m => m)
          (sampleTemplate (placeholder (str "a")))
          (some { Values := [{ Key := str "a", Value := placeholder (str "b") },
                             { Key := str "b", Value := str "w" }] })).1
      = some (str "w") ∧
    str "w" ≠ placeholder (str "b") :=
  ⟨isRange_id, by decide, by decide, by decide, by decide⟩

theorem replaceAll_cases (old v t : Str) (h : old ≠ []) :
    t = [] ∨ (∃ rest, t = old ++ rest ∧ replaceAll t old v = v ++ replaceAll rest old v)
      ∨ (∃ c cs, t = c :: cs ∧ ¬ old <+: t ∧ replaceAll t old v = c :: replaceAll cs old v) := by
  cases t with
  | nil => exact Or.inl rfl
  | cons c cs =>
    by_cases hp : old <+: c :: cs
    · obtain ⟨rest, hrest⟩ := hp
      refine Or.inr (Or.inl ⟨rest, hrest.symm, ?_⟩)
      rw [← hrest, replaceAll_match old v rest h]
    · exact Or.inr (Or.inr ⟨c, cs, rfl, hp, replaceAll_step old v c cs h hp⟩)

/-- A brace-free text that starts a name followed by two closing braces starts
the name. -/
theorem prefix_of_prefix_close2 (v w : Str) (hv : braceFree v = true)
    (h : v <+: w ++ [rbrace, rbrace]) : v <+: w := by
  rcases List.prefix_or_prefix_of_prefix h (List.prefix_append w [rbrace, rbrace]) with h1 | h1
  · exact h1
  · obtain ⟨u, hu⟩ := h1
    rw [← hu, List.prefix_append_right_inj] at h
    cases u with
    | nil => rw [← hu, List.append_nil]
    | cons x u1 =>
      exfalso
      rw [List.cons_prefix_cons] at h
      have hx : x ∈ v := by rw [← hu]; simp
      exact not_rbrace_of_braceFree hv x hx h.1

/-- The closing part of a placeholder seen at the head of the output of
`replaceAll` was at the head of the input. -/
theorem close2_prefix_of_replaceAll (old v : Str) (hold : old ≠ []) (hv : braceFree v = true) :
    ∀ (w : Str), (∀ w2, w2 <:+ w → ¬ v <+: w2) →
      ∀ t, (w ++ [rbrace, rbrace]) <+: replaceAll t old v → (w ++ [rbrace, rbrace]) <+: t := by
  intro w
  induction w with
  | nil =>
    intro hw t h
    have hvne : v ≠ [] := fun e => hw [] (List.suffix_refl _) (e ▸ List.prefix_refl _)
    obtain ⟨x, v1, rfl⟩ := List.exists_cons_of_ne_nil hvne
    have hx := (braceFree_cons.mp hv).1.2
    rcases replaceAll_cases old (x :: v1) t hold with rfl | ⟨rest, rfl, e⟩ | ⟨c, cs, rfl, _, e⟩
    · rw [replaceAll_nil _ _ hold] at h; simp at h
    · rw [e] at h
      simp only [List.nil_append, List.cons_append, List.cons_prefix_cons] at h
      exact absurd h.1.symm hx
    · rw [e] at h
      simp only [List.nil_append, List.cons_prefix_cons] at h
      obtain ⟨hc, h⟩ := h
      rcases replaceAll_cases old (x :: v1) cs hold with rfl | ⟨rest, rfl, e2⟩ | ⟨c2, cs2, rfl, _, e2⟩
      · rw [replaceAll_nil _ _ hold] at h; simp at h
      · rw [e2] at h
        simp only [List.cons_append, List.cons_prefix_cons] at h
        exact absurd h.1.symm hx
      · rw [e2] at h
        simp only [List.cons_prefix_cons] at h
        simp [← hc, ← h.1]
  | cons y w1 ih =>
    intro hw t h
    rcases replaceAll_cases old v t hold with rfl | ⟨rest, rfl, e⟩ | ⟨c, cs, rfl, _, e⟩
    · rw [replaceAll_nil _ _ hold] at h; simp at h
    · exfalso
      rw [e] at h
      rcases List.prefix_or_prefix_of_prefix h (List.prefix_append v _) with h1 | h1
      · have hm : rbrace ∈ v := h1.mem (by simp)
        exact not_rbrace_of_braceFree hv _ hm rfl
      · exact hw (y :: w1) (List.suffix_refl _) (prefix_of_prefix_close2 v (y :: w1) hv h1)
    · rw [e] at h
      simp only [List.cons_append, List.cons_prefix_cons] at h
      have h3 := ih (fun w2 h2 => hw w2 (h2.trans (List.suffix_cons y w1))) cs h.2
      simp only [List.cons_append, List.cons_prefix_cons]
      exact ⟨h.1, h3⟩

/-- A placeholder seen at the head of the output of `replaceAll` was at the
head of the input, at a place where the pattern does not start. -/
theorem placeholder_prefix_of_replaceAll (old v k : Str) (hold : old ≠ [])
    (hv : braceFree v = true) (hk : ¬ v <:+: k) (s : Str)
    (h : placeholder k <+: replaceAll s old v) :
    placeholder k <+: s ∧ ¬ old <+: s := by
  have hvne : v ≠ [] := fun e => hk (e ▸ List.nil_infix)
  obtain ⟨x, v1, rfl⟩ := List.exists_cons_of_ne_nil hvne
  have hx := (braceFree_cons.mp hv).1.1
  have hw : ∀ w2, w2 <:+ k → ¬ (x :: v1) <+: w2 :=
    fun w2 h2 h3 => hk (List.infix_iff_prefix_suffix.mpr ⟨w2, h3, h2⟩)
  unfold placeholder at h ⊢
  rcases replaceAll_cases old (x :: v1) s hold with rfl | ⟨rest, rfl, e⟩ | ⟨c, cs, rfl, hn, e⟩
  · rw [replaceAll_nil _ _ hold] at h; simp at h
  · rw [e] at h
    simp only [List.cons_append, List.cons_prefix_cons] at h
    exact absurd h.1.symm hx
  · rw [e] at h
    simp only [List.cons_prefix_cons] at h
    obtain ⟨hc, h⟩ := h
    rcases replaceAll_cases old (x :: v1) cs hold with rfl | ⟨rest, rfl, e2⟩ | ⟨c2, cs2, rfl, _, e2⟩
    · rw [replaceAll_nil _ _ hold] at h; simp at h
    · rw [e2] at h
      simp only [List.cons_append, List.cons_prefix_cons] at h
      exact absurd h.1.symm hx
    · rw [e2] at h
      simp only [List.cons_prefix_cons] at h
      have h3 := close2_prefix_of_replaceAll old (x :: v1) hold hv k hw cs2 h.2
      refine ⟨?_, hn⟩
      simp only [List.cons_prefix_cons]
      exact ⟨hc, h.1, h3⟩

theorem infix_append_of_head_not_mem (o : Char) (os v y : Str) (hv : ∀ c ∈ v, c ≠ o)
    (h : (o :: os) <:+: v ++ y) : (o :: os) <:+: y := by
  induction v with
  | nil => simpa using h
  | cons c v1 ih =>
    rw [List.cons_append, List.infix_cons_iff] at h
    rcases h with h | h
    · rw [List.cons_prefix_cons] at h
      exact absurd h.1.symm (hv c (List.mem_cons_self _ _))
    · exact ih (fun d hd => hv d (List.mem_cons_of_mem _ hd)) h

/-- Every occurrence of a placeholder in the output of `replaceAll` comes from
an occurrence in the input at a place where the pattern does not start. -/
theorem placeholder_infix_of_replaceAll (old v k : Str) (hold : old ≠ [])
    (hv : braceFree v = true) (hk : ¬ v <:+: k) :
    ∀ s, placeholder k <:+: replaceAll s old v →
      ∃ u, u <:+ s ∧ placeholder k <+: u ∧ ¬ old <+: u := by
  apply replaceAll_induction old hold
  · intro h
    rw [replaceAll_nil _ _ hold] at h
    exact absurd (List.infix_nil.mp h) (placeholder_ne_nil k)
  · intro rest ih h
    rw [replaceAll_match _ _ _ hold] at h
    obtain ⟨u, hu, h1, h2⟩ :=
      ih (infix_append_of_head_not_mem lbrace _ v _ (not_lbrace_of_braceFree hv) h)
    exact ⟨u, hu.trans (List.suffix_append old rest), h1, h2⟩
  · intro c cs hn ih h
    rw [replaceAll_step _ _ _ _ hold hn, List.infix_cons_iff] at h
    rcases h with h | h
    · have h1 : placeholder k <+: replaceAll (c :: cs) old v := by
        rw [replaceAll_step _ _ _ _ hold hn]; exact h
      obtain ⟨h2, h3⟩ := placeholder_prefix_of_replaceAll old v k hold hv hk (c :: cs) h1
      exact ⟨c :: cs, List.suffix_refl _, h2, h3⟩
    · obtain ⟨u, hu, h1, h2⟩ := ih h
      exact ⟨u, hu.trans (List.suffix_cons c cs), h1, h2⟩

/-- After `substitute k v` the placeholder of `k` is gone, for a brace-free
value that does not occur inside the name. -/
theorem substitute_removes (k v x : Str) (hv : braceFree v = true) (hk : ¬ v <:+: k) :
    ¬ placeholder k <:+: substitute k v x := by
  rw [substitute_eq_replaceAll]
  intro h
  obtain ⟨u, _, h1, h2⟩ :=
    placeholder_infix_of_replaceAll (placeholder k) v k (placeholder_ne_nil k) hv hk x h
  exact h2 h1

/-- Substituting one variable does not bring in the placeholder of a name in
which its value does not occur. -/
theorem substitute_keeps_absent (k v n x : Str) (hv : braceFree v = true) (hn : ¬ v <:+: n)
    (hx : ¬ placeholder n <:+: x) : ¬ placeholder n <:+: substitute k v x := by
  rw [substitute_eq_replaceAll]
  intro h
  obtain ⟨u, hu, h1, _⟩ :=
    placeholder_infix_of_replaceAll (placeholder k) v n (placeholder_ne_nil k) hv hn x h
  exact hx (List.infix_iff_prefix_suffix.mpr ⟨u, h1, hu⟩)

theorem mem_infixes (v n : Str) : v <:+: n ↔ v ∈ n.tails.flatMap List.inits := by
  rw [List.mem_flatMap]
  constructor
  · intro h
    obtain ⟨t, h1, h2⟩ := List.infix_iff_prefix_suffix.mp h
    exact ⟨t, (List.mem_tails t n).mpr h2, (List.mem_inits v t).mpr h1⟩
  · rintro ⟨t, h1, h2⟩
    exact List.infix_iff_prefix_suffix.mpr
      ⟨t, (List.mem_inits v t).mp h2, (List.mem_tails t n).mp h1⟩

set_option maxRecDepth 100000 in
theorem decimal_infix_of_name :
    ∀ n ∈ builtinNames, ∀ v ∈ n.tails.flatMap List.inits, isDecimal v = true → v = str "4" := by
  decide



theorem braceFree_of_all (p : Char → Bool) (s : Str) (hp : p lbrace = false)
    (hq : p rbrace = false) (h : s.all p = true) : braceFree s = true := by
  rw [braceFree_iff]
  intro c hc
  have hpc : p c = true := List.all_eq_true.mp h c hc
  constructor
  · intro e; rw [e, hp] at hpc; cases hpc
  · intro e; rw [e, hq] at hpc; cases hpc

theorem name_length_le : ∀ n ∈ builtinNames, n.length ≤ 13 := by decide

theorem uuid_plain (u : Str) (h : isUUIDString u = true) :
    braceFree u = true ∧ ∀ n ∈ builtinNames, ¬ u <:+: n := by
  simp only [isUUIDString, Bool.and_eq_true, beq_iff_eq] at h
  refine ⟨braceFree_of_all _ u (by decide) (by decide) h.2, ?_⟩
  intro n hn hin
  have h1 := hin.length_le
  have h2 := name_length_le n hn
  omega

theorem rfc3339_plain (t : Str) (h : isRFC3339UTC t = true) :
    braceFree t = true ∧ ∀ n ∈ builtinNames, ¬ t <:+: n := by
  simp only [isRFC3339UTC, Bool.and_eq_true, beq_iff_eq] at h
  refine ⟨braceFree_of_all _ t (by decide) (by decide) h.2, ?_⟩
  intro n hn hin
  have h1 := hin.length_le
  have h2 := name_length_le n hn
  omega

theorem decimal_braceFree (d : Str) (h : isDecimal d = true) : braceFree d = true := by
  cases d with
  | nil => rfl
  | cons c cs =>
    by_cases hc : c.toNat = 45
    · rw [isDecimal, if_pos hc, Bool.and_eq_true] at h
      rw [braceFree_cons]
      refine ⟨⟨?_, ?_⟩, braceFree_of_all _ cs (by decide) (by decide) h.2⟩
      · intro e; rw [e] at hc; revert hc; decide
      · intro e; rw [e] at hc; revert hc; decide
    · rw [isDecimal, if_neg hc] at h
      exact braceFree_of_all _ _ (by decide) (by decide) h

theorem decimal_plain (d : Str) (h : isDecimal d = true) (h4 : d ≠ str "4") :
    braceFree d = true ∧ ∀ n ∈ builtinNames, ¬ d <:+: n :=
  ⟨decimal_braceFree d h,
   fun n hn hin => h4 (decimal_infix_of_name n hn d ((mem_infixes d n).mp hin) h)⟩

/-- After the variables of `l` have been substituted one after the other, no
placeholder of a name of `names` visited in `l` is left, when the values are
brace-free and do not occur inside a name of `names`. -/
theorem substituteAll_clears (names : List Str) (l : VarMap)
    (hl : ∀ kv ∈ l, braceFree kv.2 = true ∧ ∀ n ∈ names, ¬ kv.2 <:+: n) :
    ∀ x, ∀ n ∈ names, n ∈ l.map Prod.fst → ¬ placeholder n <:+: substituteAll l x := by
  induction l using List.reverseRecOn with
  | nil => intro x n _ h; simp at h
  | append_singleton l e ih =>
    intro x n hn hmem
    have he := hl e (by simp)
    have hl1 : ∀ kv ∈ l, braceFree kv.2 = true ∧ ∀ n ∈ names, ¬ kv.2 <:+: n :=
      fun kv hkv => hl kv (by simp [hkv])
    rw [substituteAll_append, substituteAll_cons, substituteAll_nil]
    by_cases hne : n = e.1
    · rw [hne]
      exact substitute_removes e.1 e.2 _ he.1 (hne ▸ he.2 n hn)
    · have hmem1 : n ∈ l.map Prod.fst := by
        rw [List.map_append, List.mem_append] at hmem
        rcases hmem with hmem | hmem
        · exact hmem
        · simp at hmem; exact absurd hmem hne
      exact substitute_keeps_absent e.1 e.2 n _ he.1 (he.2 n hn) (ih hl1 x n hn hmem1)

/-- C5 (amended): for every environment, every visiting order and all built-in
values of the shapes produced by the code (a UUID string, an RFC 3339 UTC time
string, a decimal Unix timestamp string) with a timestamp string other than
`4`, after applyVariables no environment value contains the literal token
`{{randomUUID4}}`, `{{timeNow}}` or `{{unixTimestamp}}`. -/
theorem applyVariables_env_values_hold_no_builtin (b : Builtins) (order1 order2 : MapOrder)
    (req : HTTPRequestSpec) (e : EnvSpec)
    (h1 : IsRange order1)
    (hu : isUUIDString b.randomUUID4 = true) (ht : isRFC3339UTC b.timeNow = true)
    (hd : isDecimal b.unixTimestamp = true) (h4 : b.unixTimestamp ≠ str "4") :
    ∃ e2, (applyVariables b order1 order2 req (some e)).2 = some e2 ∧
      ∀ kv ∈ e2.Values, ∀ n ∈ builtinNames, contains kv.Value (placeholder n) = false := by
  refine ⟨_, rfl, ?_⟩
  intro kv hkv n hn
  rw [contains_eq_false_iff]
  simp only [resolveEnvValues_eq, List.mem_map] at hkv
  obtain ⟨kv0, _, rfl⟩ := hkv
  apply substituteAll_clears builtinNames _ _ _ n hn
  · have hk : (builtinVariables b).map Prod.fst = builtinNames := rfl
    rw [((h1 (builtinVariables b)).map Prod.fst).mem_iff, hk]
    exact hn
  · intro kv1 hkv1
    have hm := (h1 (builtinVariables b)).mem_iff.mp hkv1
    simp only [builtinVariables, List.mem_cons, List.mem_singleton, List.not_mem_nil,
      or_false] at hm
    rcases hm with rfl | rfl | rfl
    · exact uuid_plain _ hu
    · exact rfc3339_plain _ ht
    · exact decimal_plain _ hd h4

/-- C5 (witness): an environment value that names two built-ins holds no
built-in token after resolution. -/
theorem applyVariables_env_values_hold_no_builtin_witness :
    ∃ e2, (applyVariables sampleBuiltins List.reverse (fun m => m) (sampleTemplate [])
        (some { Values := [{ Key := str "stamp",
                             Value := placeholder (str "timeNow") ++ str "/"
                               ++ placeholder (str "randomUUID4") }] })).2 = some e2 ∧
      ∀ kv ∈ e2.Values, ∀ n ∈ builtinNames, contains kv.Value (placeholder n) = false :=
  applyVariables_env_values_hold_no_builtin sampleBuiltins List.reverse (fun m => m)
    (sampleTemplate []) _ isRange_reverse (by decide) (by decide) (by decide) (by decide)

/-- C5 (counterexample): four seconds after the epoch the timestamp string is
`4`.  With the built-ins visited in the order of the map literal, the
environment value `{{randomUUID{{unixTimestamp}}}}` becomes `{{randomUUID4}}`,
which contains the token of a built-in. -/
theorem applyVariables_env_value_counterexample :
    IsRange (fun m => m) ∧
    isUUIDString (str "123e4567-e89b-42d3-a456-426614174000") = true ∧
    isRFC3339UTC (str "1970-01-01T00:00:04Z") = true ∧
    isDecimal (str "4") = true ∧
    (applyVariables
        { randomUUID4 := str "123e4567-e89b-42d3-a456-426614174000"
          timeNow := str "1970-01-01T00:00:04Z"
          unixTimestamp := str "4" }
        (fun m => m) (fun m => m) (sampleTemplate [])
        (some { Values := [{ Key := str "x",
                             Value := str "\x7b\x7brandomUUID"
                               ++ placeholder (str "unixTimestamp") ++ str "\x7d\x7d" }] })).2
      = some { Values := [{ Key := str "x", Value := placeholder (str "randomUUID4") }] } ∧
    contains (placeholder (str "randomUUID4")) (placeholder (str "randomUUID4")) = true :=
  ⟨isRange_id, by decide, by decide, by decide, by decide, by decide⟩

/-- C8 (the code at the failing input): the template has the explicit header
`Authorization: Token abc` and the bearer token t; the assembled request
carries both values under Authorization, so an authentication header was
added although one was present. -/
theorem assembleRequest_adds_auth_beside_explicit_header :
    ∃ r, assembleRequest sampleLib
        { sampleTemplate (str "https://api.example.com/items") with
          Request := { (sampleTemplate []).Request with
            Headers := [{ Key := str "Authorization", Value := str "Token abc" }]
            Auth := { Kind := str "token", BasicAuth := none,
                      TokenAuth := some { Token := str "t" }, APIKeyAuth := none } } } = .ok r ∧
      http.Header.Values sampleLib r.Header (str "Authorization")
        = [str "Token abc", str "Bearer t"] :=
  ⟨_, rfl, by decide⟩

/-- C9 (counterexample): bearer token t together with basic auth u / p: the
only value under Authorization is the basic-auth one, the bearer value is
gone. -/
theorem assembleRequest_bearer_counterexample :
    ∃ r, assembleRequest sampleLib
        { sampleTemplate (str "https://api.example.com/items") with
          Request := { (sampleTemplate []).Request with
            Auth := { Kind := str "token"
                      BasicAuth := some { Username := str "u", Password := str "p" }
                      TokenAuth := some { Token := str "t" }
                      APIKeyAuth := none } } } = .ok r ∧
      http.Header.Values sampleLib r.Header (str "Authorization") = [str "Basic dTpw"] ∧
      str "Bearer t" ∉ http.Header.Values sampleLib r.Header (str "Authorization") :=
  ⟨_, rfl, by decide, by decide⟩

/-- The header of an assembled request. -/
theorem assembleRequest_header (lib : Lib) (req : HTTPRequestSpec) (r : http.Request)
    (h : assembleRequest lib req = .ok r) :
    r.Header = applyAuthentication lib req.Request.Auth
      (applyHeaders lib req.Request.Headers url.Values.empty) := by
  unfold assembleRequest at h
  split at h
  · cases h
  · injection h with h
    rw [← h]

/-- A basic-auth record with an empty username or password has no effect. -/
theorem applyAuthentication_basic_inert (lib : Lib) (a : Auth) (h0 : url.Values) (c : BasicAuth)
    (hc : a.BasicAuth = some c) (hcc : c.Username = [] ∨ c.Password = []) :
    applyAuthentication lib { a with BasicAuth := none } h0 = applyAuthentication lib a h0 := by
  obtain ⟨kind, basic, token, apikey⟩ := a
  simp only at hc
  subst hc
  have hb : ¬ (c.Username ≠ [] ∧ c.Password ≠ []) := by
    intro h1
    rcases hcc with h2 | h2
    · exact h1.1 h2
    · exact h1.2 h2
  rcases token with _ | t <;> rcases apikey with _ | d <;>
    by_cases hk : kind = [] <;>
    simp [applyAuthentication, Auth.nonZero, hb, hk]

/-- An API-key record with an empty key or value has no effect. -/
theorem applyAuthentication_apikey_inert (lib : Lib) (a : Auth) (h0 : url.Values)
    (c : APIKeyAuth) (hc : a.APIKeyAuth = some c) (hcc : c.Key = [] ∨ c.Value = []) :
    applyAuthentication lib { a with APIKeyAuth := none } h0 = applyAuthentication lib a h0 := by
  obtain ⟨kind, basic, token, apikey⟩ := a
  simp only at hc
  subst hc
  have hb : ¬ (c.Key ≠ [] ∧ c.Value ≠ []) := by
    intro h1
    rcases hcc with h2 | h2
    · exact h1.1 h2
    · exact h1.2 h2
  rcases token with _ | t <;> rcases basic with _ | d <;>
    by_cases hk : kind = [] <;>
    simp [applyAuthentication, Auth.nonZero, hb, hk]

/-- A non-empty bearer token is found under Authorization when basic auth does
not take effect. -/
theorem applyAuthentication_bearer (lib : Lib) (a : Auth) (h0 : url.Values) (t : TokenAuth)
    (ht : a.TokenAuth = some t) (hne : t.Token ≠ [])
    (hbasic : ∀ c, a.BasicAuth = some c → c.Username = [] ∨ c.Password = []) :
    ("Bearer ".toList ++ t.Token) ∈
      http.Header.Values lib (applyAuthentication lib a h0) "Authorization".toList := by
  obtain ⟨kind, basic, token, apikey⟩ := a
  simp only at ht hbasic
  subst ht
  have hb : ∀ c, basic = some c → ¬ (c.Username ≠ [] ∧ c.Password ≠ []) := by
    intro c hc hcc
    rcases hbasic c hc with h1 | h1
    · exact hcc.1 h1
    · exact hcc.2 h1
  rcases basic with _ | c <;> rcases apikey with _ | d
  · simp [applyAuthentication, Auth.nonZero, hne, http.Header.Values, http.Header.Add,
      url.Values.Add]
  · by_cases hd : d.Key ≠ [] ∧ d.Value ≠ [] <;>
      simp [applyAuthentication, Auth.nonZero, hne, hd, http.Header.Values, http.Header.Add,
        url.Values.Add]
    split <;> simp
  · simp [applyAuthentication, Auth.nonZero, hne, hb c rfl, http.Header.Values,
      http.Header.Add, url.Values.Add]
  · by_cases hd : d.Key ≠ [] ∧ d.Value ≠ [] <;>
      simp [applyAuthentication, Auth.nonZero, hne, hd, hb c rfl, http.Header.Values,
        http.Header.Add, url.Values.Add]
    split <;> simp

/-- C9 (amended): a non-empty bearer token puts `Bearer <token>` under
Authorization whenever basic auth does not take effect (no basic-auth record,
or an empty username or password), whatever the API-key fields hold; a
basic-auth record with an empty username or password has no effect (the
template without the record assembles to the same request), and neither has
an API-key record with an empty key or value. -/
theorem assembleRequest_auth_variants (lib : Lib) (req : HTTPRequestSpec) (r : http.Request)
    (h : assembleRequest lib req = .ok r) :
    (∀ t, req.Request.Auth.TokenAuth = some t → t.Token ≠ [] →
      (∀ c, req.Request.Auth.BasicAuth = some c → c.Username = [] ∨ c.Password = []) →
      ("Bearer ".toList ++ t.Token) ∈ http.Header.Values lib r.Header "Authorization".toList) ∧
    (∀ c, req.Request.Auth.BasicAuth = some c → c.Username = [] ∨ c.Password = [] →
      assembleRequest lib { req with Request := { req.Request with
        Auth := { req.Request.Auth with BasicAuth := none } } } = .ok r) ∧
    (∀ c, req.Request.Auth.APIKeyAuth = some c → c.Key = [] ∨ c.Value = [] →
      assembleRequest lib { req with Request := { req.Request with
        Auth := { req.Request.Auth with APIKeyAuth := none } } } = .ok r) := by
  refine ⟨?_, ?_, ?_⟩
  · intro t ht hne hbasic
    rw [assembleRequest_header lib req r h]
    exact applyAuthentication_bearer lib _ _ t ht hne hbasic
  · intro c hc hcc
    rw [← h]
    simp only [assembleRequest, applyAuthentication_basic_inert lib req.Request.Auth _ c hc hcc]
  · intro c hc hcc
    rw [← h]
    simp only [assembleRequest, applyAuthentication_apikey_inert lib req.Request.Auth _ c hc hcc]

/-- C9 (witness): bearer token t, a basic-auth record with an empty password
and an API key: the bearer value is under Authorization. -/
theorem assembleRequest_auth_variants_witness :
    ∃ r, assembleRequest sampleLib
        { sampleTemplate (str "https://api.example.com/items") with
          Request := { (sampleTemplate []).Request with
            Auth := { Kind := str "token"
                      BasicAuth := some { Username := str "u", Password := [] }
                      TokenAuth := some { Token := str "t" }
                      APIKeyAuth := some { Key := str "X-Api-Key", Value := str "k" } } } }
        = .ok r ∧
      str "Bearer t" ∈ http.Header.Values sampleLib r.Header (str "Authorization") :=
  ⟨_, rfl,
    (assembleRequest_auth_variants sampleLib _ _ rfl).1 { Token := str "t" } rfl (by decide)
      (by intro c hc; injection hc with hc; subst hc; exact Or.inr rfl)⟩

/-- C10 (the code at the failing input): the template has the explicit header
`Authorization: Token abc` and basic auth u / p; the assembled request has the
single value of basic auth under Authorization, the explicit value was
overwritten by the authentication step. -/
theorem assembleRequest_basic_auth_overwrites_header :
    ∃ r, assembleRequest sampleLib
        { sampleTemplate (str "https://api.example.com/items") with
          Request := { (sampleTemplate []).Request with
            Headers := [{ Key := str "Authorization", Value := str "Token abc" }]
            Auth := { Kind := str "basic"
                      BasicAuth := some { Username := str "u", Password := str "p" }
                      TokenAuth := none, APIKeyAuth := none } } } = .ok r ∧
      http.Header.Values sampleLib r.Header (str "Authorization") = [str "Basic dTpw"] ∧
      str "Token abc" ∉ http.Header.Values sampleLib r.Header (str "Authorization") :=
  ⟨_, rfl, by decide, by decide⟩

/-- A closing brace after a brace-free key determines the key. -/
theorem close1_prefix_inj (s : Str) :
    ∀ (n k : Str), braceFree n = true → braceFree k = true →
      (k ++ [rbrace]) <+: (n ++ rbrace :: s) → k = n := by
  intro n
  induction n with
  | nil =>
    intro k _ hk h
    cases k with
    | nil => rfl
    | cons x k1 =>
      exfalso
      simp only [List.nil_append, List.cons_append, List.cons_prefix_cons] at h
      exact (braceFree_cons.mp hk).1.2 h.1
  | cons c n1 ih =>
    intro k hn hk h
    rw [braceFree_cons] at hn
    cases k with
    | nil =>
      exfalso
      simp only [List.nil_append, List.cons_append, List.cons_prefix_cons] at h
      exact hn.1.2 h.1.symm
    | cons x k1 =>
      simp only [List.cons_append, List.cons_prefix_cons] at h
      rw [h.1, ih k1 hn.2 (braceFree_cons.mp hk).2 h.2]

theorem pathToken_prefix_iff (n k s : Str) (hn : braceFree n = true) (hk : braceFree k = true) :
    pathToken k <+: pathToken n ++ s ↔ k = n := by
  constructor
  · intro h
    simp only [pathToken, List.cons_append, List.cons_prefix_cons, true_and,
      List.append_assoc, List.singleton_append] at h
    exact close1_prefix_inj s n k hn hk h
  · rintro rfl
    exact List.prefix_append _ _

theorem not_lbrace_of_key_close (n : Str) (hn : braceFree n = true) :
    ∀ c ∈ n ++ [rbrace], c ≠ lbrace := by
  intro c hc
  rw [List.mem_append, List.mem_singleton] at hc
  rcases hc with hc | hc
  · exact not_lbrace_of_braceFree hn c hc
  · rw [hc]; exact fun e => lbrace_ne_rbrace e.symm

/-- The token of another key is copied by `replaceAll`. -/
theorem replaceAll_pathToken_other (n k v rest : Str) (hn : braceFree n = true)
    (hk : braceFree k = true) (hne : k ≠ n) :
    replaceAll (pathToken n ++ rest) (pathToken k) v
      = pathToken n ++ replaceAll rest (pathToken k) v := by
  have hstep : ¬ pathToken k <+: lbrace :: (n ++ [rbrace] ++ rest) := by
    intro h
    exact hne ((pathToken_prefix_iff n k rest hn hk).mp (by simpa [pathToken] using h))
  have e : pathToken n ++ rest = lbrace :: ((n ++ [rbrace]) ++ rest) := by simp [pathToken]
  rw [e, replaceAll_step _ _ _ _ (pathToken_ne_nil k) hstep]
  have e2 : pathToken k = lbrace :: (k ++ [rbrace]) := rfl
  conv_lhs => rw [e2, replaceAll_copy lbrace _ v (n ++ [rbrace]) rest (not_lbrace_of_key_close n hn)]
  simp [pathToken]

/-- One path parameter acts piece by piece on a path made of plain pieces. -/
theorem replaceAll_renderPath (k v : Str) (hk : braceFree k = true) (segs : List Segment)
    (hsegs : ∀ s ∈ segs, s.plain = true) :
    replaceAll (renderPath segs) (pathToken k) v
      = renderPath (segs.map (fun s => if s = .token k then .text v else s)) := by
  induction segs with
  | nil => exact replaceAll_nil _ _ (pathToken_ne_nil k)
  | cons s segs ih =>
    have ih1 := ih (fun s1 h1 => hsegs s1 (List.mem_cons_of_mem _ h1))
    have hs := hsegs s (List.mem_cons_self _ _)
    cases s with
    | text t =>
      have e2 : pathToken k = lbrace :: (k ++ [rbrace]) := rfl
      simp only [renderPath, List.flatMap_cons, Segment.render, List.map_cons, reduceCtorEq,
        if_false] at ih1 ⊢
      conv_lhs => rw [e2, replaceAll_copy lbrace _ v t _ (not_lbrace_of_braceFree hs), ← e2]
      rw [ih1]
    | token n =>
      by_cases hkn : n = k
      · subst hkn
        simp only [renderPath, List.flatMap_cons, Segment.render, List.map_cons, if_true]
          at ih1 ⊢
        rw [replaceAll_match _ _ _ (pathToken_ne_nil n), ih1]
      · have hne : ¬ (Segment.token n = Segment.token k) := by
          intro e; injection e with e; exact hkn e
        simp only [renderPath, List.flatMap_cons, Segment.render, List.map_cons, hne, if_false]
          at ih1 ⊢
        rw [replaceAll_pathToken_other n k v _ hs hk (fun e => hkn e.symm), ih1]

theorem resolve_cons (p : KeyValue) (ps : List KeyValue) (s : Segment) :
    Segment.resolve (p :: ps) s
      = Segment.resolve ps (if s = .token p.Key then .text p.Value else s) := by
  cases s with
  | text t => simp [Segment.resolve]
  | token n =>
    by_cases h : p.Key = n
    · simp [Segment.resolve, List.find?, h]
    · have h2 : ¬ n = p.Key := fun e => h e.symm
      simp [Segment.resolve, List.find?, h, h2]

/-- The path parameters applied one after the other resolve every token of a
path made of plain pieces. -/
theorem applyPathParams_renderPath (params : List KeyValue)
    (hparams : ∀ kv ∈ params, braceFree kv.Key = true ∧ braceFree kv.Value = true) :
    ∀ (segs : List Segment), (∀ s ∈ segs, s.plain = true) →
      applyPathParams params (renderPath segs)
        = renderPath (segs.map (Segment.resolve params)) := by
  induction params with
  | nil =>
    intro segs _
    have e : Segment.resolve [] = id := by
      funext s; cases s <;> simp [Segment.resolve]
    simp [applyPathParams, e]
  | cons p ps ih =>
    intro segs hsegs
    have hp := hparams p (List.mem_cons_self _ _)
    have h1 : applyPathParams (p :: ps) (renderPath segs)
        = applyPathParams ps (replaceAll (renderPath segs) (pathToken p.Key) p.Value) := rfl
    rw [h1, replaceAll_renderPath p.Key p.Value hp.1 segs hsegs,
      ih (fun kv hkv => hparams kv (List.mem_cons_of_mem _ hkv)), List.map_map]
    · congr 1
      apply List.map_congr_left
      intro s _
      simp [resolve_cons]
    · intro s hs
      rw [List.mem_map] at hs
      obtain ⟨s0, hs0, rfl⟩ := hs
      split
      · exact hp.2
      · exact hsegs s0 hs0

theorem find?_congr_mem {α : Type} (p q : α → Bool) (l : List α) (h : ∀ x ∈ l, p x = q x) :
    l.find? p = l.find? q := by
  induction l with
  | nil => rfl
  | cons a l ih =>
    have ha := h a (List.mem_cons_self _ _)
    have ih1 := ih (fun x hx => h x (List.mem_cons_of_mem _ hx))
    simp only [List.find?, ha, ih1]

theorem expandPathTokensFrom_skip (params : List KeyValue) (a rest : Str) :
    expandPathTokensFrom params a.length (a ++ rest) = expandPathTokensFrom params 0 rest := by
  induction a with
  | nil => rfl
  | cons c cs ih => simpa [expandPathTokensFrom] using ih

theorem expandPathTokens_nil (params : List KeyValue) : expandPathTokens params [] = [] := rfl

theorem expandPathTokens_copy (params : List KeyValue) (x y : Str) (hx : ∀ c ∈ x, c ≠ lbrace) :
    expandPathTokens params (x ++ y) = x ++ expandPathTokens params y := by
  induction x with
  | nil => rfl
  | cons c cs ih =>
    have hc : c ≠ lbrace := hx c (List.mem_cons_self _ _)
    have hnone : params.find? (fun kv => (pathToken kv.Key).isPrefixOf (c :: (cs ++ y))) = none := by
      rw [List.find?_eq_none]
      intro kv _
      rw [List.isPrefixOf_iff_prefix, pathToken, List.cons_prefix_cons]
      exact fun h => hc h.1.symm
    have ih1 := ih (fun d hd => hx d (List.mem_cons_of_mem _ hd))
    unfold expandPathTokens at ih1 ⊢
    rw [List.cons_append, expandPathTokensFrom, hnone]
    simp only [List.cons_append]
    rw [ih1]

/-- The spec reading, at a token with a brace-free key. -/
theorem expandPathTokens_token (params : List KeyValue)
    (hparams : ∀ kv ∈ params, braceFree kv.Key = true) (n rest : Str)
    (hn : braceFree n = true) :
    expandPathTokens params (pathToken n ++ rest)
      = (Segment.resolve params (.token n)).render ++ expandPathTokens params rest := by
  have hfind : params.find? (fun kv => (pathToken kv.Key).isPrefixOf (pathToken n ++ rest))
      = params.find? (fun kv => decide (kv.Key = n)) := by
    apply find?_congr_mem
    intro kv hkv
    rw [Bool.eq_iff_iff, List.isPrefixOf_iff_prefix, decide_eq_true_iff]
    exact pathToken_prefix_iff n kv.Key rest hn (hparams kv hkv)
  have e : pathToken n ++ rest = lbrace :: ((n ++ [rbrace]) ++ rest) := by simp [pathToken]
  have hlen : (n ++ [rbrace]).length = n.length + 1 := by simp
  unfold expandPathTokens
  rw [e, expandPathTokensFrom, ← e, hfind]
  cases hf : params.find? (fun kv => decide (kv.Key = n)) with
  | none =>
    have h1 := expandPathTokens_copy params (n ++ [rbrace]) rest (not_lbrace_of_key_close n hn)
    unfold expandPathTokens at h1
    simp only [Segment.resolve, hf, Segment.render]
    rw [h1]
    simp [pathToken]
  | some kv =>
    have hk : kv.Key = n := by
      have := List.find?_some hf
      simpa using this
    simp only [Segment.resolve, hf, Segment.render]
    rw [hk, ← hlen, expandPathTokensFrom_skip]

/-- On a path made of plain pieces the spec reading resolves every token. -/
theorem expandPathTokens_renderPath (params : List KeyValue)
    (hparams : ∀ kv ∈ params, braceFree kv.Key = true) (segs : List Segment)
    (hsegs : ∀ s ∈ segs, s.plain = true) :
    expandPathTokens params (renderPath segs) = renderPath (segs.map (Segment.resolve params)) := by
  induction segs with
  | nil => rfl
  | cons s segs ih =>
    have ih1 := ih (fun s1 h1 => hsegs s1 (List.mem_cons_of_mem _ h1))
    have hs := hsegs s (List.mem_cons_self _ _)
    cases s with
    | text t =>
      simp only [renderPath, List.flatMap_cons, Segment.render, List.map_cons,
        Segment.resolve] at ih1 ⊢
      rw [expandPathTokens_copy params t _ (not_lbrace_of_braceFree hs), ih1]
    | token n =>
      have e1 : renderPath (Segment.token n :: segs) = pathToken n ++ renderPath segs := by
        simp [renderPath, Segment.render]
      have e2 : renderPath ((Segment.token n :: segs).map (Segment.resolve params))
          = (Segment.resolve params (.token n)).render
            ++ renderPath (segs.map (Segment.resolve params)) := by
        simp [renderPath]
      rw [e1, e2, expandPathTokens_token params hparams n _ hs, ih1]

/-- C7 (amended): when the URL path of the resolved template is made of
brace-free text and tokens `{key}` with brace-free keys, and the keys and
values of the path parameters hold no brace, the request is assembled and its
URL path is the path of the template with every token `{key}` replaced by the
value of the first path parameter named key and every token whose key is not
in the list left as it is; this is the path that the spec reading gives. -/
theorem assembleRequest_path (lib : Lib) (req : HTTPRequestSpec) (method : Str) (u : url.URL)
    (segs : List Segment)
    (hnew : lib.newRequest req.Method req.URL = .ok (method, u))
    (hpath : u.Path = renderPath segs)
    (hsegs : ∀ s ∈ segs, s.plain = true)
    (hparams : ∀ kv ∈ req.Request.PathParams,
      braceFree kv.Key = true ∧ braceFree kv.Value = true) :
    ∃ r, assembleRequest lib req = .ok r ∧
      r.URL.Path = renderPath (segs.map (Segment.resolve req.Request.PathParams)) ∧
      r.URL.Path = expandPathTokens req.Request.PathParams u.Path := by
  have h1 := applyPathParams_renderPath req.Request.PathParams hparams segs hsegs
  have h2 := expandPathTokens_renderPath req.Request.PathParams
    (fun kv hkv => (hparams kv hkv).1) segs hsegs
  refine ⟨_, by rw [assembleRequest, hnew], ?_, ?_⟩
  · simp only [hpath, h1]
  · simp only [hpath, h1, h2]

/-- C7 (witness): URL `https://api.example.com/items/{id}`, path parameter
id = 42, header `Authorization: {{token}}`, environment token = secret: the
request is assembled with the path `/items/42` and the header value secret
under Authorization. -/
theorem assembleRequest_path_witness :
    ∃ r, prepareRequest sampleLib sampleBuiltins (fun m => m) (fun m => m)
        { sampleTemplate (str "https://api.example.com/items/\x7bid\x7d") with
          Request := { (sampleTemplate []).Request with
            Headers := [{ Key := str "Authorization", Value := placeholder (str "token") }]
            PathParams := [{ Key := str "id", Value := str "42" }] } }
        (some { Values := [{ Key := str "token", Value := str "secret" }] }) = .ok r ∧
      r.URL.Host = str "api.example.com" ∧
      r.URL.Path = str "/items/42" ∧
      http.Header.Values sampleLib r.Header (str "Authorization") = [str "secret"] := by
  obtain ⟨r, h1, h2, _⟩ := assembleRequest_path sampleLib
    (applyVariables sampleBuiltins (fun m => m) (fun m => m)
      { sampleTemplate (str "https://api.example.com/items/\x7bid\x7d") with
        Request := { (sampleTemplate []).Request with
          Headers := [{ Key := str "Authorization", Value := placeholder (str "token") }]
          PathParams := [{ Key := str "id", Value := str "42" }] } }
      (some { Values := [{ Key := str "token", Value := str "secret" }] })).1
    (str "GET")
    { Scheme := str "https", Host := str "api.example.com",
      Path := str "/items/\x7bid\x7d", RawQuery := [] }
    [.text (str "/items/"), .token (str "id")]
    rfl (by decide) (by decide) (by decide)
  refine ⟨r, h1, ?_, ?_, ?_⟩
  · have e := h1
    rw [assembleRequest] at e
    injection e with e
    rw [← e]
    decide
  · rw [h2]; decide
  · rw [assembleRequest_header sampleLib _ r h1]; decide

/-- C7 (counterexample): URL path `/{a}` with the path parameters a = `{b}` and
b = X, in this order: the assembled path is `/X`, while replacing the token
`{a}` by the value of a gives `/{b}`. -/
theorem assembleRequest_path_counterexample :
    ∃ r, assembleRequest sampleLib
        { sampleTemplate (str "https://api.example.com/\x7ba\x7d") with
          Request := { (sampleTemplate []).Request with
            PathParams := [{ Key := str "a", Value := str "\x7bb\x7d" },
                           { Key := str "b", Value := str "X" }] } } = .ok r ∧
      r.URL.Path = str "/X" ∧
      expandPathTokens [{ Key := str "a", Value := str "\x7bb\x7d" },
                        { Key := str "b", Value := str "X" }] (str "/\x7ba\x7d")
        = str "/\x7bb\x7d" ∧
      str "/X" ≠ str "/\x7bb\x7d" :=
  ⟨_, rfl, by decide, by decide, by decide⟩

/-- When no occurrence of the pattern starts in the first text and ends in the
second, `replaceAll` acts on the two texts separately. -/
theorem replaceAll_append_separate (old v y : Str) (hold : old ≠ []) :
    ∀ (x : Str), (∀ a1 a2, x = a1 ++ a2 → a2 ≠ [] → old <+: a2 ++ y → old <+: a2) →
      replaceAll (x ++ y) old v = replaceAll x old v ++ replaceAll y old v := by
  apply replaceAll_induction old hold
  · intro _
    rw [replaceAll_nil _ _ hold]; rfl
  · intro rest ih h
    rw [List.append_assoc, replaceAll_match _ _ _ hold, replaceAll_match _ _ _ hold,
      ih (fun a1 a2 e => h (old ++ a1) a2 (by rw [e, List.append_assoc])), List.append_assoc]
  · intro c cs hn ih h
    have hn2 : ¬ old <+: c :: (cs ++ y) := by
      intro hp
      exact hn (h [] (c :: cs) rfl (by simp) hp)
    rw [List.cons_append, replaceAll_step _ _ _ _ hold hn2, replaceAll_step _ _ _ _ hold hn,
      ih (fun a1 a2 e => h (c :: a1) a2 (by rw [e]; rfl)), List.cons_append]

/-- A text that starts before a brace-opened text and runs into it ends with
what the brace-opened text starts with. -/
theorem straddle_split (old a2 y : Str) (h : old <+: a2 ++ y)
    (hn : ¬ old <+: a2) : ∃ t2, t2 ≠ [] ∧ old = a2 ++ t2 ∧ t2 <+: y := by
  rcases List.prefix_or_prefix_of_prefix h (List.prefix_append a2 y) with h1 | h1
  · exact absurd h1 hn
  · obtain ⟨t2, ht2⟩ := h1
    refine ⟨t2, ?_, ht2.symm, ?_⟩
    · rintro rfl
      rw [List.append_nil] at ht2
      exact hn (ht2 ▸ List.prefix_refl _)
    · rw [← ht2, List.prefix_append_right_inj] at h
      exact h

/-- One path parameter leaves a double-brace token of another name alone. -/
theorem replaceAll_pathToken_around_placeholder (k v name pre post : Str)
    (hk : braceFree k = true) (hname : braceFree name = true) (hne : k ≠ name) :
    replaceAll (pre ++ placeholder name ++ post) (pathToken k) v
      = replaceAll pre (pathToken k) v ++ placeholder name ++ replaceAll post (pathToken k) v := by
  have hold := pathToken_ne_nil k
  have hsep : ∀ a1 a2, pre = a1 ++ a2 → a2 ≠ [] →
      pathToken k <+: a2 ++ (placeholder name ++ post) → pathToken k <+: a2 := by
    intro a1 a2 _ ha h
    by_contra hn
    obtain ⟨t2, ht2, e, hp⟩ := straddle_split _ a2 _ h hn
    obtain ⟨x, t3, rfl⟩ := List.exists_cons_of_ne_nil ht2
    obtain ⟨y, a3, rfl⟩ := List.exists_cons_of_ne_nil ha
    simp only [placeholder, List.cons_append, List.cons_prefix_cons] at hp
    simp only [pathToken, List.cons_append, List.cons.injEq] at e
    have hm : lbrace ∈ k ++ [rbrace] := by rw [e.2, hp.1]; simp
    exact not_lbrace_of_key_close k hk lbrace hm rfl
  have hfirst : ¬ pathToken k <+: lbrace :: (pathToken name ++ rbrace :: post) := by
    intro h
    simp only [pathToken, List.cons_append, List.cons_prefix_cons, true_and] at h
    have hm : lbrace ∈ k ++ [rbrace] := by
      cases k with
      | nil => simp at h; exact absurd h lbrace_ne_rbrace.symm
      | cons x k1 =>
        simp only [List.cons_append, List.cons_prefix_cons] at h
        rw [h.1]; simp
    exact not_lbrace_of_key_close k hk lbrace hm rfl
  have e1 : placeholder name ++ post = lbrace :: (pathToken name ++ rbrace :: post) := by
    simp [placeholder, pathToken]
  have e2 : pathToken k = lbrace :: (k ++ [rbrace]) := rfl
  have hcopy : replaceAll (rbrace :: post) (pathToken k) v
      = rbrace :: replaceAll post (pathToken k) v := by
    have := replaceAll_copy lbrace (k ++ [rbrace]) v [rbrace] post
      (by intro c hc; rw [List.mem_singleton] at hc; rw [hc]; exact fun e => lbrace_ne_rbrace e.symm)
    simpa [e2] using this
  rw [List.append_assoc, replaceAll_append_separate _ v _ hold pre hsep, e1,
    replaceAll_step _ _ _ _ hold hfirst,
    replaceAll_pathToken_other name k v _ hname hk hne, hcopy]
  simp [placeholder, pathToken]

/-- C6, first half: path parameters with brace-free keys other than `name`
leave the token `{{name}}` where it is. -/
theorem applyPathParams_around_placeholder (name : Str) (hname : braceFree name = true) :
    ∀ (params : List KeyValue) (pre post : Str),
      (∀ kv ∈ params, braceFree kv.Key = true ∧ kv.Key ≠ name) →
      applyPathParams params (pre ++ placeholder name ++ post)
        = applyPathParams params pre ++ placeholder name ++ applyPathParams params post := by
  intro params
  induction params with
  | nil => intro pre post _; rfl
  | cons p ps ih =>
    intro pre post h
    have hp := h p (List.mem_cons_self _ _)
    have e : ∀ x, applyPathParams (p :: ps) x
        = applyPathParams ps (replaceAll x (pathToken p.Key) p.Value) := fun _ => rfl
    rw [e, e, e, replaceAll_pathToken_around_placeholder p.Key p.Value name pre post hp.1 hname hp.2,
      ih _ _ (fun kv hkv => h kv (List.mem_cons_of_mem _ hkv))]

/-- Two closing braces after a brace-free name, read where one closing brace
follows a brace-free key: the names agree and one more brace follows. -/
theorem close2_in_close1 (k name post : Str) (hk : braceFree k = true)
    (hname : braceFree name = true)
    (h : (k ++ [rbrace, rbrace]) <+: (name ++ rbrace :: post)) :
    k = name ∧ [rbrace] <+: post := by
  have h1 : (k ++ [rbrace]) <+: (name ++ rbrace :: post) := by
    have e : k ++ [rbrace, rbrace] = (k ++ [rbrace]) ++ [rbrace] := by simp
    rw [e] at h
    exact (List.prefix_append _ _).trans h
  have hkn := close1_prefix_inj post name k hname hk h1
  subst hkn
  refine ⟨rfl, ?_⟩
  rw [List.prefix_append_right_inj, List.cons_prefix_cons] at h
  exact h.2

/-- One variable leaves a single-brace token alone, unless the token is the
inside of the placeholder of that variable. -/
theorem replaceAll_placeholder_around_pathToken (k v name pre post : Str)
    (hk : braceFree k = true) (hname : braceFree name = true)
    (hnot : ¬ ([lbrace] <:+ pre ∧ [rbrace] <+: post)) :
    replaceAll (pre ++ pathToken name ++ post) (placeholder k) v
      = replaceAll pre (placeholder k) v ++ pathToken name ++ replaceAll post (placeholder k) v := by
  have hold := placeholder_ne_nil k
  have hsep : ∀ a1 a2, pre = a1 ++ a2 → a2 ≠ [] →
      placeholder k <+: a2 ++ (pathToken name ++ post) → placeholder k <+: a2 := by
    intro a1 a2 hpre ha h
    by_contra hn
    obtain ⟨t2, ht2, e, hp⟩ := straddle_split _ a2 _ h hn
    obtain ⟨x, t3, rfl⟩ := List.exists_cons_of_ne_nil ht2
    obtain ⟨y, a3, rfl⟩ := List.exists_cons_of_ne_nil ha
    simp only [pathToken, List.cons_append, List.cons_prefix_cons, List.append_assoc,
      List.singleton_append] at hp
    simp only [placeholder, List.cons_append, List.cons.injEq] at e
    obtain ⟨hx, hp⟩ := hp
    subst hx
    cases a3 with
    | nil =>
      simp only [List.nil_append, List.cons.injEq, true_and] at e
      rw [← e.2] at hp
      have h2 := close2_in_close1 k name post hk hname hp
      apply hnot
      refine ⟨?_, h2.2⟩
      rw [hpre, ← e.1]
      exact List.suffix_append a1 [lbrace]
    | cons z a4 =>
      simp only [List.cons_append, List.cons.injEq] at e
      have hm : lbrace ∈ k ++ [rbrace, rbrace] := by rw [e.2.2]; simp
      simp only [List.mem_append, List.mem_cons, List.mem_singleton, List.not_mem_nil,
        or_false] at hm
      rcases hm with hm | hm | hm
      · exact not_lbrace_of_braceFree hk _ hm rfl
      · exact lbrace_ne_rbrace hm
      · exact lbrace_ne_rbrace hm
  have hfirst : ¬ placeholder k <+: lbrace :: ((name ++ [rbrace]) ++ post) := by
    intro h
    simp only [placeholder, List.cons_prefix_cons, true_and] at h
    have hm : lbrace ∈ (name ++ [rbrace]) ++ post := h.mem (List.mem_cons_self _ _)
    cases name with
    | nil =>
      simp only [List.nil_append, List.singleton_append, List.cons_prefix_cons] at h
      exact lbrace_ne_rbrace h.1
    | cons c n1 =>
      simp only [List.cons_append, List.cons_prefix_cons] at h
      exact (braceFree_cons.mp hname).1.1 h.1.symm
  have e1 : pathToken name ++ post = lbrace :: ((name ++ [rbrace]) ++ post) := by
    simp [pathToken]
  have e2 : placeholder k = lbrace :: lbrace :: (k ++ [rbrace, rbrace]) := rfl
  have hcopy : replaceAll ((name ++ [rbrace]) ++ post) (placeholder k) v
      = (name ++ [rbrace]) ++ replaceAll post (placeholder k) v := by
    have := replaceAll_copy lbrace (lbrace :: (k ++ [rbrace, rbrace])) v (name ++ [rbrace]) post
      (not_lbrace_of_key_close name hname)
    rw [e2]; exact this
  rw [List.append_assoc, replaceAll_append_separate _ v _ hold pre hsep, e1,
    replaceAll_step _ _ _ _ hold hfirst, hcopy]
  simp [pathToken]

theorem singleton_suffix_append (c : Char) (a b : Str) (h : [c] <:+ a ++ b) :
    (b = [] ∧ [c] <:+ a) ∨ [c] <:+ b := by
  induction a with
  | nil => exact Or.inr (by simpa using h)
  | cons x a ih =>
    rw [List.cons_append, List.suffix_cons_iff] at h
    rcases h with h | h
    · injection h with h1 h2
      have hb : b = [] := (List.append_eq_nil.mp h2.symm).2
      have ha : a = [] := (List.append_eq_nil.mp h2.symm).1
      refine Or.inl ⟨hb, ?_⟩
      rw [ha, h1]
    · rcases ih h with ⟨hb, h3⟩ | h3
      · exact Or.inl ⟨hb, h3.trans (List.suffix_cons x a)⟩
      · exact Or.inr h3

theorem replaceAll_eq_nil (old v s : Str) (hold : old ≠ []) (hv : v ≠ [])
    (h : replaceAll s old v = []) : s = [] := by
  rcases replaceAll_cases old v s hold with rfl | ⟨rest, rfl, e⟩ | ⟨c, cs, rfl, _, e⟩
  · rfl
  · rw [e] at h
    exact absurd (List.append_eq_nil.mp h).1 hv
  · rw [e] at h
    cases h

/-- The output of `replaceAll` ends with an opening brace only if the input
does, for a non-empty brace-free value. -/
theorem replaceAll_ends_lbrace (old v : Str) (hold : old ≠ []) (hv : braceFree v = true)
    (hvne : v ≠ []) :
    ∀ s, [lbrace] <:+ replaceAll s old v → [lbrace] <:+ s := by
  apply replaceAll_induction old hold
  · intro h
    rw [replaceAll_nil _ _ hold] at h
    exact h
  · intro rest ih h
    rw [replaceAll_match _ _ _ hold] at h
    rcases singleton_suffix_append lbrace v _ h with ⟨_, h1⟩ | h1
    · exact absurd rfl (not_lbrace_of_braceFree hv lbrace (h1.mem (List.mem_singleton.mpr rfl)))
    · exact (ih h1).trans (List.suffix_append old rest)
  · intro c cs hn ih h
    rw [replaceAll_step _ _ _ _ hold hn] at h
    have h0 : [lbrace] <:+ [c] ++ replaceAll cs old v := h
    rcases singleton_suffix_append lbrace [c] _ h0 with ⟨he, h1⟩ | h1
    · rw [replaceAll_eq_nil old v cs hold hvne he]
      exact h1
    · exact (ih h1).trans (List.suffix_cons c cs)

/-- The output of `replaceAll` starts with a closing brace only if the input
does, for a non-empty brace-free value. -/
theorem replaceAll_starts_rbrace (old v s : Str) (hold : old ≠ []) (hv : braceFree v = true)
    (hvne : v ≠ []) (h : [rbrace] <+: replaceAll s old v) : [rbrace] <+: s := by
  obtain ⟨x, v1, rfl⟩ := List.exists_cons_of_ne_nil hvne
  rcases replaceAll_cases old (x :: v1) s hold with rfl | ⟨rest, rfl, e⟩ | ⟨c, cs, rfl, _, e⟩
  · rw [replaceAll_nil _ _ hold] at h
    exact h
  · rw [e] at h
    simp only [List.cons_append, List.cons_prefix_cons] at h
    exact absurd h.1.symm (braceFree_cons.mp hv).1.2
  · rw [e] at h
    simp only [List.cons_prefix_cons] at h ⊢
    exact ⟨h.1, List.nil_prefix⟩

/-- C6, second half: variables with brace-free names and non-empty brace-free
values leave a single-brace token alone that is not the inside of a
double-brace token. -/
theorem substituteAll_around_pathToken (name : Str) (hname : braceFree name = true) :
    ∀ (l : VarMap) (pre post : Str),
      (∀ kv ∈ l, braceFree kv.1 = true ∧ braceFree kv.2 = true ∧ kv.2 ≠ []) →
      ¬ ([lbrace] <:+ pre ∧ [rbrace] <+: post) →
      substituteAll l (pre ++ pathToken name ++ post)
        = substituteAll l pre ++ pathToken name ++ substituteAll l post := by
  intro l
  induction l with
  | nil => intro pre post _ _; rfl
  | cons e l ih =>
    intro pre post h hnot
    obtain ⟨hk, hv, hvne⟩ := h e (List.mem_cons_self _ _)
    have hold := placeholder_ne_nil e.1
    rw [substituteAll_cons, substituteAll_cons, substituteAll_cons, substitute_eq_replaceAll,
      substitute_eq_replaceAll, substitute_eq_replaceAll,
      replaceAll_placeholder_around_pathToken e.1 e.2 name pre post hk hname hnot]
    apply ih _ _ (fun kv hkv => h kv (List.mem_cons_of_mem _ hkv))
    rintro ⟨h1, h2⟩
    exact hnot ⟨replaceAll_ends_lbrace _ e.2 hold hv hvne pre h1,
      replaceAll_starts_rbrace _ e.2 post hold hv hvne h2⟩

/-- C6 (amended): path-parameter substitution leaves a double-brace token
`{{name}}` of the URL path unchanged when name is brace-free and the
path-parameter keys are brace-free and differ from name (the text before and
after it is substituted as it would be alone); variable substitution leaves a
single-brace token `{name}` of a field unchanged when it is not the inside of
a `{{name}}` token, name and the variable names are brace-free and the
variable values are brace-free and not empty. -/
theorem substitutions_keep_other_tokens :
    (∀ (lib : Lib) (req : HTTPRequestSpec) (method : Str) (u : url.URL) (pre name post : Str),
      lib.newRequest req.Method req.URL = .ok (method, u) →
      u.Path = pre ++ placeholder name ++ post →
      braceFree name = true →
      (∀ kv ∈ req.Request.PathParams, braceFree kv.Key = true ∧ kv.Key ≠ name) →
      ∃ r, assembleRequest lib req = .ok r ∧
        r.URL.Path = applyPathParams req.Request.PathParams pre ++ placeholder name
          ++ applyPathParams req.Request.PathParams post) ∧
    (∀ (b : Builtins) (order1 order2 : MapOrder) (req : HTTPRequestSpec) (env : Option EnvSpec)
        (fld : Field) (pre name post : Str),
      IsRange order2 →
      braceFree name = true →
      (∀ kv ∈ mergedVariables b order1 env,
        braceFree kv.1 = true ∧ braceFree kv.2 = true ∧ kv.2 ≠ []) →
      ¬ ([lbrace] <:+ pre ∧ [rbrace] <+: post) →
      fld.get req = some (pre ++ pathToken name ++ post) →
      fld.get (applyVariables b order1 order2 req env).1
        = some (substituteAll (order2 (mergedVariables b order1 env)) pre ++ pathToken name
            ++ substituteAll (order2 (mergedVariables b order1 env)) post)) := by
  constructor
  · intro lib req method u pre name post hnew hpath hname hparams
    refine ⟨_, by rw [assembleRequest, hnew], ?_⟩
    simp only [hpath]
    exact applyPathParams_around_placeholder name hname _ pre post hparams
  · intro b order1 order2 req env fld pre name post h2 hname hvars hnot hfld
    rw [get_applyVariables, hfld, Option.map_some']
    congr 1
    exact substituteAll_around_pathToken name hname _ pre post
      (fun kv hkv => hvars kv ((h2 _).mem_iff.mp hkv)) hnot

/-- C6 (witness): the path `/v1/{{tenant}}/items/{id}` with the path parameter
id = 42 is assembled to `/v1/{{tenant}}/items/42`, and the URL
`https://{{host}}/items/{id}` with the environment host = api.example.com is
resolved to `https://api.example.com/items/{id}`. -/
theorem substitutions_keep_other_tokens_witness :
    (∃ r, assembleRequest sampleLib
        { sampleTemplate (str "https://h/v1/" ++ placeholder (str "tenant")
            ++ str "/items/\x7bid\x7d") with
          Request := { (sampleTemplate []).Request with
            PathParams := [{ Key := str "id", Value := str "42" }] } } = .ok r ∧
      r.URL.Path = str "/v1/" ++ placeholder (str "tenant") ++ str "/items/42") ∧
    Field.get .url
        (applyVariables sampleBuiltins (fun m => m) List.reverse
          (sampleTemplate (str "https://" ++ placeholder (str "host") ++ str "/items/"
            ++ pathToken (str "id") ++ []))
          (some { Values := [{ Key := str "host", Value := str "api.example.com" }] })).1
      = some (str "https://api.example.com/items/\x7bid\x7d") := by
  constructor
  · obtain ⟨r, h1, h2⟩ := substitutions_keep_other_tokens.1 sampleLib
      { sampleTemplate (str "https://h/v1/" ++ placeholder (str "tenant")
          ++ str "/items/\x7bid\x7d") with
        Request := { (sampleTemplate []).Request with
          PathParams := [{ Key := str "id", Value := str "42" }] } }
      (str "GET")
      { Scheme := str "https", Host := str "h",
        Path := str "/v1/" ++ placeholder (str "tenant") ++ str "/items/\x7bid\x7d",
        RawQuery := [] }
      (str "/v1/") (str "tenant") (str "/items/\x7bid\x7d") rfl rfl (by decide) (by decide)
    refine ⟨r, h1, ?_⟩
    rw [h2]
    decide
  · have h := substitutions_keep_other_tokens.2 sampleBuiltins (fun m => m) List.reverse
      (sampleTemplate (str "https://" ++ placeholder (str "host") ++ str "/items/"
        ++ pathToken (str "id") ++ []))
      (some { Values := [{ Key := str "host", Value := str "api.example.com" }] })
      .url (str "https://" ++ placeholder (str "host") ++ str "/items/") (str "id") []
      isRange_reverse (by decide) (by decide) (by decide) rfl
    rw [h]
    decide

/-- C6 (counterexample): the URL path `/{{id}}` with the path parameter
id = 42 is assembled to `/{42}`: the double-brace token was changed by
path-parameter substitution. -/
theorem applyPathParams_placeholder_counterexample :
    ∃ r, assembleRequest sampleLib
        { sampleTemplate (str "https://api.example.com/" ++ placeholder (str "id")) with
          Request := { (sampleTemplate []).Request with
            PathParams := [{ Key := str "id", Value := str "42" }] } } = .ok r ∧
      r.URL.Path = str "/\x7b42\x7d" ∧
      contains (str "/" ++ placeholder (str "id")) (placeholder (str "id")) = true ∧
      contains r.URL.Path (placeholder (str "id")) = false :=
  ⟨_, rfl, by decide, by decide, by decide⟩

/-- The header loop is additive: after it, the values stored under a key are
the values stored before, followed by the values of the template headers whose
key is spelled that way, in list order. -/
theorem applyHeaders_values (lib : Lib) (headers : List KeyValue) (h : url.Values) (key : Str) :
    applyHeaders lib headers h key
      = h key ++ (headers.filter (fun kv => decide (key = lib.canonicalKey kv.Key))).map
          (fun kv => kv.Value) := by
  induction headers generalizing h with
  | nil => simp [applyHeaders]
  | cons kv headers ih =>
    have e : applyHeaders lib (kv :: headers) h
        = applyHeaders lib headers (http.Header.Add lib h kv.Key kv.Value) := rfl
    rw [e, ih]
    by_cases hk : key = lib.canonicalKey kv.Key
    · simp [http.Header.Add, url.Values.Add, hk, List.filter_cons]
    · simp [http.Header.Add, url.Values.Add, hk, List.filter_cons]

-- ---------------------------------------------------------------------------
-- Service.SendRequest
-- ---------------------------------------------------------------------------

theorem applyVariable_postRequest (k v : Str) (req : HTTPRequestSpec) :
    (applyVariable k v req).Request.PostRequest = req.Request.PostRequest := rfl

theorem applyVariable_fold_postRequest (l : VarMap) (req : HTTPRequestSpec) :
    (l.foldl (fun r kv => applyVariable kv.1 kv.2 r) req).Request.PostRequest
      = req.Request.PostRequest := by
  induction l generalizing req with
  | nil => rfl
  | cons kv l ih => rw [List.foldl_cons, ih, applyVariable_postRequest]

theorem sendRequest_req (lib : Lib) (deps : Deps) (b : Builtins) (order1 order2 : MapOrder)
    (req : HTTPRequestSpec) (e : Option domain.Environment) :
    (sendRequest lib deps b order1 order2 req e).req
      = (applyVariables b order1 order2 req (e.map (fun x => x.Clone.Spec))).1 := by
  unfold sendRequest
  dsimp only
  split
  · rfl
  · split
    · rfl
    · split <;> rfl

theorem sendRequest_postRequest (lib : Lib) (deps : Deps) (b : Builtins)
    (order1 order2 : MapOrder) (req : HTTPRequestSpec) (e : Option domain.Environment) :
    (sendRequest lib deps b order1 order2 req e).req.Request.PostRequest
      = req.Request.PostRequest := by
  rw [sendRequest_req]
  exact applyVariable_fold_postRequest _ req

/-- C15: for every template and optional environment, applyVariables leaves
the post-request action unchanged (type, source, JSON-path key and target
key, placeholders in them included), so the action that SendRequest reads from
the resolved clone after sendRequest is the action of the unresolved
template. -/
theorem applyVariables_keeps_post_request (lib : Lib) (deps : Deps) (b : Builtins)
    (order1 order2 : MapOrder) (req : HTTPRequestSpec) (env : Option EnvSpec)
    (e : Option domain.Environment) :
    (applyVariables b order1 order2 req env).1.Request.PostRequest = req.Request.PostRequest ∧
    (sendRequest lib deps b order1 order2 req e).req.Request.PostRequest
      = req.Request.PostRequest :=
  ⟨applyVariable_fold_postRequest _ req, sendRequest_postRequest lib deps b order1 order2 req e⟩

theorem sendAndHandle_requests (lib : Lib) (deps : Deps) (b : Builtins)
    (order1 order2 : MapOrder) (s : Service) (r : domain.Request)
    (active : Option domain.Environment) :
    (sendAndHandle lib deps b order1 order2 s r active).requests = s.requests := by
  unfold sendAndHandle
  dsimp only
  split <;> rfl

theorem SendRequest_requests (lib : Lib) (deps : Deps) (b : Builtins)
    (order1 order2 : MapOrder) (s : Service) (requestID activeEnvironmentID : Str) :
    (SendRequest lib deps b order1 order2 s requestID activeEnvironmentID).requests
      = s.requests := by
  unfold SendRequest
  split
  · rfl
  · split
    · split
      · rfl
      · exact sendAndHandle_requests _ _ _ _ _ _ _ _
    · exact sendAndHandle_requests _ _ _ _ _ _ _ _

theorem read_write_same (m : Memory) (a : Addr) (t : HTTPRequestSpec)
    (ha : a < m.objects.length) : (m.write a t).read a = t := by
  simp [Memory.read, Memory.write, ha]

theorem read_write_other (m : Memory) (a a1 : Addr) (t : HTTPRequestSpec) (hne : a ≠ a1) :
    (m.write a t).read a1 = m.read a1 := by
  simp [Memory.read, Memory.write, List.getElem?_set_ne hne]

theorem read_Clone_old (m : Memory) (req a : Addr) (ha : a < m.objects.length) :
    (m.Clone req).1.read a = m.read a := by
  simp [Memory.read, Memory.Clone, List.getElem?_append_left ha]

theorem read_Clone_new (m : Memory) (req : Addr) :
    (m.Clone req).1.read (m.Clone req).2 = m.read req := by
  simp [Memory.read, Memory.Clone]

theorem wellFormed_iff (m : Memory) :
    m.WellFormed = true ↔ ∀ r ∈ m.stored, r.2 < m.objects.length := by
  simp [Memory.WellFormed]

/-- Two memories with the same store whose stored pointers lead to the same
objects hold the same stored requests. -/
theorem requests_congr (m m1 : Memory) (hs : m1.stored = m.stored)
    (hr : ∀ r ∈ m.stored, m1.read r.2 = m.read r.2) : m1.requests = m.requests := by
  unfold Memory.requests
  rw [hs]
  apply List.map_congr_left
  intro r hrm
  rw [hr r hrm]

/-- What `sendRequest` assigns through its pointer is found at that address
afterwards: the template resolved by `applyVariables`. -/
theorem sendRequestAt_writes_in_place (lib : Lib) (deps : Deps) (b : Builtins)
    (order1 order2 : MapOrder) (m : Memory) (req : Addr) (e : Option domain.Environment)
    (ha : req < m.objects.length) :
    (sendRequestAt lib deps b order1 order2 m req e).2.read req
      = (applyVariables b order1 order2 (m.read req) (e.map (fun x => x.Clone.Spec))).1 := by
  unfold sendRequestAt
  dsimp only
  rw [read_write_same m req _ ha, sendRequest_req]

theorem sendRequestAt_other (lib : Lib) (deps : Deps) (b : Builtins)
    (order1 order2 : MapOrder) (m : Memory) (req a : Addr) (e : Option domain.Environment)
    (hne : req ≠ a) :
    (sendRequestAt lib deps b order1 order2 m req e).2.read a = m.read a := by
  unfold sendRequestAt
  dsimp only
  exact read_write_other m req a _ hne

theorem sendRequestAt_stored (lib : Lib) (deps : Deps) (b : Builtins)
    (order1 order2 : MapOrder) (m : Memory) (req : Addr) (e : Option domain.Environment) :
    (sendRequestAt lib deps b order1 order2 m req e).2.stored = m.stored ∧
    (sendRequestAt lib deps b order1 order2 m req e).2.objects.length = m.objects.length := by
  simp [sendRequestAt, Memory.write]

theorem sendAndHandleAt_memory (lib : Lib) (deps : Deps) (b : Builtins)
    (order1 order2 : MapOrder) (m : Memory) (environments : List domain.Environment)
    (r : Addr) (active : Option domain.Environment) :
    (sendAndHandleAt lib deps b order1 order2 m environments r active).2
      = (sendRequestAt lib deps b order1 order2 m r active).2 := by
  unfold sendAndHandleAt
  dsimp only
  split <;> rfl

theorem sendAndHandleAt_requests (lib : Lib) (deps : Deps) (b : Builtins)
    (order1 order2 : MapOrder) (m : Memory) (environments : List domain.Environment)
    (r : Addr) (active : Option domain.Environment) :
    (sendAndHandleAt lib deps b order1 order2 m environments r active).1.requests
      = (sendRequestAt lib deps b order1 order2 m r active).2.requests := by
  unfold sendAndHandleAt
  dsimp only
  split <;> rfl

/-- The memory after `SendRequest`: it is the memory before the call when the
request is not found, the memory with the clone when the environment is not
found, and the memory with the clone after `sendRequest` has written through
the pointer to the clone otherwise. -/
theorem SendRequestAt_memory (lib : Lib) (deps : Deps) (b : Builtins)
    (order1 order2 : MapOrder) (m : Memory) (environments : List domain.Environment)
    (requestID activeEnvironmentID : Str) :
    (SendRequestAt lib deps b order1 order2 m environments requestID activeEnvironmentID).2 = m ∨
    ∃ req, m.GetRequest requestID = some req ∧
      ((SendRequestAt lib deps b order1 order2 m environments requestID activeEnvironmentID).2
          = (m.Clone req).1 ∨
       ∃ active,
        (SendRequestAt lib deps b order1 order2 m environments requestID activeEnvironmentID).2
          = (sendRequestAt lib deps b order1 order2 (m.Clone req).1 (m.Clone req).2
              active).2) := by
  unfold SendRequestAt
  split
  · exact Or.inl rfl
  · rename_i req hreq
    refine Or.inr ⟨req, hreq, ?_⟩
    dsimp only
    split
    · split
      · exact Or.inl rfl
      · exact Or.inr ⟨_, sendAndHandleAt_memory _ _ _ _ _ _ _ _ _⟩
    · exact Or.inr ⟨_, sendAndHandleAt_memory _ _ _ _ _ _ _ _ _⟩

/-- The store and the objects allocated before the call are the same before
and after `SendRequest`, and no object is given up. -/
theorem SendRequestAt_frame (lib : Lib) (deps : Deps) (b : Builtins)
    (order1 order2 : MapOrder) (m : Memory) (environments : List domain.Environment)
    (requestID activeEnvironmentID : Str) :
    (SendRequestAt lib deps b order1 order2 m environments requestID activeEnvironmentID).2.stored
      = m.stored ∧
    (∀ a, a < m.objects.length →
      (SendRequestAt lib deps b order1 order2 m environments requestID
        activeEnvironmentID).2.read a = m.read a) ∧
    m.objects.length ≤ (SendRequestAt lib deps b order1 order2 m environments requestID
        activeEnvironmentID).2.objects.length := by
  rcases SendRequestAt_memory lib deps b order1 order2 m environments requestID
    activeEnvironmentID with h | ⟨req, _, h | ⟨active, h⟩⟩
  · rw [h]
    exact ⟨rfl, fun _ _ => rfl, le_refl _⟩
  · rw [h]
    refine ⟨rfl, fun a ha => read_Clone_old m req a ha, ?_⟩
    simp [Memory.Clone]
  · rw [h]
    obtain ⟨h1, h2⟩ := sendRequestAt_stored lib deps b order1 order2 (m.Clone req).1
      (m.Clone req).2 active
    refine ⟨h1, ?_, ?_⟩
    · intro a ha
      have hne : (m.Clone req).2 ≠ a := Nat.ne_of_gt ha
      rw [sendRequestAt_other _ _ _ _ _ _ _ a _ hne, read_Clone_old m req a ha]
    · rw [h2]
      simp [Memory.Clone]
/-- The stored requests read as values are the same before and after
`SendRequest`. -/
theorem SendRequestAt_requests (lib : Lib) (deps : Deps) (b : Builtins)
    (order1 order2 : MapOrder) (m : Memory) (environments : List domain.Environment)
    (requestID activeEnvironmentID : Str) (hwf : m.WellFormed = true) :
    (SendRequestAt lib deps b order1 order2 m environments requestID
      activeEnvironmentID).2.requests = m.requests := by
  obtain ⟨h1, h2, _⟩ := SendRequestAt_frame lib deps b order1 order2 m environments requestID
    activeEnvironmentID
  exact requests_congr m _ h1 (fun r hr => h2 r.2 ((wellFormed_iff m).mp hwf r hr))

theorem SendRequestAt_wellFormed (lib : Lib) (deps : Deps) (b : Builtins)
    (order1 order2 : MapOrder) (m : Memory) (environments : List domain.Environment)
    (requestID activeEnvironmentID : Str) (hwf : m.WellFormed = true) :
    (SendRequestAt lib deps b order1 order2 m environments requestID
      activeEnvironmentID).2.WellFormed = true := by
  obtain ⟨h1, _, h3⟩ := SendRequestAt_frame lib deps b order1 order2 m environments requestID
    activeEnvironmentID
  rw [wellFormed_iff] at hwf ⊢
  intro r hr
  rw [h1] at hr
  exact lt_of_lt_of_le (hwf r hr) h3

/-- When `SendRequest` reaches `sendRequest`, the new object, the clone, holds
the stored template resolved by `applyVariables` afterwards. -/
theorem SendRequestAt_clone (lib : Lib) (deps : Deps) (b : Builtins)
    (order1 order2 : MapOrder) (m : Memory) (environments : List domain.Environment)
    (requestID activeEnvironmentID : Str) (req : Addr) (active : Option domain.Environment)
    (hreq : m.GetRequest requestID = some req)
    (hactive : (activeEnvironmentID = [] ∧ active = none) ∨
      (activeEnvironmentID ≠ [] ∧ ∃ e, GetEnvironment environments activeEnvironmentID = some e
        ∧ active = some e)) :
    (SendRequestAt lib deps b order1 order2 m environments requestID
        activeEnvironmentID).2.read m.objects.length
      = (applyVariables b order1 order2 (m.read req)
          (active.map (fun x => x.Clone.Spec))).1 := by
  have hlen : (m.Clone req).2 < (m.Clone req).1.objects.length := by
    simp [Memory.Clone]
  have key : ∀ act, (sendAndHandleAt lib deps b order1 order2 (m.Clone req).1 environments
      (m.Clone req).2 act).2.read m.objects.length
      = (applyVariables b order1 order2 (m.read req) (act.map (fun x => x.Clone.Spec))).1 := by
    intro act
    rw [sendAndHandleAt_memory]
    have h := sendRequestAt_writes_in_place lib deps b order1 order2 (m.Clone req).1
      (m.Clone req).2 act hlen
    rw [read_Clone_new] at h
    exact h
  unfold SendRequestAt
  rw [hreq]
  dsimp only
  rcases hactive with ⟨h1, h2⟩ | ⟨h1, e, h2, h3⟩
  · rw [if_neg (not_not.mpr h1), h2]
    exact key none
  · rw [if_pos h1, h2, h3]
    exact key (some e)

theorem GetRequest_requests (m : Memory) (id : Str) :
    GetRequest m.requests id
      = (m.GetRequest id).map (fun a => { ID := id, Spec := { HTTP := m.read a } }) := by
  unfold GetRequest Memory.requests Memory.GetRequest
  rw [List.find?_map, Option.map_map]
  cases h : List.find? (fun r : Str × Addr => decide (r.1 = id)) m.stored with
  | none =>
    have h1 : List.find? ((fun r : domain.Request => decide (r.ID = id)) ∘
        fun r : Str × Addr => { ID := r.1, Spec := { HTTP := m.read r.2 } }) m.stored = none := h
    rw [h1]; rfl
  | some r =>
    have h1 : List.find? ((fun r : domain.Request => decide (r.ID = id)) ∘
        fun r : Str × Addr => { ID := r.1, Spec := { HTTP := m.read r.2 } }) m.stored
        = some r := h
    have hid : r.1 = id := by simpa using List.find?_some h
    rw [h1]
    simp [hid]

theorem sendAndHandleAt_refines (lib : Lib) (deps : Deps) (b : Builtins)
    (order1 order2 : MapOrder) (m : Memory) (environments : List domain.Environment)
    (id : Str) (req : Addr) (active : Option domain.Environment)
    (hwf : m.WellFormed = true) :
    (sendAndHandleAt lib deps b order1 order2 (m.Clone req).1 environments (m.Clone req).2
        active).1
      = sendAndHandle lib deps b order1 order2
          { requests := m.requests, environments := environments }
          { ID := id, Spec := { HTTP := m.read req } } active := by
  have hlen : (m.Clone req).2 < (m.Clone req).1.objects.length := by
    simp [Memory.Clone]
  have hreqs : (sendRequestAt lib deps b order1 order2 (m.Clone req).1 (m.Clone req).2
      active).2.requests = m.requests := by
    obtain ⟨h1, _⟩ := sendRequestAt_stored lib deps b order1 order2 (m.Clone req).1
      (m.Clone req).2 active
    apply requests_congr m _ h1
    intro r hr
    have hr2 := (wellFormed_iff m).mp hwf r hr
    have hne : (m.Clone req).2 ≠ r.2 := Nat.ne_of_gt hr2
    rw [sendRequestAt_other _ _ _ _ _ _ _ r.2 _ hne, read_Clone_old m req r.2 hr2]
  have hread : (sendRequestAt lib deps b order1 order2 (m.Clone req).1 (m.Clone req).2
      active).2.read (m.Clone req).2
      = (sendRequest lib deps b order1 order2 (m.read req) active).req := by
    rw [sendRequestAt_writes_in_place _ _ _ _ _ _ _ _ hlen, read_Clone_new, sendRequest_req]
  have hsent : (sendRequestAt lib deps b order1 order2 (m.Clone req).1 (m.Clone req).2
      active).1 = sendRequest lib deps b order1 order2 (m.read req) active := by
    unfold sendRequestAt
    dsimp only
    rw [read_Clone_new]
  unfold sendAndHandleAt sendAndHandle
  dsimp only
  rw [hreqs, hread, hsent]
  split <;> rfl

/-- The results of `SendRequest` with the templates held in memory are the
results of `SendRequest` on the store read as values. -/
theorem SendRequestAt_refines (lib : Lib) (deps : Deps) (b : Builtins)
    (order1 order2 : MapOrder) (m : Memory) (environments : List domain.Environment)
    (requestID activeEnvironmentID : Str) (hwf : m.WellFormed = true) :
    (SendRequestAt lib deps b order1 order2 m environments requestID activeEnvironmentID).1
      = SendRequest lib deps b order1 order2
          { requests := m.requests, environments := environments }
          requestID activeEnvironmentID := by
  have hclone : ∀ req, (m.Clone req).1.requests = m.requests := by
    intro req
    apply requests_congr m (m.Clone req).1 rfl
    intro r hr
    exact read_Clone_old m req r.2 ((wellFormed_iff m).mp hwf r hr)
  unfold SendRequestAt SendRequest
  dsimp only
  rw [GetRequest_requests]
  cases hreq : m.GetRequest requestID with
  | none => rfl
  | some req =>
    dsimp only [Option.map_some', domain.Request.Clone]
    split
    · split
      · rw [hclone]
      · exact sendAndHandleAt_refines lib deps b order1 order2 m environments requestID req _ hwf
    · exact sendAndHandleAt_refines lib deps b order1 order2 m environments requestID req _ hwf
theorem GetRequest_stored (m : Memory) (id : Str) (req : Addr)
    (h : m.GetRequest id = some req) : req < m.objects.length ∨ m.WellFormed = false := by
  cases hwf : m.WellFormed with
  | false => exact Or.inr rfl
  | true =>
    left
    unfold Memory.GetRequest at h
    cases hf : List.find? (fun r : Str × Addr => decide (r.1 = id)) m.stored with
    | none => rw [hf] at h; cases h
    | some r =>
      rw [hf] at h
      injection h with h
      rw [← h]
      exact (wellFormed_iff m).mp hwf r (List.mem_of_find?_eq_some hf)

/-- Without the clone, `sendRequest` would write to the stored object: handed
the stored pointer of the example, it leaves the resolved URL in the stored
template. -/
theorem sendRequestAt_through_stored_pointer :
    (sampleMemory.read 0).URL = str "https://" ++ placeholder (str "host") ++ str "/login" ∧
    ((sendRequestAt sampleLib (sampleDeps sampleBody none) sampleBuiltins (fun m => m)
        (fun m => m) sampleMemory 0
        (some { ID := str "e1",
                Spec := { Values := [{ Key := str "host", Value := str "api.example.com" }] } })
      ).2.read 0).URL = str "https://api.example.com/login" := by
  constructor
  · rfl
  · rw [sendRequestAt_writes_in_place _ _ _ _ _ _ _ _ (by decide)]
    decide

/-- C16: for every memory whose stored pointers lead to allocated objects,
every environment store, request id and environment id, a SendRequest call,
whether it succeeds or fails, leaves the store and every stored template
object as they were, so the stored templates read after the call are those
read before it.  When the call reaches sendRequest, what applyVariables
assigns in place is found in the new object made by Clone, which afterwards
holds the stored template resolved with the active environment.  A second
send of the same id, with any environments and any environment id, again
leaves the stored templates as they were before the first call, and its
clone holds the resolution of the same unresolved template. -/
theorem SendRequestAt_keeps_stored_template (lib : Lib) (deps : Deps) (b : Builtins)
    (order1 order2 : MapOrder) (m : Memory) (environments : List domain.Environment)
    (requestID activeEnvironmentID : Str) (hwf : m.WellFormed = true) :
    (SendRequestAt lib deps b order1 order2 m environments requestID
      activeEnvironmentID).2.stored = m.stored ∧
    (∀ r ∈ m.stored,
      (SendRequestAt lib deps b order1 order2 m environments requestID
        activeEnvironmentID).2.read r.2 = m.read r.2) ∧
    (SendRequestAt lib deps b order1 order2 m environments requestID
      activeEnvironmentID).1.requests = m.requests ∧
    (∀ (req : Addr) (active : Option domain.Environment),
      m.GetRequest requestID = some req →
      ((activeEnvironmentID = [] ∧ active = none) ∨
        (activeEnvironmentID ≠ [] ∧
          ∃ e, GetEnvironment environments activeEnvironmentID = some e ∧ active = some e)) →
      (SendRequestAt lib deps b order1 order2 m environments requestID
          activeEnvironmentID).2.read m.objects.length
        = (applyVariables b order1 order2 (m.read req)
            (active.map (fun x => x.Clone.Spec))).1) ∧
    (∀ (environments2 : List domain.Environment) (activeEnvironmentID2 : Str),
      (SendRequestAt lib deps b order1 order2
        (SendRequestAt lib deps b order1 order2 m environments requestID activeEnvironmentID).2
        environments2 requestID activeEnvironmentID2).1.requests = m.requests ∧
      (∀ (req : Addr) (active : Option domain.Environment),
        m.GetRequest requestID = some req →
        ((activeEnvironmentID2 = [] ∧ active = none) ∨
          (activeEnvironmentID2 ≠ [] ∧
            ∃ e, GetEnvironment environments2 activeEnvironmentID2 = some e
              ∧ active = some e)) →
        (SendRequestAt lib deps b order1 order2
          (SendRequestAt lib deps b order1 order2 m environments requestID
            activeEnvironmentID).2
          environments2 requestID activeEnvironmentID2).2.read
            (SendRequestAt lib deps b order1 order2 m environments requestID
              activeEnvironmentID).2.objects.length
          = (applyVariables b order1 order2 (m.read req)
              (active.map (fun x => x.Clone.Spec))).1)) := by
  obtain ⟨h1, h2, _⟩ := SendRequestAt_frame lib deps b order1 order2 m environments requestID
    activeEnvironmentID
  have hreqs := SendRequestAt_requests lib deps b order1 order2 m environments requestID
    activeEnvironmentID hwf
  have hwf2 := SendRequestAt_wellFormed lib deps b order1 order2 m environments requestID
    activeEnvironmentID hwf
  refine ⟨h1, fun r hr => h2 r.2 ((wellFormed_iff m).mp hwf r hr), ?_, ?_, ?_⟩
  · rw [SendRequestAt_refines _ _ _ _ _ _ _ _ _ hwf, SendRequest_requests]
  · intro req active hreq hactive
    exact SendRequestAt_clone lib deps b order1 order2 m environments requestID
      activeEnvironmentID req active hreq hactive
  · intro environments2 activeEnvironmentID2
    constructor
    · rw [SendRequestAt_refines _ _ _ _ _ _ _ _ _ hwf2, SendRequest_requests]
      exact hreqs
    · intro req active hreq hactive
      have hreq2 : (SendRequestAt lib deps b order1 order2 m environments requestID
          activeEnvironmentID).2.GetRequest requestID = some req := by
        unfold Memory.GetRequest at hreq ⊢
        rw [h1]
        exact hreq
      have hlt : req < m.objects.length := by
        rcases GetRequest_stored m requestID req hreq with h | h
        · exact h
        · rw [hwf] at h; cases h
      rw [SendRequestAt_clone lib deps b order1 order2 _ environments2 requestID
        activeEnvironmentID2 req active hreq2 hactive, h2 req hlt]

/-- C16 (witness): the template `r1` of the example memory, with the URL
`https://{{host}}/login`, is sent with the environment `e1`, where host is
api.example.com: afterwards the stored object still holds the URL with the
placeholder, the new object holds the resolved URL, and the store read as
values is the one before the call. -/
theorem SendRequestAt_keeps_stored_template_witness :
    sampleMemory.WellFormed = true ∧
    ((SendRequestAt sampleLib (sampleDeps sampleBody none) sampleBuiltins (fun m => m)
        (fun m => m) sampleMemory sampleService.environments (str "r1") (str "e1")).2.read 0).URL
      = str "https://" ++ placeholder (str "host") ++ str "/login" ∧
    ((SendRequestAt sampleLib (sampleDeps sampleBody none) sampleBuiltins (fun m => m)
        (fun m => m) sampleMemory sampleService.environments (str "r1") (str "e1")).2.read 1).URL
      = str "https://api.example.com/login" ∧
    (SendRequestAt sampleLib (sampleDeps sampleBody none) sampleBuiltins (fun m => m)
        (fun m => m) sampleMemory sampleService.environments (str "r1") (str "e1")).1.requests
      = sampleMemory.requests := by
  obtain ⟨_, h2, h3, h4, _⟩ := SendRequestAt_keeps_stored_template sampleLib
    (sampleDeps sampleBody none) sampleBuiltins (fun m => m) (fun m => m) sampleMemory
    sampleService.environments (str "r1") (str "e1") (by decide)
  refine ⟨by decide, ?_, ?_, h3⟩
  · rw [h2 (str "r1", 0) (by decide)]
    rfl
  · have h := h4 0
      (some { ID := str "e1",
              Spec := { Values := [{ Key := str "host", Value := str "api.example.com" }] } })
      rfl (Or.inr ⟨by decide, _, rfl, rfl⟩)
    have e : sampleMemory.objects.length = 1 := rfl
    rw [e] at h
    rw [h]
    decide

theorem GetJSONPATH_ok_of_IsJSON (deps : Deps) (text path : Str) (h : IsJSON deps text = true) :
    ∃ d, GetJSONPATH deps text path = .ok d := by
  unfold IsJSON at h
  unfold GetJSONPATH
  cases hu : deps.jsonUnmarshal text with
  | error e => rw [hu] at h; cases h
  | ok doc => exact ⟨_, rfl⟩

/-- The post-request step when everything needed for the change is there. -/
theorem handlePostRequest_effective (deps : Deps) (post : PostRequest) (response : Response)
    (env : domain.Environment) (environments : List domain.Environment) (v : Str)
    (h1 : post ≠ zeroPostRequest) (h2 : post.Kind = deps.PostRequestTypeSetEnv)
    (h3 : post.PostRequestSet.From = deps.PostRequestSetFromResponseBody)
    (h4 : response.JSON ≠ [] ∧ response.IsJSON = true)
    (h5 : GetJSONPATH deps response.JSON post.PostRequestSet.FromKey = .ok (.string v)) :
    handlePostRequest deps post response (some env) environments =
      match deps.updateEnvironment (env.SetKey post.PostRequestSet.Target v) with
      | some e =>
        { response := none, err := some (.library e),
          environments := writeEnvironment environments
            (env.SetKey post.PostRequestSet.Target v),
          updates := [env.SetKey post.PostRequestSet.Target v] }
      | none =>
        { response := some response, err := none,
          environments := writeEnvironment environments
            (env.SetKey post.PostRequestSet.Target v),
          updates := [env.SetKey post.PostRequestSet.Target v] } := by
  unfold handlePostRequest
  simp only [h1, h2, h3, h4, h5, ne_eq, not_false_eq_true, not_true_eq_false, if_true, if_false,
    and_self]

/-- The post-request step when something needed for the change is missing:
the response is returned and nothing else happens. -/
theorem handlePostRequest_noop (deps : Deps) (post : PostRequest) (response : Response)
    (active : Option domain.Environment) (environments : List domain.Environment)
    (hjson : response.IsJSON = true → IsJSON deps response.JSON = true)
    (hnot : ¬ (post ≠ zeroPostRequest ∧ post.Kind = deps.PostRequestTypeSetEnv ∧
      post.PostRequestSet.From = deps.PostRequestSetFromResponseBody ∧
      (response.JSON ≠ [] ∧ response.IsJSON = true) ∧
      (∃ v, GetJSONPATH deps response.JSON post.PostRequestSet.FromKey = .ok (.string v)) ∧
      active.isSome = true)) :
    handlePostRequest deps post response active environments =
      { response := some response, err := none, environments := environments, updates := [] } := by
  unfold handlePostRequest
  dsimp only
  by_cases h1 : post ≠ zeroPostRequest
  · rw [if_pos h1]
    by_cases h2 : post.Kind = deps.PostRequestTypeSetEnv
    · rw [if_pos h2]
      by_cases h3 : post.PostRequestSet.From = deps.PostRequestSetFromResponseBody
      · rw [if_neg (not_not.mpr h3)]
        by_cases h4 : response.JSON ≠ [] ∧ response.IsJSON = true
        · rw [if_pos h4]
          obtain ⟨d, hd⟩ := GetJSONPATH_ok_of_IsJSON deps response.JSON
            post.PostRequestSet.FromKey (hjson h4.2)
          rw [hd]
          cases d with
          | string v =>
            cases active with
            | none => rfl
            | some env => exact absurd ⟨h1, h2, h3, h4, ⟨v, hd⟩, rfl⟩ hnot
          | null => rfl
          | bool _ => rfl
          | number _ => rfl
          | array _ => rfl
          | object _ => rfl
        · rw [if_neg h4]
      · rw [if_pos h3]
    · rw [if_neg h2]
  · rw [if_neg h1]

theorem handlePostRequest_err (deps : Deps) (post : PostRequest) (response : Response)
    (active : Option domain.Environment) (environments : List domain.Environment) (e : Error)
    (h : (handlePostRequest deps post response active environments).err = some e) :
    e.isNotFound = false := by
  unfold handlePostRequest at h
  dsimp only at h
  split at h
  · split at h
    · split at h
      · cases h
      · split at h
        · split at h
          · injection h with h; rw [← h]; rfl
          · cases h
          · split at h
            · split at h
              · injection h with h; rw [← h]; rfl
              · cases h
            · cases h
          · cases h
        · cases h
    · cases h
  · cases h

/-- The post-request step returns exactly one of a response and an error. -/
theorem handlePostRequest_one (deps : Deps) (post : PostRequest) (response : Response)
    (active : Option domain.Environment) (environments : List domain.Environment) :
    ((handlePostRequest deps post response active environments).response.isSome = true ∧
      (handlePostRequest deps post response active environments).err = none) ∨
    ((handlePostRequest deps post response active environments).response = none ∧
      (handlePostRequest deps post response active environments).err.isSome = true) := by
  unfold handlePostRequest
  dsimp only
  split
  · split
    · split
      · exact Or.inl ⟨rfl, rfl⟩
      · split
        · split
          · exact Or.inr ⟨rfl, rfl⟩
          · exact Or.inl ⟨rfl, rfl⟩
          · split
            · split
              · exact Or.inr ⟨rfl, rfl⟩
              · exact Or.inl ⟨rfl, rfl⟩
            · exact Or.inl ⟨rfl, rfl⟩
          · exact Or.inl ⟨rfl, rfl⟩
        · exact Or.inl ⟨rfl, rfl⟩
    · exact Or.inl ⟨rfl, rfl⟩
  · exact Or.inl ⟨rfl, rfl⟩

theorem sendRequest_error_library (lib : Lib) (deps : Deps) (b : Builtins)
    (order1 order2 : MapOrder) (req : HTTPRequestSpec) (e : Option domain.Environment)
    (err : Error) (h : (sendRequest lib deps b order1 order2 req e).result = .error err) :
    err.isNotFound = false := by
  unfold sendRequest at h
  dsimp only at h
  split at h
  · injection h with h; rw [← h]; rfl
  · split at h
    · injection h with h; rw [← h]; rfl
    · split at h
      · injection h with h; rw [← h]; rfl
      · cases h

/-- The requests handed to the HTTP client: the one assembled from the
resolved template, or none when it cannot be assembled. -/
theorem sendRequest_calls (lib : Lib) (deps : Deps) (b : Builtins)
    (order1 order2 : MapOrder) (req : HTTPRequestSpec) (e : Option domain.Environment) :
    (∀ hr, prepareRequest lib b order1 order2 req (e.map (fun x => x.Clone.Spec)) = .ok hr →
      (sendRequest lib deps b order1 order2 req e).calls = [hr]) ∧
    (∀ msg, prepareRequest lib b order1 order2 req (e.map (fun x => x.Clone.Spec)) = .error msg →
      (sendRequest lib deps b order1 order2 req e).calls = []) := by
  unfold sendRequest prepareRequest
  dsimp only
  constructor
  · intro hr h
    rw [h]
    dsimp only
    split
    · rfl
    · split <;> rfl
  · intro msg h
    rw [h]

theorem sendAndHandle_ok (lib : Lib) (deps : Deps) (b : Builtins) (order1 order2 : MapOrder)
    (s : Service) (r : domain.Request) (active : Option domain.Environment) (response : Response)
    (h : (sendRequest lib deps b order1 order2 r.Spec.HTTP active).result = .ok response) :
    sendAndHandle lib deps b order1 order2 s r active =
      { response := (handlePostRequest deps r.Spec.HTTP.Request.PostRequest response active
          s.environments).response
        err := (handlePostRequest deps r.Spec.HTTP.Request.PostRequest response active
          s.environments).err
        requests := s.requests
        environments := (handlePostRequest deps r.Spec.HTTP.Request.PostRequest response active
          s.environments).environments
        calls := (sendRequest lib deps b order1 order2 r.Spec.HTTP active).calls
        updates := (handlePostRequest deps r.Spec.HTTP.Request.PostRequest response active
          s.environments).updates } := by
  unfold sendAndHandle
  dsimp only
  rw [h]
  dsimp only
  rw [sendRequest_postRequest]

theorem sendAndHandle_error (lib : Lib) (deps : Deps) (b : Builtins) (order1 order2 : MapOrder)
    (s : Service) (r : domain.Request) (active : Option domain.Environment) (e : Error)
    (h : (sendRequest lib deps b order1 order2 r.Spec.HTTP active).result = .error e) :
    sendAndHandle lib deps b order1 order2 s r active =
      { response := none, err := some e, requests := s.requests,
        environments := s.environments,
        calls := (sendRequest lib deps b order1 order2 r.Spec.HTTP active).calls,
        updates := [] } := by
  unfold sendAndHandle
  dsimp only
  rw [h]

/-- After the lookups have succeeded, `SendRequest` sends the clone. -/
theorem SendRequest_found (lib : Lib) (deps : Deps) (b : Builtins) (order1 order2 : MapOrder)
    (s : Service) (requestID activeEnvironmentID : Str) (req : domain.Request)
    (active : Option domain.Environment)
    (hreq : GetRequest s.requests requestID = some req)
    (hactive : (activeEnvironmentID = [] ∧ active = none) ∨
      (activeEnvironmentID ≠ [] ∧ active.isSome = true ∧
        GetEnvironment s.environments activeEnvironmentID = active)) :
    SendRequest lib deps b order1 order2 s requestID activeEnvironmentID
      = sendAndHandle lib deps b order1 order2 s req active := by
  unfold SendRequest
  rw [hreq]
  dsimp only [domain.Request.Clone]
  rcases hactive with ⟨h1, h2⟩ | ⟨h1, h2, h3⟩
  · rw [if_neg (not_not.mpr h1), h2]
  · rw [if_pos h1, h3]
    cases active with
    | none => cases h2
    | some e => rfl

theorem sendAndHandle_err (lib : Lib) (deps : Deps) (b : Builtins) (order1 order2 : MapOrder)
    (s : Service) (r : domain.Request) (active : Option domain.Environment) (e : Error)
    (h : (sendAndHandle lib deps b order1 order2 s r active).err = some e) :
    e.isNotFound = false := by
  cases hs : (sendRequest lib deps b order1 order2 r.Spec.HTTP active).result with
  | error e1 =>
    rw [sendAndHandle_error _ _ _ _ _ _ _ _ _ hs] at h
    injection h with h
    rw [← h]
    exact sendRequest_error_library _ _ _ _ _ _ _ _ hs
  | ok response =>
    rw [sendAndHandle_ok _ _ _ _ _ _ _ _ _ hs] at h
    exact handlePostRequest_err _ _ _ _ _ _ h

theorem sendAndHandle_one (lib : Lib) (deps : Deps) (b : Builtins) (order1 order2 : MapOrder)
    (s : Service) (r : domain.Request) (active : Option domain.Environment) :
    ((sendAndHandle lib deps b order1 order2 s r active).response.isSome = true ∧
      (sendAndHandle lib deps b order1 order2 s r active).err = none) ∨
    ((sendAndHandle lib deps b order1 order2 s r active).response = none ∧
      (sendAndHandle lib deps b order1 order2 s r active).err.isSome = true) := by
  cases hs : (sendRequest lib deps b order1 order2 r.Spec.HTTP active).result with
  | error e1 =>
    rw [sendAndHandle_error _ _ _ _ _ _ _ _ _ hs]
    exact Or.inr ⟨rfl, rfl⟩
  | ok response =>
    rw [sendAndHandle_ok _ _ _ _ _ _ _ _ _ hs]
    exact handlePostRequest_one _ _ _ _ _

/-- `SendRequest` returns exactly one of a response and an error. -/
theorem SendRequest_one (lib : Lib) (deps : Deps) (b : Builtins) (order1 order2 : MapOrder)
    (s : Service) (requestID activeEnvironmentID : Str) :
    ((SendRequest lib deps b order1 order2 s requestID activeEnvironmentID).response.isSome = true
      ∧ (SendRequest lib deps b order1 order2 s requestID activeEnvironmentID).err = none) ∨
    ((SendRequest lib deps b order1 order2 s requestID activeEnvironmentID).response = none
      ∧ (SendRequest lib deps b order1 order2 s requestID activeEnvironmentID).err.isSome = true) := by
  unfold SendRequest
  split
  · exact Or.inr ⟨rfl, rfl⟩
  · dsimp only
    split
    · split
      · exact Or.inr ⟨rfl, rfl⟩
      · exact sendAndHandle_one _ _ _ _ _ _ _ _
    · exact sendAndHandle_one _ _ _ _ _ _ _ _

theorem GetEnvironment_id (environments : List domain.Environment) (id : Str)
    (env : domain.Environment) (h : GetEnvironment environments id = some env) : env.ID = id := by
  have := List.find?_some h
  simpa using this

theorem GetEnvironment_writeEnvironment (environments : List domain.Environment) (id : Str)
    (env env1 : domain.Environment) (h : GetEnvironment environments id = some env)
    (hid : env1.ID = env.ID) :
    GetEnvironment (writeEnvironment environments env1) id = some env1 := by
  have hq : env.ID = id := GetEnvironment_id environments id env h
  induction environments with
  | nil => cases h
  | cons e0 rest ih =>
    unfold GetEnvironment at h ih ⊢
    by_cases h0 : e0.ID = id
    · have h1 : e0.ID = env1.ID := by rw [h0, hid, hq]
      have h2 : env1.ID = id := by rw [hid, hq]
      simp [writeEnvironment, h1, List.find?, h2]
    · have h1 : ¬ e0.ID = env1.ID := by rw [hid, hq]; exact h0
      simp only [List.find?, h0, decide_False] at h
      simp only [writeEnvironment, h1, if_false, List.find?, h0, decide_False]
      exact ih h

theorem GetKey_setKeyValue (values : List KeyValue) (key value : Str) :
    ((setKeyValue values key value).find? (fun kv => kv.Key = key)).map (fun kv => kv.Value)
      = some value := by
  induction values with
  | nil => simp [setKeyValue]
  | cons kv rest ih =>
    by_cases h : kv.Key = key
    · simp [setKeyValue, h]
    · simp only [setKeyValue, h, if_false, List.find?, decide_False]
      exact ih

theorem GetKey_SetKey (e : domain.Environment) (key value : Str) :
    (e.SetKey key value).GetKey key = some value :=
  GetKey_setKeyValue e.Spec.Values key value

/-- C11: after a successful HTTP execution (the lookups succeeded and
sendRequest returned a response whose pretty-printed text, if any, is JSON),
SendRequest changes the environment store or calls UpdateEnvironment only if a
post-request action is configured, its type is set-environment, its source is
the response body, the response is JSON, the JSON path yields a string and an
active environment is present; when one of these is missing it returns the
response with no error, the environments unchanged and no UpdateEnvironment
call. -/
theorem SendRequest_post_action_conditions (lib : Lib) (deps : Deps) (b : Builtins)
    (order1 order2 : MapOrder) (s : Service) (requestID activeEnvironmentID : Str)
    (req : domain.Request) (active : Option domain.Environment) (response : Response)
    (hreq : GetRequest s.requests requestID = some req)
    (hactive : (activeEnvironmentID = [] ∧ active = none) ∨
      (activeEnvironmentID ≠ [] ∧ active.isSome = true ∧
        GetEnvironment s.environments activeEnvironmentID = active))
    (hsend : (sendRequest lib deps b order1 order2 req.Spec.HTTP active).result = .ok response)
    (hjson : response.IsJSON = true → IsJSON deps response.JSON = true) :
    (¬ (req.Spec.HTTP.Request.PostRequest ≠ zeroPostRequest ∧
        req.Spec.HTTP.Request.PostRequest.Kind = deps.PostRequestTypeSetEnv ∧
        req.Spec.HTTP.Request.PostRequest.PostRequestSet.From
          = deps.PostRequestSetFromResponseBody ∧
        (response.JSON ≠ [] ∧ response.IsJSON = true) ∧
        (∃ v, GetJSONPATH deps response.JSON
          req.Spec.HTTP.Request.PostRequest.PostRequestSet.FromKey = .ok (.string v)) ∧
        active.isSome = true) →
      (SendRequest lib deps b order1 order2 s requestID activeEnvironmentID).response
          = some response ∧
      (SendRequest lib deps b order1 order2 s requestID activeEnvironmentID).err = none ∧
      (SendRequest lib deps b order1 order2 s requestID activeEnvironmentID).environments
          = s.environments ∧
      (SendRequest lib deps b order1 order2 s requestID activeEnvironmentID).updates = []) ∧
    (((SendRequest lib deps b order1 order2 s requestID activeEnvironmentID).environments
          ≠ s.environments ∨
      (SendRequest lib deps b order1 order2 s requestID activeEnvironmentID).updates ≠ []) →
      req.Spec.HTTP.Request.PostRequest ≠ zeroPostRequest ∧
      req.Spec.HTTP.Request.PostRequest.Kind = deps.PostRequestTypeSetEnv ∧
      req.Spec.HTTP.Request.PostRequest.PostRequestSet.From
        = deps.PostRequestSetFromResponseBody ∧
      (response.JSON ≠ [] ∧ response.IsJSON = true) ∧
      (∃ v, GetJSONPATH deps response.JSON
        req.Spec.HTTP.Request.PostRequest.PostRequestSet.FromKey = .ok (.string v)) ∧
      active.isSome = true) := by
  have key : ¬ (req.Spec.HTTP.Request.PostRequest ≠ zeroPostRequest ∧
        req.Spec.HTTP.Request.PostRequest.Kind = deps.PostRequestTypeSetEnv ∧
        req.Spec.HTTP.Request.PostRequest.PostRequestSet.From
          = deps.PostRequestSetFromResponseBody ∧
        (response.JSON ≠ [] ∧ response.IsJSON = true) ∧
        (∃ v, GetJSONPATH deps response.JSON
          req.Spec.HTTP.Request.PostRequest.PostRequestSet.FromKey = .ok (.string v)) ∧
        active.isSome = true) →
      (SendRequest lib deps b order1 order2 s requestID activeEnvironmentID).response
          = some response ∧
      (SendRequest lib deps b order1 order2 s requestID activeEnvironmentID).err = none ∧
      (SendRequest lib deps b order1 order2 s requestID activeEnvironmentID).environments
          = s.environments ∧
      (SendRequest lib deps b order1 order2 s requestID activeEnvironmentID).updates = [] := by
    intro hnot
    rw [SendRequest_found lib deps b order1 order2 s requestID activeEnvironmentID req active
      hreq hactive, sendAndHandle_ok _ _ _ _ _ _ _ _ _ hsend,
      handlePostRequest_noop deps _ response active s.environments hjson hnot]
    exact ⟨rfl, rfl, rfl, rfl⟩
  refine ⟨key, ?_⟩
  intro hchange
  by_contra hnot
  obtain ⟨_, _, h3, h4⟩ := key hnot
  rcases hchange with h | h
  · exact h h3
  · exact h h4

/-- C12: when the lookups succeed, the HTTP execution succeeds, a
set-environment action from the response body is configured, the response is
JSON, the JSON path yields the string v and UpdateEnvironment succeeds, then
SendRequest returns the response with no error, issues exactly one
UpdateEnvironment call, with the changed environment, and the stored active
environment gives v for the target key. -/
theorem SendRequest_sets_environment_key (lib : Lib) (deps : Deps) (b : Builtins)
    (order1 order2 : MapOrder) (s : Service) (requestID activeEnvironmentID : Str)
    (req : domain.Request) (env : domain.Environment) (response : Response) (v : Str)
    (hreq : GetRequest s.requests requestID = some req)
    (hid : activeEnvironmentID ≠ [])
    (henv : GetEnvironment s.environments activeEnvironmentID = some env)
    (hsend : (sendRequest lib deps b order1 order2 req.Spec.HTTP (some env)).result
      = .ok response)
    (h1 : req.Spec.HTTP.Request.PostRequest ≠ zeroPostRequest)
    (h2 : req.Spec.HTTP.Request.PostRequest.Kind = deps.PostRequestTypeSetEnv)
    (h3 : req.Spec.HTTP.Request.PostRequest.PostRequestSet.From
      = deps.PostRequestSetFromResponseBody)
    (h4 : response.JSON ≠ [] ∧ response.IsJSON = true)
    (h5 : GetJSONPATH deps response.JSON
      req.Spec.HTTP.Request.PostRequest.PostRequestSet.FromKey = .ok (.string v))
    (hupdate : deps.updateEnvironment
      (env.SetKey req.Spec.HTTP.Request.PostRequest.PostRequestSet.Target v) = none) :
    (SendRequest lib deps b order1 order2 s requestID activeEnvironmentID).response
        = some response ∧
    (SendRequest lib deps b order1 order2 s requestID activeEnvironmentID).err = none ∧
    (SendRequest lib deps b order1 order2 s requestID activeEnvironmentID).updates
        = [env.SetKey req.Spec.HTTP.Request.PostRequest.PostRequestSet.Target v] ∧
    (∃ env1, GetEnvironment
        (SendRequest lib deps b order1 order2 s requestID activeEnvironmentID).environments
        activeEnvironmentID = some env1 ∧
      env1.GetKey req.Spec.HTTP.Request.PostRequest.PostRequestSet.Target = some v) := by
  rw [SendRequest_found lib deps b order1 order2 s requestID activeEnvironmentID req (some env)
      hreq (Or.inr ⟨hid, rfl, henv⟩), sendAndHandle_ok _ _ _ _ _ _ _ _ _ hsend,
    handlePostRequest_effective deps _ response env s.environments v h1 h2 h3 h4 h5, hupdate]
  refine ⟨rfl, rfl, rfl, _, GetEnvironment_writeEnvironment s.environments activeEnvironmentID
    env _ henv rfl, GetKey_SetKey env _ v⟩

/-- C13: SendRequest returns exactly one of a response and an error; when
UpdateEnvironment fails with the error e in the post-response step,
SendRequest returns that error and no response. -/
theorem SendRequest_response_or_error (lib : Lib) (deps : Deps) (b : Builtins)
    (order1 order2 : MapOrder) (s : Service) (requestID activeEnvironmentID : Str) :
    (((SendRequest lib deps b order1 order2 s requestID activeEnvironmentID).response.isSome
          = true ∧
        (SendRequest lib deps b order1 order2 s requestID activeEnvironmentID).err = none) ∨
      ((SendRequest lib deps b order1 order2 s requestID activeEnvironmentID).response = none ∧
        (SendRequest lib deps b order1 order2 s requestID activeEnvironmentID).err.isSome
          = true)) ∧
    (∀ (req : domain.Request) (env : domain.Environment) (response : Response) (v e : Str),
      GetRequest s.requests requestID = some req →
      activeEnvironmentID ≠ [] →
      GetEnvironment s.environments activeEnvironmentID = some env →
      (sendRequest lib deps b order1 order2 req.Spec.HTTP (some env)).result = .ok response →
      req.Spec.HTTP.Request.PostRequest ≠ zeroPostRequest →
      req.Spec.HTTP.Request.PostRequest.Kind = deps.PostRequestTypeSetEnv →
      req.Spec.HTTP.Request.PostRequest.PostRequestSet.From
        = deps.PostRequestSetFromResponseBody →
      (response.JSON ≠ [] ∧ response.IsJSON = true) →
      GetJSONPATH deps response.JSON
        req.Spec.HTTP.Request.PostRequest.PostRequestSet.FromKey = .ok (.string v) →
      deps.updateEnvironment
        (env.SetKey req.Spec.HTTP.Request.PostRequest.PostRequestSet.Target v) = some e →
      (SendRequest lib deps b order1 order2 s requestID activeEnvironmentID).response = none ∧
      (SendRequest lib deps b order1 order2 s requestID activeEnvironmentID).err
        = some (.library e)) := by
  refine ⟨SendRequest_one _ _ _ _ _ _ _ _, ?_⟩
  intro req env response v e hreq hid henv hsend h1 h2 h3 h4 h5 hupdate
  rw [SendRequest_found lib deps b order1 order2 s requestID activeEnvironmentID req (some env)
      hreq (Or.inr ⟨hid, rfl, henv⟩), sendAndHandle_ok _ _ _ _ _ _ _ _ _ hsend,
    handlePostRequest_effective deps _ response env s.environments v h1 h2 h3 h4 h5, hupdate]
  exact ⟨rfl, rfl⟩

/-- C14: SendRequest fails with a not-found error if and only if a lookup
fails: the request id is absent from the request store (whatever the
environment id), or the environment id is not empty and absent from the
environment store.  Then it returns no response, hands no request to the HTTP
client and leaves the environments unchanged.  With an empty environment id
and a stored request it proceeds with no environment: the request handed to
the HTTP client is assembled from the template resolved with the built-ins
only. -/
theorem SendRequest_not_found (lib : Lib) (deps : Deps) (b : Builtins)
    (order1 order2 : MapOrder) (s : Service) (requestID activeEnvironmentID : Str) :
    ((∃ e, (SendRequest lib deps b order1 order2 s requestID activeEnvironmentID).err = some e ∧
        e.isNotFound = true) ↔
      (GetRequest s.requests requestID = none ∨
        (activeEnvironmentID ≠ [] ∧
          GetEnvironment s.environments activeEnvironmentID = none))) ∧
    (GetRequest s.requests requestID = none →
      (SendRequest lib deps b order1 order2 s requestID activeEnvironmentID).err
        = some (.requestNotFound requestID)) ∧
    ((GetRequest s.requests requestID).isSome = true → activeEnvironmentID ≠ [] →
      GetEnvironment s.environments activeEnvironmentID = none →
      (SendRequest lib deps b order1 order2 s requestID activeEnvironmentID).err
        = some (.environmentNotFound activeEnvironmentID)) ∧
    ((GetRequest s.requests requestID = none ∨
        (activeEnvironmentID ≠ [] ∧
          GetEnvironment s.environments activeEnvironmentID = none)) →
      (SendRequest lib deps b order1 order2 s requestID activeEnvironmentID).response = none ∧
      (SendRequest lib deps b order1 order2 s requestID activeEnvironmentID).calls = [] ∧
      (SendRequest lib deps b order1 order2 s requestID activeEnvironmentID).environments
        = s.environments ∧
      (SendRequest lib deps b order1 order2 s requestID activeEnvironmentID).updates = []) ∧
    (∀ req hr, GetRequest s.requests requestID = some req → activeEnvironmentID = [] →
      prepareRequest lib b order1 order2 req.Spec.HTTP none = .ok hr →
      mergedVariables b order1 none = builtinVariables b ∧
      (SendRequest lib deps b order1 order2 s requestID activeEnvironmentID).calls = [hr]) := by
  cases hreq : GetRequest s.requests requestID with
  | none =>
    have e : SendRequest lib deps b order1 order2 s requestID activeEnvironmentID =
        { response := none, err := some (.requestNotFound requestID), requests := s.requests,
          environments := s.environments, calls := [], updates := [] } := by
      unfold SendRequest; rw [hreq]
    rw [e]
    refine ⟨⟨fun _ => Or.inl rfl, fun _ => ⟨_, rfl, rfl⟩⟩, fun _ => rfl, ?_, fun _ => ⟨rfl, rfl, rfl, rfl⟩, ?_⟩
    · intro h; cases h
    · intro req hr h; cases h
  | some req =>
    by_cases hid : activeEnvironmentID = []
    · have e := SendRequest_found lib deps b order1 order2 s requestID activeEnvironmentID req
        none hreq (Or.inl ⟨hid, rfl⟩)
      rw [e]
      refine ⟨⟨?_, ?_⟩, ?_, ?_, ?_, ?_⟩
      · rintro ⟨err, h1, h2⟩
        rw [sendAndHandle_err _ _ _ _ _ _ _ _ _ h1] at h2
        cases h2
      · rintro (h | ⟨h, _⟩)
        · cases h
        · exact absurd hid h
      · intro h; cases h
      · intro _ h; exact absurd hid h
      · rintro (h | ⟨h, _⟩)
        · cases h
        · exact absurd hid h
      · intro req1 hr h1 _ hprep
        injection h1 with h1
        subst h1
        refine ⟨rfl, ?_⟩
        have hc := (sendRequest_calls lib deps b order1 order2 req.Spec.HTTP none).1 hr hprep
        cases hs : (sendRequest lib deps b order1 order2 req.Spec.HTTP none).result with
        | error e1 => rw [sendAndHandle_error _ _ _ _ _ _ _ _ _ hs]; exact hc
        | ok response => rw [sendAndHandle_ok _ _ _ _ _ _ _ _ _ hs]; exact hc
    · cases henv : GetEnvironment s.environments activeEnvironmentID with
      | none =>
        have e : SendRequest lib deps b order1 order2 s requestID activeEnvironmentID =
            { response := none, err := some (.environmentNotFound activeEnvironmentID),
              requests := s.requests, environments := s.environments, calls := [],
              updates := [] } := by
          unfold SendRequest; rw [hreq]; dsimp only; rw [if_pos hid, henv]
        rw [e]
        refine ⟨⟨fun _ => Or.inr ⟨hid, rfl⟩, fun _ => ⟨_, rfl, rfl⟩⟩, ?_, fun _ _ _ => rfl,
          fun _ => ⟨rfl, rfl, rfl, rfl⟩, ?_⟩
        · intro h; cases h
        · intro req1 hr _ h; exact absurd h hid
      | some env =>
        have e := SendRequest_found lib deps b order1 order2 s requestID activeEnvironmentID req
          (some env) hreq (Or.inr ⟨hid, rfl, henv⟩)
        rw [e]
        refine ⟨⟨?_, ?_⟩, ?_, ?_, ?_, ?_⟩
        · rintro ⟨err, h1, h2⟩
          rw [sendAndHandle_err _ _ _ _ _ _ _ _ _ h1] at h2
          cases h2
        · rintro (h | ⟨_, h⟩)
          · cases h
          · cases h
        · intro h; cases h
        · intro _ _ h; cases h
        · rintro (h | ⟨_, h⟩)
          · cases h
          · cases h
        · intro req1 hr _ h; exact absurd h hid

/-- C11 (witness): the stored template has the action "set `sid` from
`session.id`", the server answers `not json`: SendRequest returns the
response with no error, the environments are unchanged and UpdateEnvironment
is not called. -/
theorem SendRequest_post_action_conditions_witness :
    (SendRequest sampleLib (sampleDeps (str "not json") none) sampleBuiltins
        (fun m => m) (fun m => m) sampleService (str "r1") (str "e1")).response
      = some { StatusCode := 200,
               Headers := [(str "Content-Type", str "application/json")],
               Cookies := [], Body := str "not json", TimePassed := 12,
               IsJSON := false, JSON := [] } ∧
    (SendRequest sampleLib (sampleDeps (str "not json") none) sampleBuiltins
        (fun m => m) (fun m => m) sampleService (str "r1") (str "e1")).err = none ∧
    (SendRequest sampleLib (sampleDeps (str "not json") none) sampleBuiltins
        (fun m => m) (fun m => m) sampleService (str "r1") (str "e1")).environments
      = sampleService.environments ∧
    (SendRequest sampleLib (sampleDeps (str "not json") none) sampleBuiltins
        (fun m => m) (fun m => m) sampleService (str "r1") (str "e1")).updates = [] :=
  (SendRequest_post_action_conditions sampleLib (sampleDeps (str "not json") none)
    sampleBuiltins (fun m => m) (fun m => m) sampleService (str "r1") (str "e1")
    (sampleRequest (str "r1") (str "https://api.example.com/login")
      (sampleSetEnv (str "session.id") (str "sid")))
    (some { ID := str "e1",
            Spec := { Values := [{ Key := str "host", Value := str "api.example.com" }] } })
    { StatusCode := 200, Headers := [(str "Content-Type", str "application/json")],
      Cookies := [], Body := str "not json", TimePassed := 12, IsJSON := false, JSON := [] }
    rfl (Or.inr ⟨by decide, rfl, rfl⟩) rfl (by intro h; cases h)).1
    (by rintro ⟨_, _, _, h4, _⟩; exact absurd h4.2 (by decide))

/-- C12 (witness): action "set `sid` from `session.id`", response body
`{"session":{"id":"xyz"}}`, environment `e1` present, UpdateEnvironment
succeeds: a response is returned, one UpdateEnvironment call is issued, and
the stored environment gives xyz for sid. -/
theorem SendRequest_sets_environment_key_witness :
    ((SendRequest sampleLib (sampleDeps sampleBody none) sampleBuiltins
        (fun m => m) (fun m => m) sampleService (str "r1") (str "e1")).response.isSome = true) ∧
    (SendRequest sampleLib (sampleDeps sampleBody none) sampleBuiltins
        (fun m => m) (fun m => m) sampleService (str "r1") (str "e1")).err = none ∧
    (SendRequest sampleLib (sampleDeps sampleBody none) sampleBuiltins
        (fun m => m) (fun m => m) sampleService (str "r1") (str "e1")).updates.length = 1 ∧
    (∃ env1, GetEnvironment
        (SendRequest sampleLib (sampleDeps sampleBody none) sampleBuiltins
          (fun m => m) (fun m => m) sampleService (str "r1") (str "e1")).environments
        (str "e1") = some env1 ∧
      env1.GetKey (str "sid") = some (str "xyz")) := by
  obtain ⟨h1, h2, h3, h4⟩ := SendRequest_sets_environment_key sampleLib
    (sampleDeps sampleBody none) sampleBuiltins (fun m => m) (fun m => m) sampleService
    (str "r1") (str "e1")
    (sampleRequest (str "r1") (str "https://api.example.com/login")
      (sampleSetEnv (str "session.id") (str "sid")))
    { ID := str "e1",
      Spec := { Values := [{ Key := str "host", Value := str "api.example.com" }] } }
    { StatusCode := 200, Headers := [(str "Content-Type", str "application/json")],
      Cookies := [], Body := sampleBody, TimePassed := 12, IsJSON := true,
      JSON := indentScan 0 false false false sampleBody }
    (str "xyz") rfl (by decide) rfl rfl (by decide) rfl rfl (by decide) rfl rfl
  refine ⟨?_, h2, ?_, h4⟩
  · rw [h1]; rfl
  · rw [h3]; rfl

/-- C13 (witness): as before, but UpdateEnvironment fails with `disk full`:
SendRequest returns that error and no response. -/
theorem SendRequest_response_or_error_witness :
    (SendRequest sampleLib (sampleDeps sampleBody (some (str "disk full"))) sampleBuiltins
        (fun m => m) (fun m => m) sampleService (str "r1") (str "e1")).response = none ∧
    (SendRequest sampleLib (sampleDeps sampleBody (some (str "disk full"))) sampleBuiltins
        (fun m => m) (fun m => m) sampleService (str "r1") (str "e1")).err
      = some (.library (str "disk full")) :=
  (SendRequest_response_or_error sampleLib (sampleDeps sampleBody (some (str "disk full")))
    sampleBuiltins (fun m => m) (fun m => m) sampleService (str "r1") (str "e1")).2
    (sampleRequest (str "r1") (str "https://api.example.com/login")
      (sampleSetEnv (str "session.id") (str "sid")))
    { ID := str "e1",
      Spec := { Values := [{ Key := str "host", Value := str "api.example.com" }] } }
    { StatusCode := 200, Headers := [(str "Content-Type", str "application/json")],
      Cookies := [], Body := sampleBody, TimePassed := 12, IsJSON := true,
      JSON := indentScan 0 false false false sampleBody }
    (str "xyz") (str "disk full") rfl (by decide) rfl rfl (by decide) rfl rfl (by decide) rfl rfl

/-- C14 (witness): the request id `nope` is not stored: SendRequest fails
with the request-not-found error, whatever the environment id, and hands no
request to the HTTP client. -/
theorem SendRequest_not_found_witness :
    (SendRequest sampleLib (sampleDeps sampleBody none) sampleBuiltins
        (fun m => m) (fun m => m) sampleService (str "nope") (str "e1")).err
      = some (.requestNotFound (str "nope")) ∧
    (SendRequest sampleLib (sampleDeps sampleBody none) sampleBuiltins
        (fun m => m) (fun m => m) sampleService (str "nope") (str "e1")).response = none ∧
    (SendRequest sampleLib (sampleDeps sampleBody none) sampleBuiltins
        (fun m => m) (fun m => m) sampleService (str "nope") (str "e1")).calls = [] ∧
    (SendRequest sampleLib (sampleDeps sampleBody none) sampleBuiltins
        (fun m => m) (fun m => m) sampleService (str "nope") (str "e1")).environments
      = sampleService.environments ∧
    (SendRequest sampleLib (sampleDeps sampleBody none) sampleBuiltins
        (fun m => m) (fun m => m) sampleService (str "nope") (str "e1")).updates = [] :=
  ⟨(SendRequest_not_found sampleLib (sampleDeps sampleBody none) sampleBuiltins
      (fun m => m) (fun m => m) sampleService (str "nope") (str "e1")).2.1 rfl,
   (SendRequest_not_found sampleLib (sampleDeps sampleBody none) sampleBuiltins
      (fun m => m) (fun m => m) sampleService (str "nope") (str "e1")).2.2.2.1 (Or.inl rfl)⟩

-- ---------------------------------------------------------------------------
-- Resolution of texts made of plain text and placeholders
-- ---------------------------------------------------------------------------

theorem applyVariable_eq_mapTexts (k v : Str) (req : HTTPRequestSpec) :
    applyVariable k v req = mapTexts (substitute k v) req := by
  have e : substituteValue k v = fun kv => { Key := kv.Key, Value := substitute k v kv.Value } :=
    funext (substituteValue_eq k v)
  simp only [applyVariable, mapTexts, substituteAuth_eq, e]

theorem mapTexts_mapTexts (f g : Str → Str) (req : HTTPRequestSpec) :
    mapTexts g (mapTexts f req) = mapTexts (fun x => g (f x)) req := by
  simp [mapTexts, Function.comp_def, Option.map_map]

theorem mapTexts_id (req : HTTPRequestSpec) : mapTexts (fun x => x) req = req := by
  obtain ⟨method, target, ⟨headers, pathParams, queryParams, ⟨data, form, urlenc⟩,
    ⟨kind, basic, token, apikey⟩, post⟩⟩ := req
  simp [mapTexts]

theorem applyVariables_fold_eq_mapTexts (l : VarMap) (req : HTTPRequestSpec) :
    l.foldl (fun r kv => applyVariable kv.1 kv.2 r) req = mapTexts (substituteAll l) req := by
  induction l generalizing req with
  | nil =>
    have e : substituteAll [] = fun x => x := rfl
    rw [e, mapTexts_id]
    rfl
  | cons kv l ih =>
    rw [List.foldl_cons, ih, applyVariable_eq_mapTexts, mapTexts_mapTexts]
    rfl

theorem map_value_congr (f g : Str → Str) (l : List KeyValue)
    (h : ∀ (i : Nat) (kv : KeyValue), l[i]? = some kv → f kv.Value = g kv.Value) :
    l.map (fun kv => ({ Key := kv.Key, Value := f kv.Value } : KeyValue))
      = l.map (fun kv => ({ Key := kv.Key, Value := g kv.Value } : KeyValue)) := by
  apply List.map_congr_left
  intro kv hkv
  obtain ⟨i, hi, hget⟩ := List.mem_iff_getElem.mp hkv
  have h1 : l[i]? = some kv := by rw [List.getElem?_eq_getElem hi, hget]
  rw [h i kv h1]

/-- Two functions that agree on every text of a template give the same
template. -/
theorem mapTexts_congr (f g : Str → Str) (req : HTTPRequestSpec)
    (h : ∀ (fld : Field) (x : Str), fld.get req = some x → f x = g x) :
    mapTexts f req = mapTexts g req := by
  obtain ⟨method, target, ⟨headers, pathParams, queryParams, ⟨data, form, urlenc⟩,
    ⟨kind, basic, token, apikey⟩, post⟩⟩ := req
  have hurl := h .url target rfl
  have hdata := h .bodyData data rfl
  have hh := map_value_congr f g headers
    (fun i kv hi => h (.header i) kv.Value (by simp [Field.get, hi]))
  have hp := map_value_congr f g pathParams
    (fun i kv hi => h (.pathParam i) kv.Value (by simp [Field.get, hi]))
  have hq := map_value_congr f g queryParams
    (fun i kv hi => h (.queryParam i) kv.Value (by simp [Field.get, hi]))
  have hf := map_value_congr f g form
    (fun i kv hi => h (.formBody i) kv.Value (by simp [Field.get, hi]))
  have hu := map_value_congr f g urlenc
    (fun i kv hi => h (.urlEncoded i) kv.Value (by simp [Field.get, hi]))
  have ht : token.map (fun t => ({ Token := f t.Token } : TokenAuth))
      = token.map (fun t => ({ Token := g t.Token } : TokenAuth)) := by
    cases token with
    | none => rfl
    | some t => simp [h .bearerToken t.Token rfl]
  have hb : basic.map (fun c => (⟨f c.Username, f c.Password⟩ : BasicAuth))
      = basic.map (fun c => (⟨g c.Username, g c.Password⟩ : BasicAuth)) := by
    cases basic with
    | none => rfl
    | some c => simp [h .basicUsername c.Username rfl, h .basicPassword c.Password rfl]
  have hk : apikey.map (fun c => (⟨f c.Key, f c.Value⟩ : APIKeyAuth))
      = apikey.map (fun c => (⟨g c.Key, g c.Value⟩ : APIKeyAuth)) := by
    cases apikey with
    | none => rfl
    | some c => simp [h .apiKeyName c.Key rfl, h .apiKeyValue c.Value rfl]
  simp only [mapTexts, hurl, hdata, hh, hp, hq, hf, hu, ht, hb, hk]

/-- The placeholder of another brace-free name is copied by `replaceAll`. -/
theorem replaceAll_placeholder_other (n k v rest : Str) (hn : braceFree n = true)
    (hk : braceFree k = true) (hne : k ≠ n) :
    replaceAll (placeholder n ++ rest) (placeholder k) v
      = placeholder n ++ replaceAll rest (placeholder k) v := by
  have hold := placeholder_ne_nil k
  have hfirst : ¬ placeholder k <+: lbrace :: (lbrace :: ((n ++ [rbrace, rbrace]) ++ rest)) := by
    intro h
    simp only [placeholder, List.cons_prefix_cons, true_and] at h
    have h1 : (k ++ [rbrace]) <+: (n ++ rbrace :: (rbrace :: rest)) := by
      have e : k ++ [rbrace, rbrace] = (k ++ [rbrace]) ++ [rbrace] := by simp
      rw [e] at h
      have := (List.prefix_append _ _).trans h
      simpa using this
    exact hne (close1_prefix_inj _ n k hn hk h1)
  have hsecond : ¬ placeholder k <+: lbrace :: ((n ++ [rbrace, rbrace]) ++ rest) := by
    intro h
    simp only [placeholder, List.cons_prefix_cons, true_and] at h
    cases n with
    | nil =>
      simp only [List.nil_append, List.cons_append, List.cons_prefix_cons] at h
      exact lbrace_ne_rbrace h.1
    | cons c n1 =>
      simp only [List.cons_append, List.cons_prefix_cons] at h
      exact (braceFree_cons.mp hn).1.1 h.1.symm
  have hclose : ∀ c ∈ n ++ [rbrace, rbrace], c ≠ lbrace := by
    intro c hc
    simp only [List.mem_append, List.mem_cons, List.mem_singleton, List.not_mem_nil,
      or_false] at hc
    rcases hc with hc | hc | hc
    · exact not_lbrace_of_braceFree hn c hc
    · rw [hc]; exact fun e => lbrace_ne_rbrace e.symm
    · rw [hc]; exact fun e => lbrace_ne_rbrace e.symm
  have e1 : placeholder n ++ rest = lbrace :: (lbrace :: ((n ++ [rbrace, rbrace]) ++ rest)) := by
    simp [placeholder]
  have e2 : placeholder k = lbrace :: (lbrace :: (k ++ [rbrace, rbrace])) := rfl
  have hcopy : replaceAll ((n ++ [rbrace, rbrace]) ++ rest) (placeholder k) v
      = (n ++ [rbrace, rbrace]) ++ replaceAll rest (placeholder k) v := by
    rw [e2]
    exact replaceAll_copy lbrace _ v (n ++ [rbrace, rbrace]) rest hclose
  rw [e1, replaceAll_step _ _ _ _ hold hfirst, replaceAll_step _ _ _ _ hold hsecond, hcopy]
  simp [placeholder]

/-- One variable acts piece by piece on a text made of plain pieces. -/
theorem substitute_renderText (k v : Str) (hk : braceFree k = true) (segs : List Segment)
    (hsegs : ∀ s ∈ segs, s.plain = true) :
    substitute k v (renderText segs)
      = renderText (segs.map (fun s => if s = .token k then .text v else s)) := by
  rw [substitute_eq_replaceAll]
  induction segs with
  | nil => exact replaceAll_nil _ _ (placeholder_ne_nil k)
  | cons s segs ih =>
    have ih1 := ih (fun s1 h1 => hsegs s1 (List.mem_cons_of_mem _ h1))
    have hs := hsegs s (List.mem_cons_self _ _)
    cases s with
    | text t =>
      have e2 : placeholder k = lbrace :: (lbrace :: (k ++ [rbrace, rbrace])) := rfl
      simp only [renderText, List.flatMap_cons, Segment.renderVar, List.map_cons, reduceCtorEq,
        if_false] at ih1 ⊢
      conv_lhs => rw [e2, replaceAll_copy lbrace _ v t _ (not_lbrace_of_braceFree hs), ← e2]
      rw [ih1]
    | token n =>
      by_cases hkn : n = k
      · subst hkn
        simp only [renderText, List.flatMap_cons, Segment.renderVar, List.map_cons, if_true]
          at ih1 ⊢
        rw [replaceAll_match _ _ _ (placeholder_ne_nil n), ih1]
      · have hne : ¬ (Segment.token n = Segment.token k) := by
          intro e; injection e with e; exact hkn e
        simp only [renderText, List.flatMap_cons, Segment.renderVar, List.map_cons, hne,
          if_false] at ih1 ⊢
        rw [replaceAll_placeholder_other n k v _ hs hk (fun e => hkn e.symm), ih1]

theorem resolveVar_cons (p : Str × Str) (ps : VarMap) (s : Segment) :
    Segment.resolveVar (p :: ps) s
      = Segment.resolveVar ps (if s = .token p.1 then .text p.2 else s) := by
  cases s with
  | text t => simp [Segment.resolveVar]
  | token n =>
    by_cases h : p.1 = n
    · simp [Segment.resolveVar, List.find?, h]
    · have h2 : ¬ n = p.1 := fun e => h e.symm
      simp [Segment.resolveVar, List.find?, h, h2]

/-- The variables substituted one after the other resolve every placeholder
of a text made of plain pieces. -/
theorem substituteAll_renderText (l : VarMap)
    (hl : ∀ kv ∈ l, braceFree kv.1 = true ∧ braceFree kv.2 = true) :
    ∀ (segs : List Segment), (∀ s ∈ segs, s.plain = true) →
      substituteAll l (renderText segs) = renderText (segs.map (Segment.resolveVar l)) := by
  induction l with
  | nil =>
    intro segs _
    have e : Segment.resolveVar [] = id := by
      funext s; cases s <;> simp [Segment.resolveVar]
    simp [substituteAll, e]
  | cons p ps ih =>
    intro segs hsegs
    have hp := hl p (List.mem_cons_self _ _)
    rw [substituteAll_cons, substitute_renderText p.1 p.2 hp.1 segs hsegs,
      ih (fun kv hkv => hl kv (List.mem_cons_of_mem _ hkv)), List.map_map]
    · congr 1
      apply List.map_congr_left
      intro s _
      simp [resolveVar_cons]
    · intro s hs
      rw [List.mem_map] at hs
      obtain ⟨s0, hs0, rfl⟩ := hs
      split
      · exact hp.2
      · exact hsegs s0 hs0

/-- In maps with distinct keys that hold the same entries, looking a name up
gives the same entry. -/
theorem find_key_perm (l1 l2 : VarMap) (n : Str) (hl : (l1.map Prod.fst).Nodup)
    (hp : l1.Perm l2) :
    l1.find? (fun kv => decide (kv.1 = n)) = l2.find? (fun kv => decide (kv.1 = n)) := by
  cases h1 : l1.find? (fun kv => decide (kv.1 = n)) with
  | none =>
    rw [List.find?_eq_none] at h1
    symm
    rw [List.find?_eq_none]
    exact fun x hx => h1 x (hp.mem_iff.mpr hx)
  | some kv =>
    have hk : kv.1 = n := by simpa using List.find?_some h1
    have hmem : kv ∈ l1 := List.mem_of_find?_eq_some h1
    cases h2 : l2.find? (fun kv => decide (kv.1 = n)) with
    | none =>
      rw [List.find?_eq_none] at h2
      exact absurd (by simpa using hk) (h2 kv (hp.mem_iff.mp hmem))
    | some kv2 =>
      have hk2 : kv2.1 = n := by simpa using List.find?_some h2
      have hmem2 : kv2 ∈ l1 := hp.mem_iff.mpr (List.mem_of_find?_eq_some h2)
      have hv : kv.2 = kv2.2 :=
        nodup_keys_unique l1 n kv.2 kv2.2 hl (by rw [← hk]; exact hmem)
          (by rw [← hk2]; exact hmem2)
      congr 1
      exact Prod.ext (hk.trans hk2.symm) hv

theorem resolveVar_perm (l1 l2 : VarMap) (hl : (l1.map Prod.fst).Nodup) (hp : l1.Perm l2)
    (s : Segment) : Segment.resolveVar l1 s = Segment.resolveVar l2 s := by
  cases s with
  | text t => rfl
  | token n =>
    simp only [Segment.resolveVar]
    rw [find_key_perm l1 l2 n hl hp]

theorem mapSet_mem (m : VarMap) (k v : Str) (p : Str × Str) (h : p ∈ mapSet m k v) :
    p ∈ m ∨ p = (k, v) := by
  induction m with
  | nil =>
    simp only [mapSet, List.mem_singleton] at h
    exact Or.inr h
  | cons e m ih =>
    obtain ⟨k0, v0⟩ := e
    by_cases h0 : k0 = k
    · simp only [mapSet, h0, if_true, List.mem_cons] at h
      rcases h with h | h
      · exact Or.inr h
      · exact Or.inl (List.mem_cons_of_mem _ h)
    · simp only [mapSet, h0, if_false, List.mem_cons] at h
      rcases h with h | h
      · exact Or.inl (by rw [h]; exact List.mem_cons_self _ _)
      · rcases ih h with h1 | h1
        · exact Or.inl (List.mem_cons_of_mem _ h1)
        · exact Or.inr h1

theorem addEnvValues_mem (values : List KeyValue) (m : VarMap) (p : Str × Str)
    (h : p ∈ addEnvValues m values) :
    p ∈ m ∨ ∃ kv ∈ values, p = (kv.Key, kv.Value) := by
  induction values generalizing m with
  | nil => exact Or.inl h
  | cons kv values ih =>
    have h1 : p ∈ addEnvValues (mapSet m kv.Key kv.Value) values := h
    rcases ih _ h1 with h2 | ⟨kv1, hkv1, h2⟩
    · rcases mapSet_mem m kv.Key kv.Value p h2 with h3 | h3
      · exact Or.inl h3
      · exact Or.inr ⟨kv, List.mem_cons_self _ _, h3⟩
    · exact Or.inr ⟨kv1, List.mem_cons_of_mem _ hkv1, h2⟩

/-- Environment values without braces are not changed by the first loop. -/
theorem resolveEnvValues_braceFree (visit : VarMap) (values : List KeyValue)
    (h : ∀ kv ∈ values, braceFree kv.Value = true) : resolveEnvValues visit values = values := by
  rw [resolveEnvValues_eq]
  conv_rhs => rw [← List.map_id values]
  apply List.map_congr_left
  intro kv hkv
  rw [substituteAll_braceFree visit kv.Value (h kv hkv)]
  rfl

theorem mergedVariables_braceFree_env (b : Builtins) (order1 : MapOrder) (env : Option EnvSpec)
    (henv : ∀ e, env = some e → ∀ kv ∈ e.Values,
      braceFree kv.Key = true ∧ braceFree kv.Value = true) :
    mergedVariables b order1 env = mergedVariables b (fun m => m) env := by
  cases env with
  | none => rfl
  | some e =>
    have h := fun kv hkv => (henv e rfl kv hkv).2
    simp only [mergedVariables, resolvedEnv, Option.map_some',
      resolveEnvValues_braceFree _ e.Values h]

theorem mergedVariables_entries_braceFree (b : Builtins) (order1 : MapOrder)
    (env : Option EnvSpec)
    (hb : braceFree b.randomUUID4 = true ∧ braceFree b.timeNow = true
      ∧ braceFree b.unixTimestamp = true)
    (henv : ∀ e, env = some e → ∀ kv ∈ e.Values,
      braceFree kv.Key = true ∧ braceFree kv.Value = true) :
    ∀ p ∈ mergedVariables b order1 env, braceFree p.1 = true ∧ braceFree p.2 = true := by
  have hbuiltin : ∀ p ∈ builtinVariables b, braceFree p.1 = true ∧ braceFree p.2 = true := by
    intro p hp
    simp only [builtinVariables, List.mem_cons, List.mem_singleton, List.not_mem_nil,
      or_false] at hp
    rcases hp with rfl | rfl | rfl
    · exact ⟨builtin_name_braceFree "randomUUID4".toList (by decide), hb.1⟩
    · exact ⟨builtin_name_braceFree "timeNow".toList (by decide), hb.2.1⟩
    · exact ⟨builtin_name_braceFree "unixTimestamp".toList (by decide), hb.2.2⟩
  intro p hp
  rw [mergedVariables_braceFree_env b order1 env henv] at hp
  cases env with
  | none => exact hbuiltin p hp
  | some e =>
    have h := fun kv hkv => (henv e rfl kv hkv).2
    simp only [mergedVariables, resolvedEnv, Option.map_some',
      resolveEnvValues_braceFree _ e.Values h] at hp
    rcases addEnvValues_mem e.Values _ p hp with h1 | ⟨kv, hkv, h1⟩
    · exact hbuiltin p h1
    · rw [h1]; exact henv e rfl kv hkv

/-- A brace-free text holds no placeholder and does not end with the beginning
of one. -/
theorem apart_of_braceFree (v : Str) (hv : braceFree v = true) : NoToken v ∧ ¬ Opens v := by
  constructor
  · intro k _
    exact not_infix_of_not_mem lbrace _ v (not_lbrace_of_braceFree hv)
  · rintro ⟨a, k, rest, ha, _, _, hsuf, e⟩
    obtain ⟨c, cs, rfl⟩ := List.exists_cons_of_ne_nil ha
    have hc : c = lbrace := by
      simp only [placeholder, List.cons_append] at e
      injection e
    have hmem : c ∈ v := hsuf.subset (List.mem_cons_self _ _)
    exact not_lbrace_of_braceFree hv c hmem hc

/-- A text without two opening braces in a row holds no placeholder. -/
theorem noToken_of_no_opening (g : Str) (h : contains g [lbrace, lbrace] = false) :
    NoToken g := by
  intro k _ hk
  rw [contains_eq_false_iff] at h
  apply h
  have hp : [lbrace, lbrace] <+: placeholder k := ⟨k ++ [rbrace, rbrace], rfl⟩
  exact hp.isInfix.trans hk

/-- A text without two opening braces in a row that does not end with an
opening brace does not end with the beginning of a placeholder. -/
theorem not_opens_of_no_opening (g : Str) (h : contains g [lbrace, lbrace] = false)
    (hend : ¬ [lbrace] <:+ g) : ¬ Opens g := by
  rintro ⟨a, k, rest, ha, _, _, hsuf, e⟩
  rw [contains_eq_false_iff] at h
  obtain ⟨c, cs, rfl⟩ := List.exists_cons_of_ne_nil ha
  simp only [placeholder, List.cons_append] at e
  injection e with hc e
  subst hc
  cases cs with
  | nil => exact hend hsuf
  | cons d ds =>
    simp only [List.cons_append] at e
    injection e with hd e
    subst hd
    apply h
    have hp : [lbrace, lbrace] <+: lbrace :: lbrace :: ds := ⟨ds, rfl⟩
    exact hp.isInfix.trans hsuf.isInfix

/-- One variable passes over a text that holds no placeholder and does not end
with the beginning of one, whatever follows the text. -/
theorem replaceAll_apart_text (t rest k v : Str) (hk : braceFree k = true)
    (ht : NoToken t) (hopen : ¬ Opens t) :
    replaceAll (t ++ rest) (placeholder k) v = t ++ replaceAll rest (placeholder k) v := by
  have hold := placeholder_ne_nil k
  rw [replaceAll_append_separate _ _ _ hold t, replaceAll_of_absent _ _ hold t (ht k hk)]
  intro a1 a2 e ha h
  by_contra hn
  obtain ⟨t2, ht2, e2, _⟩ := straddle_split _ a2 _ h hn
  exact hopen ⟨a2, k, t2, ha, ht2, hk, ⟨a1, e.symm⟩, e2.symm⟩

/-- One variable acts piece by piece on a text whose placeholders are not
nested. -/
theorem substitute_apart (k v : Str) (hk : braceFree k = true) (tail : Str)
    (htail : NoToken tail) (segs : List Segment) (hsegs : ∀ s ∈ segs, s.apart) :
    substitute k v (renderText segs ++ tail)
      = renderText (segs.map (fun s => if s = .token k then .text v else s)) ++ tail := by
  rw [substitute_eq_replaceAll]
  induction segs with
  | nil =>
    exact replaceAll_of_absent _ _ (placeholder_ne_nil k) tail (htail k hk)
  | cons s segs ih =>
    have ih1 := ih (fun s1 h1 => hsegs s1 (List.mem_cons_of_mem _ h1))
    have hs := hsegs s (List.mem_cons_self _ _)
    cases s with
    | text t =>
      simp only [renderText, List.flatMap_cons, Segment.renderVar, List.map_cons, reduceCtorEq,
        if_false, List.append_assoc] at ih1 ⊢
      rw [replaceAll_apart_text t _ k v hk hs.1 hs.2, ih1]
    | token n =>
      by_cases hkn : n = k
      · subst hkn
        simp only [renderText, List.flatMap_cons, Segment.renderVar, List.map_cons, if_true,
          List.append_assoc] at ih1 ⊢
        rw [replaceAll_match _ _ _ (placeholder_ne_nil n), ih1]
      · have hne : ¬ (Segment.token n = Segment.token k) := by
          intro e; injection e with e; exact hkn e
        simp only [renderText, List.flatMap_cons, Segment.renderVar, List.map_cons, hne,
          if_false, List.append_assoc] at ih1 ⊢
        rw [replaceAll_placeholder_other n k v _ hs hk (fun e => hkn e.symm), ih1]

/-- The variables substituted one after the other resolve every placeholder
of a text whose placeholders are not nested. -/
theorem substituteAll_apart (l : VarMap)
    (hl : ∀ kv ∈ l, braceFree kv.1 = true ∧ braceFree kv.2 = true) (tail : Str)
    (htail : NoToken tail) :
    ∀ (segs : List Segment), (∀ s ∈ segs, s.apart) →
      substituteAll l (renderText segs ++ tail)
        = renderText (segs.map (Segment.resolveVar l)) ++ tail := by
  induction l with
  | nil =>
    intro segs _
    have e : Segment.resolveVar [] = id := by
      funext s; cases s <;> simp [Segment.resolveVar]
    simp [substituteAll, e]
  | cons p ps ih =>
    intro segs hsegs
    have hp := hl p (List.mem_cons_self _ _)
    rw [substituteAll_cons, substitute_apart p.1 p.2 hp.1 tail htail segs hsegs,
      ih (fun kv hkv => hl kv (List.mem_cons_of_mem _ hkv)), List.map_map]
    · congr 2
      apply List.map_congr_left
      intro s _
      simp [resolveVar_cons]
    · intro s hs
      rw [List.mem_map] at hs
      obtain ⟨s0, hs0, rfl⟩ := hs
      split
      · exact apart_of_braceFree p.2 hp.2
      · exact hsegs s0 hs0
/-- C17 (amended): for fixed brace-free built-in values and every environment
whose names and values hold no brace character, each text of a template in
which no placeholder is nested in another one is resolved by applyVariables to
the same text for every order in which the two loops visit the map, whatever
the other texts of the template are; when every text of the template is of
that kind, the whole returned template is the same for every order.  A text
has no nested placeholder when it splits into placeholders `{{name}}` of
brace-free names and the texts before and after them, where these texts hold
no placeholder and no text before a placeholder ends with the beginning of
one; the texts may hold braces, as `/items/{id}` and a JSON body do. -/
theorem applyVariables_order_independent (b : Builtins) (order1 order2 order3 order4 : MapOrder)
    (req : HTTPRequestSpec) (env : Option EnvSpec)
    (h2 : IsRange order2) (h4 : IsRange order4)
    (hb : braceFree b.randomUUID4 = true ∧ braceFree b.timeNow = true
      ∧ braceFree b.unixTimestamp = true)
    (henv : ∀ e, env = some e → ∀ kv ∈ e.Values,
      braceFree kv.Key = true ∧ braceFree kv.Value = true) :
    (∀ (fld : Field) (segs : List Segment) (tail : Str),
      (∀ s ∈ segs, s.apart) → NoToken tail → fld.get req = some (renderText segs ++ tail) →
      fld.get (applyVariables b order1 order2 req env).1
        = fld.get (applyVariables b order3 order4 req env).1) ∧
    ((∀ (fld : Field) (x : Str), fld.get req = some x →
        ∃ segs tail, (∀ s ∈ segs, s.apart) ∧ NoToken tail ∧ x = renderText segs ++ tail) →
      (applyVariables b order1 order2 req env).1 = (applyVariables b order3 order4 req env).1) := by
  have e1 := mergedVariables_braceFree_env b order1 env henv
  have e3 := mergedVariables_braceFree_env b order3 env henv
  have hentries := mergedVariables_entries_braceFree b (fun m => m) env hb henv
  have hnodup := mergedVariables_nodup b (fun m => m) env
  have p2 := h2 (mergedVariables b (fun m => m) env)
  have p4 := h4 (mergedVariables b (fun m => m) env)
  have key : ∀ (segs : List Segment) (tail : Str), (∀ s ∈ segs, s.apart) → NoToken tail →
      substituteAll (order2 (mergedVariables b (fun m => m) env)) (renderText segs ++ tail)
        = substituteAll (order4 (mergedVariables b (fun m => m) env)) (renderText segs ++ tail) := by
    intro segs tail hsegs htail
    rw [substituteAll_apart _ (fun kv hkv => hentries kv (p2.mem_iff.mp hkv)) tail htail segs hsegs,
      substituteAll_apart _ (fun kv hkv => hentries kv (p4.mem_iff.mp hkv)) tail htail segs hsegs]
    congr 2
    apply List.map_congr_left
    intro s _
    exact resolveVar_perm _ _ ((p2.map Prod.fst).nodup_iff.mpr hnodup) (p2.trans p4.symm) s
  constructor
  · intro fld segs tail hsegs htail hx
    rw [get_applyVariables, get_applyVariables, e1, e3, hx, Option.map_some', Option.map_some',
      key segs tail hsegs htail]
  · intro hflat
    simp only [applyVariables, e1, e3, applyVariables_fold_eq_mapTexts]
    apply mapTexts_congr
    intro fld x hx
    obtain ⟨segs, tail, hsegs, htail, rfl⟩ := hflat fld x hx
    exact key segs tail hsegs htail

/-- C17 (witness): with the environment host = api.example.com, user = u1,
visiting the map in the order of insertion and in the reverse order gives the
same template for the URL `https://{{host}}/items/{id}` with the JSON body
`{"name":"{{user}}","tags":{"a":1}}`, and the same body for that JSON body
beside the URL `{{x{{host}}y}}`, whose placeholders are nested. -/
theorem applyVariables_order_independent_witness :
    (applyVariables sampleBuiltins (fun m => m) (fun m => m)
        (sampleTemplateWithBody
          (str "https://" ++ placeholder (str "host") ++ str "/items/\x7bid\x7d")
          (str "\x7b\x22name\x22:\x22" ++ placeholder (str "user")
            ++ str "\x22,\x22tags\x22:\x7b\x22a\x22:1\x7d\x7d"))
        (some { Values := [{ Key := str "host", Value := str "api.example.com" },
                           { Key := str "user", Value := str "u1" }] })).1
      = (applyVariables sampleBuiltins List.reverse List.reverse
        (sampleTemplateWithBody
          (str "https://" ++ placeholder (str "host") ++ str "/items/\x7bid\x7d")
          (str "\x7b\x22name\x22:\x22" ++ placeholder (str "user")
            ++ str "\x22,\x22tags\x22:\x7b\x22a\x22:1\x7d\x7d"))
        (some { Values := [{ Key := str "host", Value := str "api.example.com" },
                           { Key := str "user", Value := str "u1" }] })).1 ∧
    Field.get .bodyData (applyVariables sampleBuiltins (fun m => m) (fun m => m)
        (sampleTemplateWithBody
          (str "\x7b\x7bx" ++ placeholder (str "host") ++ str "y\x7d\x7d")
          (str "\x7b\x22name\x22:\x22" ++ placeholder (str "user")
            ++ str "\x22,\x22tags\x22:\x7b\x22a\x22:1\x7d\x7d"))
        (some { Values := [{ Key := str "host", Value := str "api.example.com" },
                           { Key := str "user", Value := str "u1" }] })).1
      = Field.get .bodyData (applyVariables sampleBuiltins List.reverse List.reverse
        (sampleTemplateWithBody
          (str "\x7b\x7bx" ++ placeholder (str "host") ++ str "y\x7d\x7d")
          (str "\x7b\x22name\x22:\x22" ++ placeholder (str "user")
            ++ str "\x22,\x22tags\x22:\x7b\x22a\x22:1\x7d\x7d"))
        (some { Values := [{ Key := str "host", Value := str "api.example.com" },
                           { Key := str "user", Value := str "u1" }] })).1 := by
  have hbody : ∀ s ∈ [Segment.text (str "\x7b\x22name\x22:\x22"), Segment.token (str "user")],
      s.apart := by
    intro s hs
    simp only [List.mem_cons, List.mem_singleton, List.not_mem_nil, or_false] at hs
    rcases hs with rfl | rfl
    · exact ⟨noToken_of_no_opening _ (by decide),
        not_opens_of_no_opening _ (by decide) (by decide)⟩
    · exact (by decide : braceFree (str "user") = true)
  have hurl : ∀ s ∈ [Segment.text (str "https://"), Segment.token (str "host")],
      s.apart := by
    intro s hs
    simp only [List.mem_cons, List.mem_singleton, List.not_mem_nil, or_false] at hs
    rcases hs with rfl | rfl
    · exact ⟨noToken_of_no_opening _ (by decide),
        not_opens_of_no_opening _ (by decide) (by decide)⟩
    · exact (by decide : braceFree (str "host") = true)
  have htail : NoToken (str "\x22,\x22tags\x22:\x7b\x22a\x22:1\x7d\x7d") :=
    noToken_of_no_opening _ (by decide)
  have henv : ∀ e, some ({ Values := [{ Key := str "host", Value := str "api.example.com" },
      { Key := str "user", Value := str "u1" }] } : EnvSpec) = some e → ∀ kv ∈ e.Values,
      braceFree kv.Key = true ∧ braceFree kv.Value = true := by
    intro e he; injection he with he; subst he; decide
  constructor
  · refine (applyVariables_order_independent sampleBuiltins (fun m => m) (fun m => m)
      List.reverse List.reverse _ _ isRange_id isRange_reverse (by decide) henv).2 ?_
    intro fld x hx
    cases fld <;> simp [Field.get, sampleTemplateWithBody] at hx
    · exact ⟨_, _, hurl, noToken_of_no_opening (str "/items/\x7bid\x7d") (by decide), by
        rw [← hx]; rfl⟩
    · exact ⟨_, _, hbody, htail, by rw [← hx]; rfl⟩
  · exact (applyVariables_order_independent sampleBuiltins (fun m => m) (fun m => m)
      List.reverse List.reverse _ _ isRange_id isRange_reverse (by decide) henv).1
      .bodyData _ _ hbody htail rfl

/-- C17 (counterexample): the environment holds a = A and xAy = V, all names
and values without braces, and the URL is `{{x{{a}}y}}`.  Visiting the map in
the order of insertion gives V; visiting it in the reverse order gives
`{{xAy}}`. -/
theorem applyVariables_order_counterexample :
    IsRange (fun m => m) ∧ IsRange List.reverse ∧
    (∀ kv ∈ mergedVariables sampleBuiltins (fun m => m)
        (some { Values := [{ Key := str "a", Value := str "A" },
                           { Key := str "xAy", Value := str "V" }] }),
      braceFree kv.1 = true ∧ braceFree kv.2 = true) ∧
    (applyVariables sampleBuiltins (fun m => m) (fun m => m)
        (sampleTemplate (str "\x7b\x7bx" ++ placeholder (str "a") ++ str "y\x7d\x7d"))
        (some { Values := [{ Key := str "a", Value := str "A" },
                           { Key := str "xAy", Value := str "V" }] })).1.URL = str "V" ∧
    (applyVariables sampleBuiltins (fun m => m) List.reverse
        (sampleTemplate (str "\x7b\x7bx" ++ placeholder (str "a") ++ str "y\x7d\x7d"))
        (some { Values := [{ Key := str "a", Value := str "A" },
                           { Key := str "xAy", Value := str "V" }] })).1.URL
      = placeholder (str "xAy") ∧
    (applyVariables sampleBuiltins (fun m => m) (fun m => m)
        (sampleTemplate (str "\x7b\x7bx" ++ placeholder (str "a") ++ str "y\x7d\x7d"))
        (some { Values := [{ Key := str "a", Value := str "A" },
                           { Key := str "xAy", Value := str "V" }] })).1
      ≠ (applyVariables sampleBuiltins (fun m => m) List.reverse
        (sampleTemplate (str "\x7b\x7bx" ++ placeholder (str "a") ++ str "y\x7d\x7d"))
        (some { Values := [{ Key := str "a", Value := str "A" },
                           { Key := str "xAy", Value := str "V" }] })).1 :=
  ⟨isRange_id, isRange_reverse, by decide, by decide, by decide, by decide⟩

end Rest
